import Mathlib

/-!
# StaticRay: a verification development

A shallow embedding of the photon-mapping renderer `StaticRay` (C++).
Every definition below is a transcription of one function or type of the
sources (`Film.h`, `Stream.h`, `Colors.h`, `Lens.h`, `Shapes.h`,
`StaticRay.h`, `StaticRay.cpp`, `Xoroshiro.h`, `Vector.h`, `Types.h`).

Modelling conventions.

* `Real` (a C++ `float`) is modelled by an arbitrary linearly ordered field
  `K`; the definitions are executable at `K := ℚ` and the theorems hold in
  particular at `K := ℝ`.  Rounding of floating-point arithmetic is not
  modelled.  The range of `float` is modelled in `Develop`, which tests its
  results with `isnan` and `isinf`: there a result beyond `FLT_MAX` in
  magnitude is not finite.
* Square roots (`sqrt`, `csqrt`) are passed as a function `sqrt : K → K`.
* Unsigned machine integers are natural numbers reduced `% 2 ^ w`.
* `std::fstream` is modelled by an explicit state record (contents, cursor
  and the `failbit`/`badbit` flags); the outcome of each device write is read
  from an explicit list held by the stream.
-/

namespace StaticRay

/-! ## Film.h — `Fixed16` -/

section Fixed16

variable {K : Type} [LinearOrderedField K] [FloorRing K]

/-- C++ conversion of a floating-point value to an integer type: the
fractional part is discarded (truncation toward zero). -/
def truncate (v : K) : ℤ := if 0 ≤ v then ⌊v⌋ else ⌈v⌉

/-- `int32(v)` for a floating-point `v`.  In range the value is truncated
toward zero.  Out of range the conversion is undefined in C++; the model
takes the result of the x86 conversion instruction (`cvttss2si`), which is
`INT_MIN`. -/
def int32 (v : K) : ℤ :=
  let t := truncate v
  if -2147483648 ≤ t ∧ t ≤ 2147483647 then t else -2147483648

/-- `std::clamp(v, lo, hi)`. -/
def clamp (v lo hi : ℤ) : ℤ := if v < lo then lo else if hi < v then hi else v

/-- `int16(n)` for a 32-bit integer `n`: reduction to the signed 16-bit range. -/
def int16 (n : ℤ) : ℤ := (n + 32768) % 65536 - 32768

/-- `struct Fixed16 { int16 Value; }`: `Value` is in the range of `int16`. -/
structure Fixed16 where
  Value : ℤ
  inRange : -32768 ≤ Value ∧ Value ≤ 32767
  deriving DecidableEq

/-- `Fixed16::Fixed16(const Type Value)`:
`Value(int16(clamp(int32(Value * 32768r), int32(-32768), int32(32767))))`. -/
def Fixed16.ofReal (Value : K) : Fixed16 :=
  ⟨int16 (clamp (int32 (Value * 32768)) (-32768) 32767), by unfold int16; omega⟩

/-- `Fixed16::operator Real()`: `Real(Value) / 32768r`. -/
def Fixed16.toReal (f : Fixed16) : K := (f.Value : K) / 32768

end Fixed16

/-! ## Stream.h — `DataStream`

Model of `std::fstream` as the program uses it (binary mode, one cursor
shared by reads and writes):

* an operation on a stream that is not `good()` transfers nothing and sets
  an error flag;
* `read` of `n` bytes with fewer than `n` bytes left transfers what is left
  and sets `eofbit | failbit`;
* `seekg` clears `eofbit` and moves the cursor unless `fail()`; positions
  past the end of the file are accepted, as by the underlying file seek;
* `write` stores the bytes at the cursor unless the device reports an error,
  in which case `badbit` is set and nothing is stored. -/

section Stream

/-- Little-endian object representation of an unsigned integer of `w` bytes. -/
def leBytes : Nat → Nat → List Nat
  | 0, _ => []
  | w + 1, n => n % 256 :: leBytes w (n / 256)

/-- Value of a little-endian byte sequence. -/
def leValue : List Nat → Nat
  | [] => 0
  | b :: bs => b % 256 + 256 * leValue bs

/-- `DataStream::BlockMagic = 'ST'`: the multi-character literal has the
value `('S' << 8) | 'T'`. -/
def BlockMagic : Nat := 0x5354

/-- `DataStream::FileIdent`. -/
def FileIdent : Nat := 0

/-- `DataStream::VersionMajor`. -/
def VersionMajor : Nat := 1

/-- `DataStream::VersionMinor`. -/
def VersionMinor : Nat := 1

/-- `struct BlockHeader { uint16 Magic; uint16 Ident; uint32 Size; }`. -/
structure BlockHeader where
  Magic : Nat
  Ident : Nat
  Size : Nat
  deriving DecidableEq, Repr

/-- `sizeof(BlockHeader)`. -/
def sizeofBlockHeader : Nat := 8

/-- `BlockHeader(const uint16 Ident, const size_t Size)`:
`Magic(BlockMagic), Ident(Ident), Size(uint32(Size))`. -/
def BlockHeader.new (Ident Size : Nat) : BlockHeader :=
  ⟨BlockMagic, Ident % 2 ^ 16, Size % 2 ^ 32⟩

/-- `BlockHeader::Validate()`: `true` reports an invalid header. -/
def BlockHeader.Validate (h : BlockHeader) : Bool := h.Magic != BlockMagic

/-- `BlockHeader::Validate(RequiredIdent, RequiredSize)`. -/
def BlockHeader.ValidateAs (h : BlockHeader) (RequiredIdent RequiredSize : Nat) : Bool :=
  h.Validate || h.Ident != RequiredIdent || h.Size != RequiredSize

/-- Object representation of a `BlockHeader` (8 bytes, little-endian). -/
def BlockHeader.bytes (h : BlockHeader) : List Nat :=
  leBytes 2 h.Magic ++ leBytes 2 h.Ident ++ leBytes 4 h.Size

/-- The `BlockHeader` whose object representation starts the given bytes. -/
def BlockHeader.ofBytes (bs : List Nat) : BlockHeader :=
  ⟨leValue (bs.take 2), leValue ((bs.drop 2).take 2), leValue ((bs.drop 4).take 4)⟩

/-- `sizeof(FileHeader)`: the 8 bytes of the `BlockHeader`, the two version
bytes, and two bytes of tail padding (the structure is 4-byte aligned). -/
def sizeofFileHeader : Nat := 12

/-- Object representation of `FileHeader{}`; the padding bytes are taken to
be zero. -/
def FileHeader.bytes : List Nat :=
  (BlockHeader.new FileIdent sizeofFileHeader).bytes ++ [VersionMajor, VersionMinor, 0, 0]

/-- State of `DataStream::_File`. -/
structure DataStream where
  /-- Contents of the file, one entry per byte. -/
  data : List Nat
  /-- The file cursor. -/
  pos : Nat
  failbit : Bool
  eofbit : Bool
  badbit : Bool
  /-- Outcomes of the coming device writes, `true` for an error; when the
  list is exhausted writes succeed. -/
  dev : List Bool
  deriving DecidableEq, Repr

namespace DataStream

/-- `_File.fail()`. -/
def fail (s : DataStream) : Bool := s.failbit || s.badbit

/-- `_File.bad()`. -/
def bad (s : DataStream) : Bool := s.badbit

/-- `_File.good()`. -/
def good (s : DataStream) : Bool := !(s.failbit || s.eofbit || s.badbit)

/-- `_File.clear()`. -/
def clear (s : DataStream) : DataStream :=
  { s with failbit := false, eofbit := false, badbit := false }

/-- `_File.tellg()`: the cursor, or no position (`-1`) when `fail()`. -/
def tellg (s : DataStream) : Option Nat × DataStream :=
  let s := if s.good then s else { s with failbit := true }
  (if s.fail then none else some s.pos, s)

/-- `_File.seekg(pos)`. -/
def seekg (s : DataStream) (p : Nat) : DataStream :=
  let s := { s with eofbit := false }
  if s.fail then s else { s with pos := p }

/-- `_File.read(buffer, n)`: the bytes transferred and the new state. -/
def read (s : DataStream) (n : Nat) : List Nat × DataStream :=
  if !s.good then ([], { s with failbit := true })
  else
    let avail := s.data.drop s.pos
    if n ≤ avail.length then (avail.take n, { s with pos := s.pos + n })
    else (avail, { s with pos := s.pos + avail.length, failbit := true, eofbit := true })

/-- `_File.write(buffer, n)` for the `n` bytes given. -/
def write (s : DataStream) (bytes : List Nat) : DataStream :=
  if !s.good then { s with badbit := true }
  else if s.dev.headD false then { s with badbit := true, dev := s.dev.tail }
  else
    { s with
      data := s.data.take s.pos ++ List.replicate (s.pos - s.data.length) 0
                ++ bytes ++ s.data.drop (s.pos + bytes.length)
      pos := s.pos + bytes.length
      dev := s.dev.tail }

/-- `DataStream::Write`, both overloads, on the object representation of
the argument: `_File.write(...); return _File.bad();`. -/
def Write (s : DataStream) (bytes : List Nat) : Bool × DataStream :=
  let s := s.write bytes
  (s.bad, s)

/-- `DataStream::Read`, both overloads, for an object of `n` bytes:
`_File.read(...); return _File.fail();`. -/
def Read (s : DataStream) (n : Nat) : Bool × List Nat × DataStream :=
  let r := s.read n
  (r.2.fail, r.1, r.2)

/-- `DataStream::WriteHeader`. -/
def WriteHeader (s : DataStream) (bytes : List Nat) : Bool × DataStream :=
  s.Write bytes

/-- `DataStream::ReadHeader<BlockHeader>`: `Read(Header) || Header.Validate()`. -/
def ReadHeader (s : DataStream) : Bool × BlockHeader × DataStream :=
  let r := s.Read sizeofBlockHeader
  let hdr := BlockHeader.ofBytes r.2.1
  (r.1 || hdr.Validate, hdr, r.2.2)

/-- `DataStream::New`, once the file has been opened (truncated):
`Write(FileHeader{})`. -/
def New (dev : List Bool) : Bool × DataStream :=
  (DataStream.mk [] 0 false false false dev).Write FileHeader.bytes

/-- `DataStream::Rewind`. -/
def Rewind (s : DataStream) : Bool × DataStream :=
  let s := s.clear.seekg sizeofFileHeader
  (s.fail, s)

/-- `DataStream::Seek(Ident)`.  The `for (;;)` loop is unrolled at most
`fuel` times; `none` means the fuel ran out. -/
def Seek : Nat → Nat → DataStream → Option (Bool × DataStream)
  | 0, _, _ => none
  | fuel + 1, Ident, s =>
    -- const auto pos = _File.tellg();
    match s.tellg with
    | (none, s) => some (true, s)                 -- `_File.fail()`
    | (some pos, s) =>
      let r := s.ReadHeader
      if r.1 then some (true, r.2.2)              -- `ReadHeader(hdr)`
      else if r.2.1.Ident = Ident then
        some (false, r.2.2.seekg pos)
      else
        let s := r.2.2.seekg (pos + r.2.1.Size)
        if s.fail then some (true, (s.seekg pos).clear)
        else Seek fuel Ident s

end DataStream

end Stream

/-! ## Film.h — `ColorFilm` -/

section Film

/-- `enum BlockTags`: `TAG_Config`. -/
def TAG_Config : Nat := 1

/-- `enum BlockTags`: `TAG_Hits`. -/
def TAG_Hits : Nat := 2

/-- Object representation of the template parameter `HitType` of
`ColorFilm`: `size` is `sizeof HitType`, `toBytes` the memory image of a
record and `ofBytes` the record a memory image is read back as. -/
structure Layout (Hit : Type) where
  size : Nat
  toBytes : Hit → List Nat
  ofBytes : List Nat → Hit
  length_toBytes : ∀ h, (toBytes h).length = size
  ofBytes_toBytes : ∀ h, ofBytes (toBytes h) = h

/-- Memory image of an array of records. -/
def Layout.image {Hit : Type} (L : Layout Hit) (hs : List Hit) : List Nat :=
  (hs.map L.toBytes).flatten

/-- The first `n` consecutive pieces of `size` bytes of a memory image. -/
def chunks (size : Nat) : Nat → List Nat → List (List Nat)
  | 0, _ => []
  | n + 1, bs => bs.take size :: chunks size n (bs.drop size)

/-- `struct ConfigHeader : BlockHeader { float32 LensRadius; }`; the
`float32` is kept as its 32-bit image. -/
structure ConfigHeader where
  hdr : BlockHeader
  LensRadius : Nat
  deriving DecidableEq, Repr

/-- `sizeof(ConfigHeader)`. -/
def sizeofConfigHeader : Nat := 12

/-- `ConfigHeader(const float32 LensRadius)`:
`BlockHeader(TAG_Config, sizeof ConfigHeader), LensRadius(LensRadius)`. -/
def ConfigHeader.new (LensRadius : Nat) : ConfigHeader :=
  ⟨BlockHeader.new TAG_Config sizeofConfigHeader, LensRadius % 2 ^ 32⟩

/-- `ConfigHeader::Validate`. -/
def ConfigHeader.Validate (c : ConfigHeader) : Bool :=
  c.hdr.ValidateAs TAG_Config sizeofConfigHeader

/-- Object representation of a `ConfigHeader` (12 bytes). -/
def ConfigHeader.bytes (c : ConfigHeader) : List Nat :=
  c.hdr.bytes ++ leBytes 4 c.LensRadius

/-- The `ConfigHeader` whose object representation starts the given bytes. -/
def ConfigHeader.ofBytes (bs : List Nat) : ConfigHeader :=
  ⟨BlockHeader.ofBytes bs, leValue ((bs.drop 8).take 4)⟩

/-- `struct FilmHeader : BlockHeader { uint32 Count; }`. -/
structure FilmHeader where
  hdr : BlockHeader
  Count : Nat
  deriving DecidableEq, Repr

/-- `sizeof(FilmHeader)`. -/
def sizeofFilmHeader : Nat := 12

/-- `FilmHeader(const uint32 Count)`:
`BlockHeader(TAG_Hits, sizeof FilmHeader + sizeof HitType * Count), Count(Count)`;
`sizeofHit` is `sizeof HitType`. -/
def FilmHeader.new (sizeofHit Count : Nat) : FilmHeader :=
  ⟨BlockHeader.new TAG_Hits (sizeofFilmHeader + sizeofHit * (Count % 2 ^ 32)), Count % 2 ^ 32⟩

/-- `FilmHeader::Validate`; the required size is passed as a `uint32`. -/
def FilmHeader.Validate (sizeofHit : Nat) (h : FilmHeader) : Bool :=
  h.hdr.ValidateAs TAG_Hits ((sizeofFilmHeader + sizeofHit * h.Count) % 2 ^ 32)

/-- Object representation of a `FilmHeader` (12 bytes). -/
def FilmHeader.bytes (h : FilmHeader) : List Nat :=
  h.hdr.bytes ++ leBytes 4 h.Count

/-- The `FilmHeader` whose object representation starts the given bytes. -/
def FilmHeader.ofBytes (bs : List Nat) : FilmHeader :=
  ⟨BlockHeader.ofBytes bs, leValue ((bs.drop 8).take 4)⟩

/-- `DataStream::ReadHeader<FilmHeader>`. -/
def DataStream.ReadFilmHeader (s : DataStream) (sizeofHit : Nat) :
    Bool × FilmHeader × DataStream :=
  let r := s.Read sizeofFilmHeader
  let hdr := FilmHeader.ofBytes r.2.1
  (r.1 || hdr.Validate sizeofHit, hdr, r.2.2)

/-- `DataStream::ReadHeader<ConfigHeader>`. -/
def DataStream.ReadConfigHeader (s : DataStream) : Bool × ConfigHeader × DataStream :=
  let r := s.Read sizeofConfigHeader
  let hdr := ConfigHeader.ofBytes r.2.1
  (r.1 || hdr.Validate, hdr, r.2.2)

/-- `struct ColorFilm : vector<HitType>`.  `buf` and `capacity` are the
elements and the `capacity()` of the vector base; the `Stream` pointer is
passed to each operation as the stream it points to. -/
structure ColorFilm (Hit : Type) where
  buf : List Hit
  capacity : Nat
  Config : ConfigHeader
  _Exposures : Nat

namespace ColorFilm

variable {Hit : Type}

/-- `ColorFilm(DataStream* Stream, const size_t BufferLimit)`:
`this->reserve(BufferLimit)` on an empty vector. -/
def new (BufferLimit : Nat) : ColorFilm Hit :=
  ⟨[], BufferLimit, ConfigHeader.new 0, 0⟩

/-- Capacity of the vector after it has grown to hold `n` elements
(geometric growth by one half, as in the MSVC library). -/
def grow (capacity n : Nat) : Nat :=
  if n ≤ capacity then capacity else max (capacity + capacity / 2) n

/-- `vector::push_back`. -/
def push_back (f : ColorFilm Hit) (h : Hit) : ColorFilm Hit :=
  { f with buf := f.buf ++ [h], capacity := grow f.capacity (f.buf.length + 1) }

/-- `vector::resize(n)`; new elements are value-initialised (all bytes zero). -/
def resize (L : Layout Hit) (f : ColorFilm Hit) (n : Nat) : ColorFilm Hit :=
  { f with
    buf := f.buf.take n ++ List.replicate (n - f.buf.length) (L.ofBytes (List.replicate L.size 0))
    capacity := grow f.capacity n }

/-- `ColorFilm::Flush`. -/
def Flush (L : Layout Hit) (f : ColorFilm Hit) (s : DataStream) :
    Bool × ColorFilm Hit × DataStream :=
  -- const auto hits = uint32(this->size());  _Exposures += hits;
  let hits := f.buf.length % 2 ^ 32
  let f := { f with _Exposures := (f._Exposures + hits) % 2 ^ 64 }
  let hdr := FilmHeader.new L.size hits
  let w1 := s.WriteHeader hdr.bytes
  if w1.1 then (true, f, w1.2)
  else
    let w2 := w1.2.Write (L.image (f.buf.take hits))
    if w2.1 then (true, f, w2.2)
    else (false, { f with buf := [] }, w2.2)

/-- `ColorFilm::Expose`:
`push_back(Hit); return size() != capacity() || Flush();`. -/
def Expose (L : Layout Hit) (f : ColorFilm Hit) (s : DataStream) (h : Hit) :
    Bool × ColorFilm Hit × DataStream :=
  let f := f.push_back h
  if f.buf.length != f.capacity then (true, f, s) else f.Flush L s

/-- `ColorFilm::Read`; `fuel` bounds the loop of `Seek`. -/
def Read (L : Layout Hit) (fuel : Nat) (f : ColorFilm Hit) (s : DataStream) :
    Option (Bool × ColorFilm Hit × DataStream) :=
  match s.Seek fuel TAG_Hits with
  | none => none
  | some (true, s) => some (true, f, s)
  | some (false, s) =>
    let r := s.ReadFilmHeader L.size
    if r.1 then some (true, f, r.2.2)
    else
      -- this->resize(hdr.Count);  return Stream->Read(this->data(), hdr.Count);
      let f := f.resize L r.2.1.Count
      let rd := r.2.2.Read (L.size * r.2.1.Count)
      let mem := rd.2.1 ++ (L.image f.buf).drop rd.2.1.length
      some (rd.1, { f with buf := (chunks L.size r.2.1.Count mem).map L.ofBytes }, rd.2.2)

/-- `ColorFilm::ReadHits`: `for (; !Read(); Func(*this));`.  `Func` acts
on a state `σ` of its own and is given the records of the buffer; `fuel`
bounds both this loop and the loop of `Seek`. -/
def ReadHits {σ : Type} (L : Layout Hit) (Func : σ → List Hit → σ) :
    Nat → σ → ColorFilm Hit → DataStream → Option (σ × ColorFilm Hit × DataStream)
  | 0, _, _, _ => none
  | fuel + 1, acc, f, s =>
    match f.Read L (fuel + 1) s with
    | none => none
    | some (true, f, s) => some (acc, f, s)
    | some (false, f, s) => ReadHits L Func fuel (Func acc f.buf) f s

/-- `ColorFilm::WriteConfig`. -/
def WriteConfig (f : ColorFilm Hit) (s : DataStream) : Bool × DataStream :=
  s.WriteHeader f.Config.bytes

/-- `ColorFilm::ReadConfig`: `Stream->Seek(TAG_Config) || Stream->ReadHeader(Config)`. -/
def ReadConfig (fuel : Nat) (f : ColorFilm Hit) (s : DataStream) :
    Option (Bool × ColorFilm Hit × DataStream) :=
  match s.Seek fuel TAG_Config with
  | none => none
  | some (true, s) => some (true, f, s)
  | some (false, s) =>
    let r := s.ReadConfigHeader
    some (r.1, { f with Config := r.2.1 }, r.2.2)

end ColorFilm

/-- A block of the file: the identifier of its `BlockHeader` and the bytes
that follow the header. -/
structure Block where
  Ident : Nat
  payload : List Nat
  deriving DecidableEq, Repr

/-- The bytes of a block as the program writes it: every header
constructor (`FileHeader`, `ConfigHeader`, `FilmHeader`) stores in `Size`
the size of the whole block, the `BlockHeader` included. -/
def Block.bytes (b : Block) : List Nat :=
  (BlockHeader.new b.Ident (sizeofBlockHeader + b.payload.length)).bytes ++ b.payload

/-- The header fields of a block are not truncated. -/
def Block.wf (b : Block) : Prop :=
  b.Ident < 2 ^ 16 ∧ sizeofBlockHeader + b.payload.length < 2 ^ 32

instance (b : Block) : Decidable b.wf := by unfold Block.wf; infer_instance

/-- The bytes of a sequence of blocks. -/
def encodeBlocks (bs : List Block) : List Nat := (bs.map Block.bytes).flatten

end Film

section FilmFile

variable {Hit : Type}

/-- A block of a film file: a `Hits` block holding records, or a block with
another identifier. -/
inductive FilmBlock (Hit : Type) where
  | hits (records : List Hit)
  | other (Ident : Nat) (payload : List Nat)

/-- The block a film block stands for.  A `Hits` block is what `Flush`
writes: the `FilmHeader` (whose last four bytes are `Count`) followed by
the memory image of `Count` records. -/
def FilmBlock.toBlock (L : Layout Hit) : FilmBlock Hit → Block
  | .hits rs => ⟨TAG_Hits, leBytes 4 rs.length ++ L.image rs⟩
  | .other i p => ⟨i, p⟩

/-- Well-formed film block: no header field is truncated, and only `Hits`
blocks carry the identifier `TAG_Hits`. -/
def FilmBlock.wf (L : Layout Hit) : FilmBlock Hit → Prop
  | .hits rs => rs.length < 2 ^ 32 ∧ sizeofFilmHeader + L.size * rs.length < 2 ^ 32
  | .other i p => i ≠ TAG_Hits ∧ (Block.mk i p).wf

/-- The records of the `Hits` blocks of a film file, block by block, in
file order. -/
def hitsOf : List (FilmBlock Hit) → List (List Hit)
  | [] => []
  | .hits rs :: bs => rs :: hitsOf bs
  | .other _ _ :: bs => hitsOf bs

/-- The bytes of a sequence of film blocks. -/
def encodeFilm (L : Layout Hit) (bs : List (FilmBlock Hit)) : List Nat :=
  encodeBlocks (bs.map (FilmBlock.toBlock L))

end FilmFile

section RawLayout

/-- A record of `n` bytes seen as its memory image. -/
def RawHit (n : Nat) : Type := { l : List Nat // l.length = n }

/-- The layout of `RawHit n`: a record is its own memory image; bytes
missing from a short image read as zero. -/
def rawLayout (n : Nat) : Layout (RawHit n) where
  size := n
  toBytes := fun h => h.val
  ofBytes := fun bs => ⟨(bs ++ List.replicate n 0).take n, by simp⟩
  length_toBytes := fun h => h.property
  ofBytes_toBytes := fun h => by
    apply Subtype.ext
    show (h.val ++ List.replicate n 0).take n = h.val
    exact List.take_left' h.property

end RawLayout

section FilmWriting

variable {Hit : Type}

/-- The stream is in the state in which the renderer writes: no error
flag is set and the cursor is at the end of the file. -/
def DataStream.atEnd (s : DataStream) : Prop :=
  s.failbit = false ∧ s.eofbit = false ∧ s.badbit = false ∧ s.pos = s.data.length

instance (s : DataStream) : Decidable s.atEnd := by
  unfold DataStream.atEnd; infer_instance

/-- Every coming device write succeeds. -/
def DataStream.noFaults (s : DataStream) : Prop := ∀ b ∈ s.dev, b = false

instance (s : DataStream) : Decidable s.noFaults := by
  unfold DataStream.noFaults; infer_instance

/-- The bytes `Flush` sends to the stream for a buffer holding `rs`: the
`FilmHeader` and then the records. -/
def ColorFilm.blockBytes (L : Layout Hit) (rs : List Hit) : List Nat :=
  (FilmHeader.new L.size rs.length).bytes ++ L.image rs

/-- Successive calls of `Expose`, one per hit, in order; the return values
are discarded, as the lens discards them. -/
def ColorFilm.ExposeAll (L : Layout Hit) :
    ColorFilm Hit → DataStream → List Hit → ColorFilm Hit × DataStream
  | f, s, [] => (f, s)
  | f, s, h :: hs => ColorFilm.ExposeAll L (f.Expose L s h).2.1 (f.Expose L s h).2.2 hs

/-- The data stream of `Render` together with the films of its workers. -/
structure Workers (Hit : Type) where
  stream : DataStream
  films : List (ColorFilm Hit)

/-- An operation of a worker on its film. -/
inductive FilmOp (Hit : Type) where
  | expose (worker : Nat) (h : Hit)
  | flush (worker : Nat)

/-- Effect of one operation; a `Flush` holds the lock of the stream from
its first to its last write, so operations act on the stream one at a time. -/
def Workers.step (L : Layout Hit) (w : Workers Hit) : FilmOp Hit → Workers Hit
  | .expose i h =>
    match w.films[i]? with
    | none => w
    | some f => ⟨(f.Expose L w.stream h).2.2, w.films.set i (f.Expose L w.stream h).2.1⟩
  | .flush i =>
    match w.films[i]? with
    | none => w
    | some f => ⟨(f.Flush L w.stream).2.2, w.films.set i (f.Flush L w.stream).2.1⟩

/-- Effect of a sequence of operations. -/
def Workers.run (L : Layout Hit) (w : Workers Hit) (ops : List (FilmOp Hit)) : Workers Hit :=
  ops.foldl (Workers.step L) w

/-- Sum of the `_Exposures` counters of the films (the `exposures`
statistic of `Render`). -/
def Workers.exposures (w : Workers Hit) : Nat :=
  (w.films.map (fun f => f._Exposures)).sum

/-- Set-up of `Render`: `data.New(filename)`, one film of capacity `Buffer`
per thread with `Config = { LensRadius }`, then `states[0].Film.WriteConfig()`.
`dev` lists the outcomes of the device writes. -/
def Workers.init (dev : List Bool) (LensRadius Buffer Threads : Nat) : Workers Hit :=
  let film : ColorFilm Hit := { (ColorFilm.new Buffer : ColorFilm Hit) with
    Config := ConfigHeader.new LensRadius }
  ⟨(film.WriteConfig (DataStream.New dev).2).2, List.replicate Threads film⟩

/-- The exposure scan of `Develop` on the contents of a film file, the file
header having been read by `Open`:
`film.ReadHits([&](auto& hits) { photons += hits.size(); })`.
It adds up the `Count` fields of the `Hits` blocks of the file. -/
def countPhotons (L : Layout Hit) (fuel : Nat) (data : List Nat) : Option Nat :=
  (ColorFilm.ReadHits L (fun photons hits => photons + hits.length) fuel 0
    (ColorFilm.new (2 ^ 20))
    (DataStream.mk data sizeofFileHeader false false false [])).map (fun r => r.1)

end FilmWriting

section WorkersInvariant

variable {Hit : Type}

/-- Invariant of the rendering phase while no device write fails, for films
of capacity `Buffer` writing behind the initial contents `data0`, after at
most `k` operations: the stream is writable at its end, every buffer is
below capacity, the file is `data0` followed by well-formed `Hits` blocks
whose record counts add up to the `_Exposures` counters, and the counters
and buffers together hold at most `k` records. -/
def Workers.Inv (L : Layout Hit) (data0 : List Nat) (Buffer k : Nat) (w : Workers Hit) : Prop :=
  w.stream.atEnd ∧ w.stream.noFaults ∧
  (∀ f ∈ w.films, f.capacity = Buffer ∧ f.buf.length < Buffer) ∧
  (∃ chunks : List (List Hit),
    w.stream.data = data0 ++ encodeFilm L (chunks.map FilmBlock.hits) ∧
    (∀ c ∈ chunks, (FilmBlock.hits c).wf L) ∧
    (chunks.map List.length).sum = w.exposures) ∧
  w.exposures + (w.films.map (fun f => f.buf.length)).sum ≤ k

end WorkersInvariant

/-! ## Types.h, Vector.h -/

section Vector

variable {K : Type} [LinearOrderedField K]

/-- `constexpr Real Epsilon = 0x1p-22r`. -/
def Epsilon : K := 1 / 4194304

/-- `sqrtNewtonRaphson(x, curr, prev)`, unrolled at most `fuel` times (in
floating point the iteration stops by itself when `curr == prev`). -/
def sqrtNewtonRaphson (x : K) : Nat → K → K → K
  | 0, curr, _ => curr
  | fuel + 1, curr, prev =>
    if curr = prev then curr else sqrtNewtonRaphson x fuel (1 / 2 * (curr + x / curr)) curr

/-- `csqrt(x)` for `0 <= x < Infinity`: `sqrtNewtonRaphson(x, x, 0)`. -/
def csqrt (fuel : Nat) (x : K) : K := sqrtNewtonRaphson x fuel x 0

/-- `RVector = LinearVector3D<Real>`: components `x, y, z, w`. -/
structure RVector (K : Type) where
  x : K
  y : K
  z : K
  w : K
  deriving DecidableEq, Repr

namespace RVector

/-- `operator+ (const VectorType&)`. -/
def add (a b : RVector K) : RVector K := ⟨a.x + b.x, a.y + b.y, a.z + b.z, a.w + b.w⟩

/-- `operator- (const VectorType&)`. -/
def sub (a b : RVector K) : RVector K := ⟨a.x - b.x, a.y - b.y, a.z - b.z, a.w - b.w⟩

/-- `operator* (const VectorType&)`. -/
def mul (a b : RVector K) : RVector K := ⟨a.x * b.x, a.y * b.y, a.z * b.z, a.w * b.w⟩

/-- `operator* (const ScalarType)`. -/
def smul (a : RVector K) (s : K) : RVector K := ⟨a.x * s, a.y * s, a.z * s, a.w * s⟩

/-- `operator/ (const ScalarType)`. -/
def sdiv (a : RVector K) (s : K) : RVector K := ⟨a.x / s, a.y / s, a.z / s, a.w / s⟩

/-- `Sum()`: `x + y + z`. -/
def Sum (a : RVector K) : K := a.x + a.y + a.z

/-- `Dot(Other)`: `(*this * Other).Sum()`. -/
def Dot (a b : RVector K) : K := (a.mul b).Sum

/-- `LengthSq()`: `Dot(*this)`. -/
def LengthSq (a : RVector K) : K := a.Dot a

/-- `Cross(Other)`; the fourth component is the default `0` of the
constructor. -/
def Cross (a b : RVector K) : RVector K :=
  ⟨a.y * b.z - a.z * b.y, a.z * b.x - a.x * b.z, a.x * b.y - a.y * b.x, 0⟩

/-- `ConstLength()`: `csqrt(LengthSq())`. -/
def ConstLength (sqrt : K → K) (a : RVector K) : K := sqrt a.LengthSq

/-- `ConstNormalized()`: `*this / ConstLength()`. -/
def ConstNormalized (sqrt : K → K) (a : RVector K) : RVector K := a.sdiv (a.ConstLength sqrt)

end RVector

/-- `RColor = FloatColor4<Real>`: `x, y, z, w` are red, green, blue, alpha. -/
structure RColor (K : Type) where
  x : K
  y : K
  z : K
  w : K
  deriving DecidableEq, Repr

namespace RColor

/-- `operator* (const VectorType&)`. -/
def mul (a b : RColor K) : RColor K := ⟨a.x * b.x, a.y * b.y, a.z * b.z, a.w * b.w⟩

/-- `operator* (const ScalarType)`. -/
def smul (a : RColor K) (s : K) : RColor K := ⟨a.x * s, a.y * s, a.z * s, a.w * s⟩

/-- `operator/ (const ScalarType)`. -/
def sdiv (a : RColor K) (s : K) : RColor K := ⟨a.x / s, a.y / s, a.z / s, a.w / s⟩

/-- `Sum()`: `x + y + z`. -/
def Sum (a : RColor K) : K := a.x + a.y + a.z

/-- `Max4(Other)` with the scalar `m` converted to a vector. -/
def Max4 (a : RColor K) (m : K) : RColor K := ⟨max a.x m, max a.y m, max a.z m, max a.w m⟩

/-- `Min4(Other)` with the scalar `m` converted to a vector. -/
def Min4 (a : RColor K) (m : K) : RColor K := ⟨min a.x m, min a.y m, min a.z m, min a.w m⟩

/-- `Clamp4(Minimum, Maximum)`: `Max4(Minimum).Min4(Maximum)`. -/
def Clamp4 (a : RColor K) (Minimum Maximum : K) : RColor K := (a.Max4 Minimum).Min4 Maximum

end RColor

/-- `BColor = IntegerColor4<uint8>`: `x, y, z, w` are red, green, blue,
alpha, each in the range of `uint8`. -/
structure BColor where
  x : Nat
  y : Nat
  z : Nat
  w : Nat
  inRange : x < 256 ∧ y < 256 ∧ z < 256 ∧ w < 256
  deriving DecidableEq

end Vector

/-! ## Colors.h — `RGBSystem` -/

section Colors

variable {K : Type} [LinearOrderedField K]

namespace RGBSystem

/-- `RGBSystem::LumaCutoff = 0.001r`. -/
def LumaCutoff : K := 1 / 1000

/-- `RGBSystem::Emit`. -/
def Emit (Emitter : RColor K) : RColor K := Emitter

/-- `RGBSystem::Absorb`: `return (Color *= Material).Sum() < LumaCutoff;`
The result is the value returned and the new value of `Color`. -/
def Absorb (Color Material : RColor K) : Bool × RColor K :=
  (decide ((Color.mul Material).Sum < LumaCutoff), Color.mul Material)

variable [FloorRing K]

/-- `uint8(v)` for a floating-point `v` (here always in `[0, 255]`). -/
def uint8 (v : K) : Nat := (truncate v % 256).toNat

/-- `RGBSystem::Store`: `return {(Color * 255r).Clamp4(0r, 255r), 0};`. -/
def Store (Color : RColor K) : BColor :=
  let c := (Color.smul 255).Clamp4 0 255
  ⟨uint8 c.x, uint8 c.y, uint8 c.z, 0, by unfold uint8; omega⟩

/-- `RGBSystem::Load`: `return EmissiveType(Color) / 255r;`. -/
def Load (Color : BColor) : RColor K :=
  (RColor.mk (Color.x : K) (Color.y : K) (Color.z : K) (Color.w : K)).sdiv 255

end RGBSystem

/-- `HitRecord<Fixed16, RGBSystem>`. -/
structure HitRecord where
  Pos_u : Fixed16
  Pos_v : Fixed16
  Dir_u : Fixed16
  Dir_v : Fixed16
  Clr : BColor
  deriving DecidableEq

/-- Object representation of an `int16`: two bytes, little-endian, two's
complement. -/
def Fixed16.bytes (f : Fixed16) : List Nat := leBytes 2 (f.Value % 65536).toNat

/-- The `Fixed16` whose object representation starts the given bytes. -/
def Fixed16.ofBytes (bs : List Nat) : Fixed16 :=
  ⟨int16 (leValue (bs.take 2)), by unfold int16; omega⟩

/-- Object representation of a `BColor`: the components are declared in
the order `z, y, x, w`. -/
def BColor.bytes (c : BColor) : List Nat := [c.z, c.y, c.x, c.w]

/-- The `BColor` whose object representation starts the given bytes. -/
def BColor.ofBytes (bs : List Nat) : BColor :=
  ⟨bs.getD 2 0 % 256, bs.getD 1 0 % 256, bs.getD 0 0 % 256, bs.getD 3 0 % 256, by omega⟩

/-- The layout of `HitRecord<Fixed16, RGBSystem>`: `Pos.u`, `Pos.v`,
`Dir.u`, `Dir.v` (two bytes each) and `Clr` (four bytes); `sizeof` is 12. -/
def HitRecord.layout : Layout HitRecord where
  size := 12
  toBytes := fun r =>
    r.Pos_u.bytes ++ r.Pos_v.bytes ++ r.Dir_u.bytes ++ r.Dir_v.bytes ++ r.Clr.bytes
  ofBytes := fun bs =>
    ⟨Fixed16.ofBytes bs, Fixed16.ofBytes (bs.drop 2), Fixed16.ofBytes (bs.drop 4),
      Fixed16.ofBytes (bs.drop 6), BColor.ofBytes (bs.drop 8)⟩
  length_toBytes := fun r => by
    simp [Fixed16.bytes, BColor.bytes, leBytes]
  ofBytes_toBytes := fun r => by
    obtain ⟨⟨a, ha⟩, ⟨b, hb⟩, ⟨c, hc⟩, ⟨d, hd⟩, ⟨x, y, z, w, hx⟩⟩ := r
    simp only [Fixed16.bytes, BColor.bytes, Fixed16.ofBytes, BColor.ofBytes, leBytes,
      List.cons_append, List.nil_append, List.take_succ_cons, List.take_zero,
      List.drop_succ_cons, List.drop_zero, leValue, int16, List.getD_cons_zero,
      List.getD_cons_succ, HitRecord.mk.injEq, Fixed16.mk.injEq, BColor.mk.injEq]
    refine ⟨?_, ?_, ?_, ?_, ?_, ?_, ?_, ?_⟩ <;> omega

/-- `HitRecord(UPos, VPos, UDir, VDir, Color)`:
`Pos{CoordType(UPos), CoordType(VPos)}, Dir{CoordType(UDir), CoordType(VDir)},
Clr(ColorSystem::Store(Color))`. -/
def HitRecord.new [FloorRing K] (UPos VPos UDir VDir : K) (Color : RColor K) : HitRecord :=
  ⟨Fixed16.ofReal UPos, Fixed16.ofReal VPos, Fixed16.ofReal UDir, Fixed16.ofReal VDir,
    RGBSystem.Store Color⟩

end Colors

/-! ## Shapes.h, Lens.h, StaticRay.h, StaticRay.cpp — the tracer -/

section Tracer

variable {K : Type} [LinearOrderedField K]

/-- `struct Sphere<Position, Radius, Material>`; `M` is the type of the
descriptions of materials. -/
structure Sphere (K M : Type) where
  Position : RVector K
  Radius : K
  Material : M

/-- `struct Plane<Position, Normal, Material>`. -/
structure Plane (K M : Type) where
  Position : RVector K
  Normal : RVector K
  Material : M

/-- `struct Lens<Position, Direction, Up, Aperture, FLimit>`. -/
structure Lens (K : Type) where
  Position : RVector K
  Direction : RVector K
  Up : RVector K
  Aperture : K
  FLimit : K

/-- The closures a shape installs with `State.Hit`, as data: the closure
of a sphere or a plane captures the shape, the closure of the lens captures
the lens and the intersection point `pos`. -/
inductive HitFunc (K M : Type) where
  | sphere (S : Sphere K M)
  | plane (P : Plane K M)
  | lens (L : Lens K) (pos : RVector K)

/-- `struct TraceState<ColorType, FilmType>` with `ColorType = RColor` and
`FilmType = ColorFilm<HitRecord<Fixed16, RGBSystem>>`. -/
structure TraceState (K M : Type) where
  Film : ColorFilm HitRecord
  RNG : Nat × Nat
  Position : RVector K
  Direction : RVector K
  Color : RColor K
  _PoolRand : RVector K
  _PoolIndex : ℤ
  _Hits : ℤ
  _HitDist : WithTop K
  _HitNorm : RVector K
  _HitFunc : Option (HitFunc K M)

namespace TraceState

variable {M : Type}

/-- `TraceState::Reset`: `_HitDist = Infinity; _HitFunc = nullptr;`. -/
def Reset (State : TraceState K M) : TraceState K M :=
  { State with _HitDist := ⊤, _HitFunc := none }

/-- `TraceState::Hit`: `_HitDist = Distance; _HitFunc = Interface;`. -/
def Hit (State : TraceState K M) (Distance : K) (Interface : HitFunc K M) : TraceState K M :=
  { State with _HitDist := (Distance : WithTop K), _HitFunc := some Interface }

end TraceState

namespace Sphere

variable {M : Type}

/-- `Sphere::_RadSq`. -/
def _RadSq (S : Sphere K M) : K := S.Radius * S.Radius

/-- `Sphere::_InvRad`: the vector with all components `1r / Radius`. -/
def _InvRad (S : Sphere K M) : RVector K :=
  ⟨1 / S.Radius, 1 / S.Radius, 1 / S.Radius, 1 / S.Radius⟩

/-- `Sphere::HitExterior`. -/
def HitExterior (sqrt : K → K) (S : Sphere K M) (State : TraceState K M) : TraceState K M :=
  let dlt := S.Position.sub State.Position
  let adj := dlt.Dot State.Direction
  if adj < Epsilon then State
  else
    let oppSq := dlt.LengthSq - adj * adj
    if oppSq ≥ S._RadSq then State
    else
      let dist := adj - sqrt (S._RadSq - oppSq)
      if State._HitDist ≤ (dist : WithTop K) then State
      else State.Hit dist (.sphere S)

/-- `Sphere::HitNormal`. -/
def HitNormal (S : Sphere K M) (State : TraceState K M) : TraceState K M :=
  { State with _HitNorm := (State.Position.sub S.Position).mul S._InvRad }

end Sphere

namespace Plane

variable {M : Type}

/-- `Plane::HitExterior`. -/
def HitExterior (P : Plane K M) (State : TraceState K M) : TraceState K M :=
  let d := P.Normal.Dot State.Direction
  if d > -Epsilon then State
  else
    let dist := P.Normal.Dot (P.Position.sub State.Position) / d
    if State._HitDist ≤ (dist : WithTop K) ∨ dist < Epsilon then State
    else State.Hit dist (.plane P)

/-- `Plane::HitNormal`. -/
def HitNormal (P : Plane K M) (State : TraceState K M) : TraceState K M :=
  { State with _HitNorm := P.Normal }

end Plane

namespace Lens

variable {M : Type}

/-- `Lens::_FLim`: `RVector(1, -FLimit).ConstNormalized().y`. -/
def _FLim (sqrt : K → K) (L : Lens K) : K :=
  ((RVector.mk 1 (-L.FLimit) 0 0).ConstNormalized sqrt).y

/-- `Lens::_RadSq`: `(Aperture * Aperture) / 4r`. -/
def _RadSq (L : Lens K) : K := (L.Aperture * L.Aperture) / 4

/-- `Lens::_U`: `Direction.Cross(Up).ConstNormalized()`. -/
def _U (sqrt : K → K) (L : Lens K) : RVector K := (L.Direction.Cross L.Up).ConstNormalized sqrt

/-- `Lens::_V`: `Direction.Cross(_U)`. -/
def _V (sqrt : K → K) (L : Lens K) : RVector K := L.Direction.Cross (L._U sqrt)

/-- `Lens::_Ua`: `_U / Aperture / 2r`. -/
def _Ua (sqrt : K → K) (L : Lens K) : RVector K := ((L._U sqrt).sdiv L.Aperture).sdiv 2

/-- `Lens::_Va`: `_V / Aperture / 2r`. -/
def _Va (sqrt : K → K) (L : Lens K) : RVector K := ((L._V sqrt).sdiv L.Aperture).sdiv 2

/-- `Lens::HitExterior`. -/
def HitExterior (sqrt : K → K) (L : Lens K) (State : TraceState K M) : TraceState K M :=
  -- Project the lens direction on the ray direction.
  let proj := L.Direction.Dot State.Direction
  -- Ignore photons beyond the F-limit.
  if proj > L._FLim sqrt then State
  else
    -- Distance to the intersection on the lens plane.
    let dist := L.Direction.Dot (L.Position.sub State.Position) / proj
    if State._HitDist ≤ (dist : WithTop K) ∨ dist < Epsilon then State
    else
      -- Compute the final intersection position.
      let pos := State.Position.add (State.Direction.smul dist)
      -- Ignore intersections outside the lens's radius.
      if (pos.sub L.Position).LengthSq ≥ L._RadSq then State
      else State.Hit dist (.lens L pos)

/-- The record the capture closure of the lens builds:
`{_Ua.Dot(pos), _Va.Dot(pos), _U.Dot(State.Direction), _V.Dot(State.Direction), State.Color}`. -/
def record [FloorRing K] (sqrt : K → K) (L : Lens K) (pos : RVector K)
    (State : TraceState K M) : HitRecord :=
  HitRecord.new ((L._Ua sqrt).Dot pos) ((L._Va sqrt).Dot pos)
    ((L._U sqrt).Dot State.Direction) ((L._V sqrt).Dot State.Direction) State.Color

/-- The closure installed by `Lens::HitExterior`:
`State.Position = pos; State.Film.Expose({...}); return false;`.
`Lay` is the layout of `HitRecord` in the file and `s` the stream the
film points to. -/
def capture [FloorRing K] (sqrt : K → K) (Lay : Layout HitRecord) (L : Lens K)
    (pos : RVector K) (State : TraceState K M) (s : DataStream) :
    Bool × TraceState K M × DataStream :=
  let State := { State with Position := pos }
  let r := State.Film.Expose Lay s (L.record sqrt pos State)
  (false, { State with Film := r.2.1 }, r.2.2)

end Lens

/-- A shape of the scene tuple. -/
inductive Shape (K M : Type) where
  | sphere (S : Sphere K M)
  | plane (P : Plane K M)
  | lens (L : Lens K)

variable {M : Type}

/-- `Shape.HitExterior(State)` for a member of the scene tuple. -/
def Shape.HitExterior (sqrt : K → K) : Shape K M → TraceState K M → TraceState K M
  | .sphere S, State => S.HitExterior sqrt State
  | .plane P, State => P.HitExterior State
  | .lens L, State => L.HitExterior sqrt State

/-- Call of a stored closure.  The closures of a sphere and of a plane are
`State.Position += State.Direction * State._HitDist;
return Material::Interface(State, *this);`
with `Interface` given the material and the `HitNormal` of the shape (when
a closure runs, `_HitDist` is the finite distance stored by `Hit`). -/
def HitFunc.call [FloorRing K] (sqrt : K → K) (Lay : Layout HitRecord)
    (Interface : M → (TraceState K M → TraceState K M) → TraceState K M → Bool × TraceState K M)
    (f : HitFunc K M) (State : TraceState K M) (s : DataStream) :
    Bool × TraceState K M × DataStream :=
  match f with
  | .sphere S =>
    let State := { State with
      Position := State.Position.add (State.Direction.smul (State._HitDist.untop' 0)) }
    ((Interface S.Material S.HitNormal State).1, (Interface S.Material S.HitNormal State).2, s)
  | .plane P =>
    let State := { State with
      Position := State.Position.add (State.Direction.smul (State._HitDist.untop' 0)) }
    ((Interface P.Material P.HitNormal State).1, (Interface P.Material P.HitNormal State).2, s)
  | .lens L pos => L.capture sqrt Lay pos State s

/-- `Trace(Scene, State)`:
`State.Reset(); (Shape.HitExterior(State), ...);
return State._HitFunc ? State._HitFunc() : false;`. -/
def Trace [FloorRing K] (sqrt : K → K) (Lay : Layout HitRecord)
    (Interface : M → (TraceState K M → TraceState K M) → TraceState K M → Bool × TraceState K M)
    (Scene : List (Shape K M)) (State : TraceState K M) (s : DataStream) :
    Bool × TraceState K M × DataStream :=
  let State := Scene.foldl (fun st sh => sh.HitExterior sqrt st) State.Reset
  match State._HitFunc with
  | some f => f.call sqrt Lay Interface State s
  | none => (false, State, s)

end Tracer

/-! ## Sample inputs -/

section Samples

/-- A photon state over `ℚ` at `Position` heading along `Direction` with
colour `Color`, with an empty film of the given capacity. -/
def sampleState (Position Direction : RVector ℚ) (Color : RColor ℚ) (capacity : Nat) :
    TraceState ℚ Unit :=
  { Film := ColorFilm.new capacity, RNG := (0, 0), Position := Position,
    Direction := Direction, Color := Color, _PoolRand := ⟨0, 0, 0, 0⟩, _PoolIndex := 0,
    _Hits := 0, _HitDist := ⊤, _HitNorm := ⟨0, 0, 0, 0⟩, _HitFunc := none }

/-- The plane `z = h` facing `+Z`. -/
def samplePlane (h : ℚ) : Plane ℚ Unit := ⟨⟨0, 0, h, 0⟩, ⟨0, 0, 1, 0⟩, ()⟩

end Samples

/-! ## Lights.h -/

section Lights

variable {K : Type} [LinearOrderedField K] {M : Type}

/-- `struct PointBeam<Position, Direction, Intensity, Color>`. -/
structure PointBeam (K : Type) where
  Position : RVector K
  Direction : RVector K
  Intensity : K
  Color : RColor K

/-- `PointBeam::Emit`: `State.Position = Position; State.Direction = Direction;
this->EmitColor(State);`. -/
def PointBeam.Emit (P : PointBeam K) (State : TraceState K M) : TraceState K M :=
  { State with
    Position := P.Position
    Direction := P.Direction
    Color := RGBSystem.Emit P.Color }

end Lights

/-! ## Xoroshiro.h -/

section Xoroshiro

/-- `rotl(x, k)`: `(x << k) | (x >> (64 - k))` on `uint64`. -/
def rotl (x k : Nat) : Nat := ((x <<< k) % 2 ^ 64) ||| (x >>> (64 - k))

/-- `struct Random128 { array<uint64, 2> State; }`. -/
structure Random128 where
  State0 : Nat
  State1 : Nat
  deriving DecidableEq, Repr

namespace Random128

/-- `Random128::operator()`: the value returned and the generator after
the call. -/
def next (r : Random128) : Nat × Random128 :=
  let s0 := r.State0
  let s1 := r.State1
  let v := (s0 + s1) % 2 ^ 64
  let s1 := s1 ^^^ s0
  (v, ⟨rotl s0 24 ^^^ s1 ^^^ ((s1 <<< 16) % 2 ^ 64), rotl s1 37⟩)

/-- The inner loop of `Random128::Jump` for one word `j` of the jump
polynomial, run for the bits `0 .. n - 1`:
`if (j & 1ull << b) { s0 ^= State[0]; s1 ^= State[1]; }` and then
`(*this)()`.  The pair is `({s0, s1}, *this)`. -/
def jumpWord (j : Nat) : Nat → Random128 × Random128 → Random128 × Random128
  | 0, p => p
  | b + 1, p =>
    ((if j &&& (1 <<< b) ≠ 0 then
        ⟨(jumpWord j b p).1.State0 ^^^ (jumpWord j b p).2.State0,
          (jumpWord j b p).1.State1 ^^^ (jumpWord j b p).2.State1⟩
      else (jumpWord j b p).1),
      (jumpWord j b p).2.next.2)

/-- `Random128::Jump`. -/
def Jump (r : Random128) (Jump : List Nat) : Random128 :=
  (Jump.foldl (fun p j => jumpWord j 64 p) (⟨0, 0⟩, r)).1

/-- `Random128::ShortJump`. -/
def ShortJump (r : Random128) : Random128 :=
  r.Jump [0xDF900294D8F554A5, 0x170865DF4B3201FC]

/-- `Random128::LongJump`. -/
def LongJump (r : Random128) : Random128 :=
  r.Jump [0xD2A98B26625EEE7B, 0xDDDF9B1090AA7AC1]

/-- Both words of the state are in the range of `uint64`. -/
def valid (r : Random128) : Prop := r.State0 < 2 ^ 64 ∧ r.State1 < 2 ^ 64

/-- The state as one number of 128 bits. -/
def pack (r : Random128) : Nat := r.State0 + 18446744073709551616 * r.State1

/-- The state a number of 128 bits stands for. -/
def unpack (n : Nat) : Random128 := ⟨n % 18446744073709551616, n / 18446744073709551616⟩

end Random128

/-! ### The jump as linear algebra over the two-element field

The state transition of the generator is linear for the bitwise exclusive
or.  The definitions below compute with linear maps of the 128-bit state
space: a map is stored as one number, the images of the 128 unit vectors
side by side (`col M i` is the image of `2 ^ i`).  They are written with
the primitive operations of `Nat`, on which the kernel computes with binary
numbers. -/

/-- The number `2 ^ 64`. -/
def W64 : Nat := 18446744073709551616

/-- The number `2 ^ 128`. -/
def W128 : Nat := 340282366920938463463374607431768211456

/-- The state transition of `Random128::operator()` on packed states. -/
def nextN (n : Nat) : Nat :=
  Nat.add
    (Nat.xor
      (Nat.xor
        (Nat.lor (Nat.mod (Nat.shiftLeft (Nat.mod n W64) 24) W64)
          (Nat.shiftRight (Nat.mod n W64) 40))
        (Nat.xor (Nat.div n W64) (Nat.mod n W64)))
      (Nat.mod (Nat.shiftLeft (Nat.xor (Nat.div n W64) (Nat.mod n W64)) 16) W64))
    (Nat.mul W64
      (Nat.lor (Nat.mod (Nat.shiftLeft (Nat.xor (Nat.div n W64) (Nat.mod n W64)) 37) W64)
        (Nat.shiftRight (Nat.xor (Nat.div n W64) (Nat.mod n W64)) 27)))

/-- One turn of the inner loop of `Jump` on the pair `(acc, cur)` of packed
states: `acc` absorbs `cur` when `bit` is 1, and `cur` advances. -/
def jumpStepC (bit : Nat) (p : Nat × Nat) : Nat × Nat :=
  (p.1 ^^^ p.2 * bit, nextN p.2)

/-- The inner loop of `Jump` for the bits `0 .. n - 1` of `j`, on pairs of
packed states. -/
def jumpWordC (j : Nat) : Nat → Nat × Nat → Nat × Nat
  | 0, p => p
  | b + 1, p => jumpStepC ((j >>> b) % 2) (jumpWordC j b p)

/-- One turn of the inner loop of `Jump` for bit `b` of `j`, on the number
`p = acc + 2 ^ 128 * cur`. -/
def jumpStepN (j b p : Nat) : Nat :=
  Nat.add (Nat.xor (Nat.mod p W128) (Nat.mul (Nat.div p W128) (Nat.mod (Nat.shiftRight j b) 2)))
    (Nat.mul W128 (nextN (Nat.div p W128)))

/-- The inner loop of `Jump` for the bits `0 .. n - 1` of `j`. -/
def jumpWordN (j p n : Nat) : Nat :=
  Nat.rec p (fun b ih => jumpStepN j b ih) n

/-- `Random128::LongJump` on packed states. -/
def longJumpN (s : Nat) : Nat :=
  Nat.mod (jumpWordN 0xDDDF9B1090AA7AC1 (jumpWordN 0xD2A98B26625EEE7B (Nat.mul W128 s) 64) 64) W128

/-- Column `i` of a stored linear map. -/
def col (M i : Nat) : Nat := Nat.mod (Nat.shiftRight M (Nat.mul 128 i)) W128

/-- The stored linear map `M` applied to the low `n` bits of `s`: the
exclusive or of the columns selected by the bits of `s`. -/
def applyM (M s n : Nat) : Nat :=
  Nat.rec 0 (fun i ih => Nat.xor (Nat.mul (col M i) (Nat.mod (Nat.shiftRight s i) 2)) ih) n

/-- The stored linear map with the columns `c 0, ..., c (n - 1)`. -/
def mkM (c : Nat → Nat) (n : Nat) : Nat :=
  Nat.rec 0 (fun i ih => Nat.xor (Nat.shiftLeft (c i) (Nat.mul 128 i)) ih) n

/-- The square of a stored linear map. -/
def sqM (M : Nat) : Nat := mkM (fun i => applyM M (col M i) 128) 128

/-- `k` successive squarings of a stored linear map. -/
def powM (k M : Nat) : Nat :=
  Nat.rec (fun M => M) (fun _ ih M => ih (sqM M)) k M

/-- The stored state transition. -/
def tableT : Nat := mkM (fun i => nextN (Nat.pow 2 i)) 128

/-- The stored long jump. -/
def tableJ : Nat := mkM (fun i => longJumpN (Nat.pow 2 i)) 128

end Xoroshiro

/-! ## StaticRay.cpp — the bounce loop of `Render` -/

section Bounces

variable {K : Type} [LinearOrderedField K] [FloorRing K] {M : Type}

/-- `n++` for an `int` (`Integer`): the increment in 32-bit two's
complement. -/
def incr32 (n : ℤ) : ℤ := (n + 1 + 2147483648) % 4294967296 - 2147483648

/-- The bounce loop of `Render`, run for one emitted photon:
`for (Integer bounce = 0; bounce < Bounces && Trace(scene, state);
state._Hits++, bounce++);`.
The first argument is the number of turns left, `Bounces - bounce`.  The
result is the list of the values the calls of `Trace` returned, in the
order of the calls, and the state and the stream after the loop. -/
def Render.bounces (sqrt : K → K) (Lay : Layout HitRecord)
    (Interface : M → (TraceState K M → TraceState K M) → TraceState K M → Bool × TraceState K M)
    (Scene : List (Shape K M)) :
    Nat → TraceState K M → DataStream → List Bool × TraceState K M × DataStream
  | 0, State, s => ([], State, s)
  | n + 1, State, s =>
    if (Trace sqrt Lay Interface Scene State s).1 then
      (true ::
          (Render.bounces sqrt Lay Interface Scene n
            { (Trace sqrt Lay Interface Scene State s).2.1 with
              _Hits := incr32 (Trace sqrt Lay Interface Scene State s).2.1._Hits }
            (Trace sqrt Lay Interface Scene State s).2.2).1,
        (Render.bounces sqrt Lay Interface Scene n
            { (Trace sqrt Lay Interface Scene State s).2.1 with
              _Hits := incr32 (Trace sqrt Lay Interface Scene State s).2.1._Hits }
            (Trace sqrt Lay Interface Scene State s).2.2).2)
    else
      ([false], (Trace sqrt Lay Interface Scene State s).2.1,
        (Trace sqrt Lay Interface Scene State s).2.2)

end Bounces

/-! ## Stream.h — `DataStream::Step` -/

section Step

/-- `_File.seekg(off, ios_base::cur)` for an offset `off ≥ 0`: the cursor
moves `off` bytes on from where it stands. -/
def DataStream.seekg_cur (s : DataStream) (off : Nat) : DataStream :=
  let s := { s with eofbit := false }
  if s.fail then s else { s with pos := s.pos + off }

/-- `DataStream::Step`:
`if (ReadHeader(hdr)) return true;
_File.seekg(hdr.Size, ios_base::cur); return _File.fail();`. -/
def DataStream.Step (s : DataStream) : Bool × DataStream :=
  let r := s.ReadHeader
  if r.1 then (true, r.2.2)
  else
    let s := r.2.2.seekg_cur r.2.1.Size
    (s.fail, s)

/-- A film file laid out `File, Config, Hits x10`: the file header, a
`Config` block with lens radius 2, and ten `Hits` blocks of one record
(12 bytes) each.  The `Hits` blocks start at the offsets 24, 48, ..., 240
and the file is 264 bytes long. -/
def sampleFilmFile : List Nat :=
  FileHeader.bytes ++ encodeBlocks (⟨TAG_Config, [0, 0, 0, 64]⟩ ::
    List.replicate 10 ⟨TAG_Hits, [1, 0, 0, 0] ++ [0, 0, 0, 0, 0, 0, 0, 0, 255, 255, 255, 0]⟩)

end Step

/-! ## StaticRay.cpp — the final flush of `Render` -/

section FinalFlush

variable {Hit : Type}

/-- The loop that ends `Render`:
`for (auto& state : states) { state.Film.Flush(); ... }`. -/
def Workers.finish (L : Layout Hit) (w : Workers Hit) : Workers Hit :=
  w.run L ((List.range w.films.length).map FilmOp.flush)

end FinalFlush

/-! ## The `Fixed16` encoding in the words of the specification -/

section Fixed16Spec

variable {K : Type} [LinearOrderedField K] [FloorRing K]

/-- The encoding as the specification words it:
`clamp(round(x * 32768), −32768, +32767)`, the scaled value rounded to the
nearest integer before it is clamped. -/
def Fixed16.specEncode (x : K) : ℤ := clamp (round (x * 32768)) (-32768) 32767

end Fixed16Spec

/-! ## Materials.h — `IdealMirror` -/

section Materials

variable {K : Type} [LinearOrderedField K] {M : Type}

/-- `IdealMirror::Interface(State, Shape)`:
`Shape.HitNormal(State);
State.Direction -= State._HitNorm * State.Direction.Dot(State._HitNorm) * 2r;
return true;`
with `HitNormal` the `HitNormal` of the shape. -/
def IdealMirror.Interface (HitNormal : TraceState K M → TraceState K M)
    (State : TraceState K M) : Bool × TraceState K M :=
  let State := HitNormal State
  (true, { State with
    Direction := State.Direction.sub
      ((State._HitNorm.smul (State.Direction.Dot State._HitNorm)).smul 2) })

end Materials

/-! ## Image.h and StaticRay.cpp — `Develop`

`Develop` tests its results with `isnan` and `isinf`.  A value that is not
finite arises from a division by zero, from the square root of a negative
number, or from an operation whose result exceeds `FLT_MAX` in magnitude
(overflow); in this section such a value is `none`.  The hit it belongs to
is dropped: either the pixel computed from it is not finite either and
fails the lower boundary check, or (an overflow in the length of the lens
deflection, which makes the deflection the zero vector) the photon counts
as masked by the aperture.  The overflow test stands at every operation
whose operands do not bound the result: the products that form `hScale`,
`recPos`, the squared length under `lensDef`, and the quotient, the sum and
the product that form `imgPos` and `pixel`. -/

section Develop

variable {K : Type} [LinearOrderedField K]

/-- `operator+ (const VectorType&)` of `RColor`. -/
def RColor.add (a b : RColor K) : RColor K := ⟨a.x + b.x, a.y + b.y, a.z + b.z, a.w + b.w⟩

/-- `Length()`: `sqrt(LengthSq())`. -/
def RVector.Length (sqrt : K → K) (a : RVector K) : K := sqrt a.LengthSq

/-- `Normalized()`: `*this / Length()`; not finite when the length is zero. -/
def RVector.Normalized (sqrt : K → K) (a : RVector K) : Option (RVector K) :=
  if a.Length sqrt = 0 then none else some (a.sdiv (a.Length sqrt))

/-- `struct Coord { Integer x, y; }`. -/
structure Coord where
  x : ℤ
  y : ℤ
  deriving DecidableEq, Repr

/-- `Coord(const XType& x, const YType& y)` for two reals:
`x(Integer(x)), y(Integer(y))`. -/
def Coord.ofReal [FloorRing K] (x y : K) : Coord := ⟨int32 x, int32 y⟩

/-- `RImage = TargaType<RColor>`: the `Dimensions` and the pixels of the
`vector` base. -/
structure RImage (K : Type) where
  Dimensions : Coord
  pix : List (RColor K)

/-- `ImageType(Coord&& Dimensions)`: `Resize` makes the vector hold
`Dimensions.x * Dimensions.y` value-initialised (zero) pixels. -/
def RImage.new (Dimensions : Coord) : RImage K :=
  ⟨Dimensions, List.replicate (Dimensions.x * Dimensions.y).toNat ⟨0, 0, 0, 0⟩⟩

/-- `image(Coord) += color` with `operator()` returning
`(*this)[Coord.y * Dimensions.x + Coord.x]`; `none` when that element is
outside the vector (the access is then undefined). -/
def RImage.addAt (image : RImage K) (c : Coord) (color : RColor K) : Option (RImage K) :=
  if 0 ≤ c.y * image.Dimensions.x + c.x ∧ c.y * image.Dimensions.x + c.x < image.pix.length then
    some { image with
      pix := image.pix.set (c.y * image.Dimensions.x + c.x).toNat
        ((image.pix.getD (c.y * image.Dimensions.x + c.x).toNat ⟨0, 0, 0, 0⟩).add color) }
  else none

/-- `FLT_MAX`, the largest finite value of `Real = float`:
`(2^24 - 1) * 2^104`. -/
def FLT_MAX : K := (2 ^ 24 - 1) * 2 ^ 104

/-- The result of an operation of `float` arithmetic whose exact value is
`x` is finite (`!isnan(x) && !isinf(x)`): beyond `FLT_MAX` in magnitude the
operation overflows to an infinity. -/
def isfinite (x : K) : Prop := |x| ≤ FLT_MAX

instance (x : K) : Decidable (isfinite x) := by
  unfold isfinite; infer_instance

/-- The four lanes of the result of a vector operation are finite. -/
def RVector.isfinite (v : RVector K) : Prop :=
  StaticRay.isfinite v.x ∧ StaticRay.isfinite v.y ∧ StaticRay.isfinite v.z
    ∧ StaticRay.isfinite v.w

instance (v : RVector K) : Decidable v.isfinite := by
  unfold RVector.isfinite; infer_instance

/-- The result of a vector operation, `none` when a lane overflows. -/
def RVector.finite (v : RVector K) : Option (RVector K) :=
  if v.isfinite then some v else none

namespace Develop

/-- `constexpr auto Zoom = 1r`. -/
def Zoom : K := 1

/-- `constexpr auto FocalLen = 1r`. -/
def FocalLen : K := 1

/-- `constexpr auto FLimit = 0.8r`. -/
def FLimit : K := 4 / 5

/-- `constexpr auto Width = 256u`. -/
def Width : Nat := 256

/-- `constexpr auto Height = 256u`. -/
def Height : Nat := 256

/-- The exposure normalization factor for the number of photons counted:
`exposure = 2r / (Real(photons) / (Width * Height))`; not finite when the
divisor is zero. -/
def exposure (photons : Nat) : Option K :=
  if (photons : K) / ((Width * Height : Nat) : K) = 0 then none
  else some (2 / ((photons : K) / ((Width * Height : Nat) : K)))

/-- `const auto half = RVector{Width, Height} / 2r`. -/
def half : RVector K := (RVector.mk ((Width : Nat) : K) ((Height : Nat) : K) 0 0).sdiv 2

/-- `const auto hScale = half * lensRad * FocalLen * Zoom * csqrt(2r) / -2r`,
evaluated from left to right; `none` when one of the products overflows,
which leaves `hScale` infinite. -/
def hScale (csqrt : K → K) (lensRad : K) : Option (RVector K) :=
  (half.smul lensRad).finite.bind fun a =>
  (a.smul FocalLen).finite.bind fun b =>
  (b.smul Zoom).finite.bind fun c =>
  (c.smul (csqrt 2)).finite.bind fun d =>
  (d.sdiv (-2)).finite

/-- The body of the loop over the hits up to `pixel`, for the frame
`frame` and the lens radius `lensRad` read from the `Config` block; `sqrt`
is the run-time square root and `csqrt` the constant-expression one.  The
result is `none` when the photon is masked by the aperture
(`recDir.Dot(lensDef) < fLimit`) or when the pixel is not finite. -/
def pixel (sqrt csqrt : K → K) (frame : Nat) (lensRad : K) (hit : HitRecord) :
    Option (RVector K) :=
  -- const auto hScale = half * lensRad * FocalLen * Zoom * csqrt(2r) / -2r;
  match hScale csqrt lensRad with
  | none => none
  | some hScale =>
    -- RVector recPos{hit.Pos.u, hit.Pos.v}; recPos *= film.Config.LensRadius;
    match ((RVector.mk (hit.Pos_u.toReal : K) hit.Pos_v.toReal 0 0).smul lensRad).finite with
    | none => none
    | some recPos =>
      -- RVector recDir{hit.Dir.u, hit.Dir.v};
      let recDir : RVector K := ⟨hit.Dir_u.toReal, hit.Dir_v.toReal, 0, 0⟩
      -- recDir.z = sqrt(1r - recDir.x*recDir.x - recDir.y*recDir.y);
      if 1 - recDir.x * recDir.x - recDir.y * recDir.y < 0 then none
      else
        let recDir := { recDir with z := sqrt (1 - recDir.x * recDir.x - recDir.y * recDir.y) }
        -- fLimit = RVector{1, FLimit}.Normalized().y
        match (RVector.mk 1 FLimit 0 0).Normalized sqrt with
        | none => none
        | some fl =>
          -- lensDef = RVector{recPos.x, recPos.y, FocalLen}.Normalized(); when the
          -- squared length overflows, the length is infinite, lensDef is the zero
          -- vector and the photon is masked
          if ¬ isfinite (RVector.mk recPos.x recPos.y FocalLen 0).LengthSq then none
          else
            match (RVector.mk recPos.x recPos.y FocalLen 0).Normalized sqrt with
            | none => none
            | some lensDef =>
              -- if (recDir.Dot(lensDef) < fLimit) continue;
              if recDir.Dot lensDef < fl.y then none
              else
                -- recDir.z = 1r - recDir.z;
                let recDir := { recDir with z := 1 - recDir.z }
                -- projDir = (recDir - lensDef).Normalized()
                match (recDir.sub lensDef).Normalized sqrt with
                | none => none
                | some projDir =>
                  -- focalDist = 2r + frame / 32r;
                  -- imgDist = 1r / (1r / FocalLen - 1r / focalDist)
                  let imgDist : K := 1 / (1 / FocalLen - 1 / (2 + (frame : K) / 32))
                  -- imgPos = recPos + projDir * imgDist / -projDir.z
                  if -projDir.z = 0 then none
                  else
                    match ((projDir.smul imgDist).sdiv (-projDir.z)).finite with
                    | none => none
                    | some quot =>
                      match (recPos.add quot).finite with
                      | none => none
                      | some imgPos =>
                        -- pixel = imgPos * hScale + half
                        match (imgPos.mul hScale).finite with
                        | none => none
                        | some prod => (prod.add half).finite

variable [FloorRing K]

/-- The rest of the body of the loop over the hits: the lower boundary
checks on `pixel`, the conversion to `Coord`, the upper boundary checks and
`image(coord) += RGBSystem::Load(hit.Clr)`.  A dropped hit leaves the image
as it is; `none` is an access outside the image. -/
def expose (image : RImage K) (pixel : Option (RVector K)) (Clr : BColor) : Option (RImage K) :=
  match pixel with
  | none => some image
  | some pixel =>
    if pixel.x < 0 ∨ pixel.y < 0 then some image
    else if (Coord.ofReal pixel.x pixel.y).x ≥ image.Dimensions.x
        ∨ (Coord.ofReal pixel.x pixel.y).y ≥ image.Dimensions.y then some image
    else image.addAt (Coord.ofReal pixel.x pixel.y) (RGBSystem.Load Clr)

/-- The loop over the hits of the film, `for (const auto& hit : hits)`
within `film.ReadHits`, on the records of all `Hits` blocks in file order. -/
def exposeAll (sqrt csqrt : K → K) (frame : Nat) (lensRad : K) :
    RImage K → List HitRecord → Option (RImage K)
  | image, [] => some image
  | image, hit :: hits =>
    match expose image (pixel sqrt csqrt frame lensRad hit) hit.Clr with
    | none => none
    | some image => exposeAll sqrt csqrt frame lensRad image hits

/-- `image.ForEach([exposure, &image](const Coord& Pixel) { image(Pixel) *= exposure; })`:
every pixel is multiplied by the factor; the product with a factor that is
not finite is not finite. -/
def normalize (exposure : Option K) (image : RImage K) : List (Option (RColor K)) :=
  image.pix.map (fun c => exposure.map (fun e => c.smul e))

/-- One frame of `Develop`, from the records of the film to the pixels
handed to `image.Write`: a new image of `Width` by `Height`, the loop over
the hits and the normalization. -/
def frame (sqrt csqrt : K → K) (exposure : Option K) (frameIdx : Nat) (lensRad : K)
    (hits : List HitRecord) : Option (List (Option (RColor K))) :=
  (exposeAll sqrt csqrt frameIdx lensRad (RImage.new ⟨(Width : Nat), (Height : Nat)⟩) hits).map
    (normalize exposure)

end Develop

end Develop

/-! ## A sample hit record -/

section SampleHits

/-- A hit record at the centre of the lens, `pos = (0, 0)`, with the
direction `dir = (-1/32768, 0)` and the colour white. -/
def sampleHitOblique : HitRecord :=
  ⟨⟨0, by decide⟩, ⟨0, by decide⟩, ⟨-1, by decide⟩, ⟨0, by decide⟩,
    RGBSystem.Store (⟨1, 1, 1, 1⟩ : RColor ℚ)⟩

end SampleHits

/-! ## Film.h and Stream.h — `Flush` under the lock of the stream, step by step -/

section FlushSteps

variable {Hit : Type}

/-- Where a worker stands in `ColorFilm::Flush`. -/
inductive FlushPc where
  /-- Outside `Flush`. -/
  | idle
  /-- In `Flush` at `auto sync = Stream->Sync();`, the lock not yet obtained. -/
  | waiting
  /-- The lock obtained; `Stream->WriteHeader(hdr)` comes next. -/
  | locked
  /-- The header written; `Stream->Write(this->data(), hits)` comes next. -/
  | header
  deriving DecidableEq, Repr

/-- A call a worker makes on its film. -/
inductive FilmCall (Hit : Type) where
  | expose (h : Hit)
  | flush

/-- A render worker: its film, where it stands in `Flush`, and the calls
on its film it has still to make. -/
structure FlushWorker (Hit : Type) where
  film : ColorFilm Hit
  pc : FlushPc
  todo : List (FilmCall Hit)

/-- The workers of a render and what they share: the stream and its mutex
`_Lock` (`lock` is the worker that owns it). -/
structure FlushSystem (Hit : Type) where
  stream : DataStream
  lock : Option Nat
  workers : List (FlushWorker Hit)

/-- The first statements of `Flush`:
`const auto hits = uint32(this->size()); _Exposures += hits;`. -/
def ColorFilm.countHits (f : ColorFilm Hit) : ColorFilm Hit :=
  { f with _Exposures := (f._Exposures + f.buf.length % 2 ^ 32) % 2 ^ 64 }

/-- Worker `i` replaced. -/
def FlushSystem.setWorker (sys : FlushSystem Hit) (i : Nat) (w : FlushWorker Hit) :
    FlushSystem Hit :=
  { sys with workers := sys.workers.set i w }

/-- One step of worker `i`.
Outside `Flush` the worker starts its next call: `Expose` appends the hit
and, when the buffer is full, enters `Flush`; `Flush` counts the hits
(`_Exposures += hits`) and comes to `Stream->Sync()`.  There the worker
obtains the lock when no worker owns it, and otherwise stays where it is.
With the lock it writes the header, then the records, and returns; the
`lock_guard` releases the lock on every return. -/
def FlushSystem.step (L : Layout Hit) (sys : FlushSystem Hit) (i : Nat) : FlushSystem Hit :=
  match sys.workers[i]? with
  | none => sys
  | some w =>
    match w.pc with
    | .idle =>
      match w.todo with
      | [] => sys
      | .expose h :: rest =>
        if (w.film.push_back h).buf.length != (w.film.push_back h).capacity then
          sys.setWorker i ⟨w.film.push_back h, .idle, rest⟩
        else sys.setWorker i ⟨(w.film.push_back h).countHits, .waiting, rest⟩
      | .flush :: rest => sys.setWorker i ⟨w.film.countHits, .waiting, rest⟩
    | .waiting =>
      match sys.lock with
      | some _ => sys
      | none => FlushSystem.setWorker ⟨sys.stream, some i, sys.workers⟩ i ⟨w.film, .locked, w.todo⟩
    | .locked =>
      if (sys.stream.WriteHeader (FilmHeader.new L.size (w.film.buf.length % 2 ^ 32)).bytes).1 then
        FlushSystem.setWorker
          ⟨(sys.stream.WriteHeader (FilmHeader.new L.size (w.film.buf.length % 2 ^ 32)).bytes).2,
            none, sys.workers⟩
          i ⟨w.film, .idle, w.todo⟩
      else
        FlushSystem.setWorker
          ⟨(sys.stream.WriteHeader (FilmHeader.new L.size (w.film.buf.length % 2 ^ 32)).bytes).2,
            sys.lock, sys.workers⟩
          i ⟨w.film, .header, w.todo⟩
    | .header =>
      if (sys.stream.Write (L.image (w.film.buf.take (w.film.buf.length % 2 ^ 32)))).1 then
        FlushSystem.setWorker
          ⟨(sys.stream.Write (L.image (w.film.buf.take (w.film.buf.length % 2 ^ 32)))).2,
            none, sys.workers⟩
          i ⟨w.film, .idle, w.todo⟩
      else
        FlushSystem.setWorker
          ⟨(sys.stream.Write (L.image (w.film.buf.take (w.film.buf.length % 2 ^ 32)))).2,
            none, sys.workers⟩
          i ⟨{ w.film with buf := [] }, .idle, w.todo⟩

/-- The workers run interleaved: `schedule` lists, step by step, the worker
that moves. -/
def FlushSystem.run (L : Layout Hit) (sys : FlushSystem Hit) (schedule : List Nat) :
    FlushSystem Hit :=
  schedule.foldl (FlushSystem.step L) sys

/-- The bytes of a block begun and not yet completed: the header the owner
of the lock has written when its records are still to come. -/
def FlushSystem.pending (L : Layout Hit) (sys : FlushSystem Hit) : List Nat :=
  match sys.lock with
  | none => []
  | some i =>
    match sys.workers[i]? with
    | none => []
    | some w =>
      if w.pc = .header then (FilmHeader.new L.size (w.film.buf.length % 2 ^ 32)).bytes
      else []

/-- The state in which `Render` launches the worker threads, after
`Workers.init`: no worker owns the lock and every worker is outside
`Flush`, with the calls of `todo i` to make. -/
def FlushSystem.init (w : Workers Hit) (todo : Nat → List (FilmCall Hit)) : FlushSystem Hit :=
  ⟨w.stream, none, w.films.enum.map (fun p => ⟨p.2, .idle, todo p.1⟩)⟩

/-- Invariant of the interleaved run while no device write fails, for the
initial contents `data0` of the file: the stream is writable at its end;
only the owner of the lock is past `Sync()`; and the file is `data0`, then
whole `Hits` blocks, then the header of the block the owner of the lock has
begun, if any. -/
def FlushSystem.Inv (L : Layout Hit) (data0 : List Nat) (sys : FlushSystem Hit) : Prop :=
  sys.stream.atEnd ∧ sys.stream.noFaults ∧
  (∀ j w, sys.workers[j]? = some w → (w.pc = .locked ∨ w.pc = .header) → sys.lock = some j) ∧
  (∀ i, sys.lock = some i →
    ∃ w, sys.workers[i]? = some w ∧ (w.pc = .locked ∨ w.pc = .header)) ∧
  ∃ blocks : List (List Hit),
    sys.stream.data
      = data0 ++ (blocks.map (ColorFilm.blockBytes L)).flatten ++ sys.pending L

end FlushSteps

/-- Two workers with films of capacity 2 on a new film file: the first
exposes two hits, which fills its buffer, the second exposes one hit and
then flushes. -/
def sampleFlushSystem : FlushSystem (RawHit 2) :=
  FlushSystem.init (Workers.init [] 0x40000000 2 2)
    (fun i => if i = 0 then [.expose ⟨[1, 2], rfl⟩, .expose ⟨[3, 4], rfl⟩]
      else [.expose ⟨[5, 6], rfl⟩, .flush])

/-- A schedule in which the second worker asks for the lock while the first
is between its two writes. -/
def sampleSchedule : List Nat := [0, 1, 0, 1, 0, 0, 1, 1, 0, 1, 1, 0, 1]

/-! ## Theorems -/

section Fixed16Theorems

variable {K : Type} [LinearOrderedField K] [FloorRing K]

theorem truncate_le_of_nonneg {v : K} (h : 0 ≤ v) :
    (truncate v : K) ≤ v ∧ v < (truncate v : K) + 1 := by
  unfold truncate
  rw [if_pos h]
  exact ⟨Int.floor_le v, Int.lt_floor_add_one v⟩

theorem truncate_ge_of_neg {v : K} (h : ¬ 0 ≤ v) :
    v ≤ (truncate v : K) ∧ (truncate v : K) < v + 1 := by
  unfold truncate
  rw [if_neg h]
  exact ⟨Int.le_ceil v, Int.ceil_lt_add_one v⟩

/-- Truncation moves a value by less than one. -/
theorem abs_truncate_sub_lt (v : K) : |(truncate v : K) - v| < 1 := by
  by_cases h : 0 ≤ v
  · obtain ⟨h1, h2⟩ := truncate_le_of_nonneg h
    rw [abs_lt]; constructor <;> linarith
  · obtain ⟨h1, h2⟩ := truncate_ge_of_neg h
    rw [abs_lt]; constructor <;> linarith

/-- In the range `[-32768, 32768)` the whole conversion chain of `Fixed16`
is plain truncation. -/
theorem Fixed16.ofReal_value_of_mem {x : K} (h1 : -1 ≤ x) (h2 : x < 1) :
    (Fixed16.ofReal x).Value = truncate (x * 32768) := by
  have hlo : (-32768 : K) ≤ x * 32768 := by linarith
  have hhi : x * 32768 < 32768 := by linarith
  have ht : -32768 ≤ truncate (x * 32768) ∧ truncate (x * 32768) ≤ 32767 := by
    by_cases h : 0 ≤ x * 32768
    · obtain ⟨a, b⟩ := truncate_le_of_nonneg h
      have h0 : (0 : ℤ) ≤ truncate (x * 32768) := by
        unfold truncate; rw [if_pos h]; exact Int.floor_nonneg.mpr h
      have h3 : (truncate (x * 32768) : K) < 32768 := lt_of_le_of_lt a hhi
      have h4 : truncate (x * 32768) < 32768 := by exact_mod_cast h3
      omega
    · obtain ⟨a, b⟩ := truncate_ge_of_neg h
      have h3 : ((-32768 : ℤ) : K) ≤ (truncate (x * 32768) : K) := by
        push_cast; linarith
      have h4 : (-32768 : ℤ) ≤ truncate (x * 32768) := by exact_mod_cast h3
      have h5 : (truncate (x * 32768) : K) < ((1 : ℤ) : K) := by
        push_cast; push_neg at h; linarith
      have h6 : truncate (x * 32768) < 1 := by exact_mod_cast h5
      omega
  obtain ⟨ha, hb⟩ := ht
  have e32 : int32 (x * 32768) = truncate (x * 32768) := by
    unfold int32
    exact if_pos ⟨by omega, by omega⟩
  have ecl : clamp (truncate (x * 32768)) (-32768) 32767 = truncate (x * 32768) := by
    unfold clamp
    rw [if_neg (by omega), if_neg (by omega)]
  show int16 (clamp (int32 (x * 32768)) (-32768) 32767) = truncate (x * 32768)
  rw [e32, ecl]
  unfold int16
  omega

/-- C1. For every real `x` with `-1 ≤ x < 1`, encoding `x` as a `Fixed16`
and decoding it again (`decode n = n / 32768`) yields a value that differs
from `x` by at most `1 / 32768`. -/
theorem Fixed16_roundtrip (x : K) (h1 : -1 ≤ x) (h2 : x < 1) :
    |(Fixed16.ofReal x).toReal - x| ≤ 1 / 32768 := by
  unfold Fixed16.toReal
  rw [Fixed16.ofReal_value_of_mem h1 h2]
  have h := abs_truncate_sub_lt (x * 32768)
  have e : (truncate (x * 32768) : K) / 32768 - x
      = ((truncate (x * 32768) : K) - x * 32768) / 32768 := by ring
  rw [e, abs_div, abs_of_pos (by norm_num : (0 : K) < 32768)]
  apply div_le_div_of_nonneg_right h.le (by norm_num)

/-- Witness for C1 at `x = 1/3` over the rationals. -/
theorem Fixed16_roundtrip_witness :
    (-1 : ℚ) ≤ 1 / 3 ∧ (1 / 3 : ℚ) < 1 ∧
      |(Fixed16.ofReal (1 / 3 : ℚ)).toReal - (1 / 3 : ℚ)| ≤ 1 / 32768 :=
  ⟨by norm_num, by norm_num, Fixed16_roundtrip (1 / 3 : ℚ) (by norm_num) (by norm_num)⟩

end Fixed16Theorems

/-! ### Byte-level lemmas -/

section StreamTheorems

theorem leBytes_length (w n : Nat) : (leBytes w n).length = w := by
  induction w generalizing n with
  | zero => rfl
  | succ w ih => simp [leBytes, ih]

theorem leValue_leBytes (w n : Nat) : leValue (leBytes w n) = n % 256 ^ w := by
  induction w generalizing n with
  | zero => simp [leBytes, leValue, Nat.mod_one]
  | succ w ih =>
    simp only [leBytes, leValue, ih, Nat.mod_mod]
    rw [pow_succ, mul_comm (256 ^ w) 256, Nat.mod_mul]

theorem BlockHeader.length_blockHeader_bytes (h : BlockHeader) : h.bytes.length = 8 := by
  simp [BlockHeader.bytes, leBytes_length]

theorem BlockHeader.ofBytes_bytes_append (h : BlockHeader) (t : List Nat)
    (hM : h.Magic < 2 ^ 16) (hI : h.Ident < 2 ^ 16) (hS : h.Size < 2 ^ 32) :
    BlockHeader.ofBytes (h.bytes ++ t) = h := by
  obtain ⟨m, i, sz⟩ := h
  simp only at hM hI hS
  simp only [BlockHeader.ofBytes, BlockHeader.bytes, leBytes, List.cons_append, List.nil_append,
    List.take_succ_cons, List.take_zero, List.drop_succ_cons, List.drop_zero, leValue,
    BlockHeader.mk.injEq]
  refine ⟨?_, ?_, ?_⟩ <;> omega

theorem BlockHeader.new_bytes_roundtrip (Ident Size : Nat) (t : List Nat) :
    BlockHeader.ofBytes ((BlockHeader.new Ident Size).bytes ++ t) = BlockHeader.new Ident Size := by
  apply BlockHeader.ofBytes_bytes_append
  · simp [BlockHeader.new, BlockMagic]
  · exact Nat.mod_lt _ (by norm_num)
  · exact Nat.mod_lt _ (by norm_num)

/-- Reading `xs.length` bytes with the cursor in front of `xs`. -/
theorem DataStream.read_prefix (pre xs tl : List Nat) (dev : List Bool) :
    (DataStream.mk (pre ++ (xs ++ tl)) pre.length false false false dev).read xs.length
      = (xs, DataStream.mk (pre ++ (xs ++ tl)) (pre.length + xs.length) false false false dev) := by
  simp [DataStream.read, DataStream.good]

theorem Block.length_block_bytes (b : Block) : b.bytes.length = 8 + b.payload.length := by
  simp [Block.bytes, BlockHeader.length_blockHeader_bytes]

end StreamTheorems

/-! ### `DataStream::Seek` on a sequence of blocks -/

section SeekTheorems

theorem encodeBlocks_cons (b : Block) (bs : List Block) :
    encodeBlocks (b :: bs) = b.bytes ++ encodeBlocks bs := by
  simp [encodeBlocks]

theorem encodeBlocks_append (as bs : List Block) :
    encodeBlocks (as ++ bs) = encodeBlocks as ++ encodeBlocks bs := by
  simp [encodeBlocks]

theorem BlockHeader.new_of_wf (b : Block) (hb : b.wf) :
    BlockHeader.new b.Ident (sizeofBlockHeader + b.payload.length)
      = ⟨BlockMagic, b.Ident, 8 + b.payload.length⟩ := by
  obtain ⟨h1, h2⟩ := hb
  simp only [BlockHeader.new, sizeofBlockHeader] at *
  rw [Nat.mod_eq_of_lt h1, Nat.mod_eq_of_lt h2]

/-- Reading the header of a well-formed block that starts at the cursor. -/
theorem DataStream.ReadHeader_block (pre tl : List Nat) (b : Block) (hb : b.wf)
    (dev : List Bool) :
    (DataStream.mk (pre ++ (b.bytes ++ tl)) pre.length false false false dev).ReadHeader
      = (false, ⟨BlockMagic, b.Ident, 8 + b.payload.length⟩,
          DataStream.mk (pre ++ (b.bytes ++ tl)) (pre.length + 8) false false false dev) := by
  have hH := BlockHeader.new_of_wf b hb
  have e : pre ++ (b.bytes ++ tl)
      = pre ++ ((BlockHeader.mk BlockMagic b.Ident (8 + b.payload.length)).bytes
          ++ (b.payload ++ tl)) := by
    simp [Block.bytes, hH]
  have hr := DataStream.read_prefix pre
    (BlockHeader.mk BlockMagic b.Ident (8 + b.payload.length)).bytes (b.payload ++ tl) dev
  rw [BlockHeader.length_blockHeader_bytes] at hr
  have hrt := BlockHeader.new_bytes_roundtrip b.Ident (sizeofBlockHeader + b.payload.length) []
  rw [List.append_nil, hH] at hrt
  simp only [DataStream.ReadHeader, DataStream.Read, sizeofBlockHeader]
  rw [e, hr]
  simp only [hrt, DataStream.fail, BlockHeader.Validate, Bool.or_self, bne_self_eq_false]

theorem DataStream.tellg_good (data : List Nat) (p : Nat) (dev : List Bool) :
    (DataStream.mk data p false false false dev).tellg
      = (some p, DataStream.mk data p false false false dev) := by
  simp [DataStream.tellg, DataStream.good, DataStream.fail]

theorem DataStream.seekg_good (data : List Nat) (p q : Nat) (dev : List Bool) :
    (DataStream.mk data p false false false dev).seekg q
      = DataStream.mk data q false false false dev := by
  simp [DataStream.seekg, DataStream.fail]

/-- One turn of the loop of `Seek` over a well-formed block with another tag. -/
theorem DataStream.Seek_skip (fuel tag : Nat) (pre tl : List Nat) (b : Block) (hb : b.wf)
    (hne : b.Ident ≠ tag) (dev : List Bool) :
    (DataStream.mk (pre ++ (b.bytes ++ tl)) pre.length false false false dev).Seek (fuel + 1) tag
      = (DataStream.mk (pre ++ (b.bytes ++ tl)) (pre.length + b.bytes.length)
          false false false dev).Seek fuel tag := by
  rw [DataStream.Seek, DataStream.tellg_good]
  simp only [DataStream.ReadHeader_block pre tl b hb dev, Bool.false_eq_true, if_false,
    if_neg hne, DataStream.seekg_good, DataStream.fail, Bool.or_self, Block.length_block_bytes]

/-- One turn of the loop of `Seek` at a well-formed block with the tag sought. -/
theorem DataStream.Seek_hit (fuel tag : Nat) (pre tl : List Nat) (b : Block) (hb : b.wf)
    (he : b.Ident = tag) (dev : List Bool) :
    (DataStream.mk (pre ++ (b.bytes ++ tl)) pre.length false false false dev).Seek (fuel + 1) tag
      = some (false, DataStream.mk (pre ++ (b.bytes ++ tl)) pre.length false false false dev) := by
  rw [DataStream.Seek, DataStream.tellg_good]
  simp only [DataStream.ReadHeader_block pre tl b hb dev, Bool.false_eq_true, if_false,
    if_pos he, DataStream.seekg_good]

/-- `Seek` walks over the blocks with other tags and stops at the first
block with the tag sought. -/
theorem DataStream.Seek_blocks (tag : Nat) (skip : List Block) :
    ∀ (pre : List Nat) (b : Block) (tl : List Nat) (dev : List Bool) (fuel : Nat),
      (∀ c ∈ skip, c.wf ∧ c.Ident ≠ tag) → b.wf → b.Ident = tag → skip.length < fuel →
      (DataStream.mk (pre ++ (encodeBlocks skip ++ (b.bytes ++ tl))) pre.length
          false false false dev).Seek fuel tag
        = some (false, DataStream.mk (pre ++ (encodeBlocks skip ++ (b.bytes ++ tl)))
            (pre.length + (encodeBlocks skip).length) false false false dev) := by
  induction skip with
  | nil =>
    intro pre b tl dev fuel _ hb he hfuel
    obtain ⟨n, rfl⟩ : ∃ n, fuel = n + 1 := ⟨fuel - 1, by simp at hfuel; omega⟩
    simpa [encodeBlocks] using DataStream.Seek_hit n tag pre tl b hb he dev
  | cons c skip ih =>
    intro pre b tl dev fuel hskip hb he hfuel
    obtain ⟨n, rfl⟩ : ∃ n, fuel = n + 1 := ⟨fuel - 1, by simp at hfuel; omega⟩
    have hc := hskip c (List.mem_cons_self _ _)
    have hrest : ∀ d ∈ skip, d.wf ∧ d.Ident ≠ tag :=
      fun d hd => hskip d (List.mem_cons_of_mem _ hd)
    have h1 := DataStream.Seek_skip n tag pre (encodeBlocks skip ++ (b.bytes ++ tl)) c hc.1 hc.2 dev
    have h2 := ih (pre ++ c.bytes) b tl dev n hrest hb he (by simp at hfuel; omega)
    simp only [encodeBlocks_cons, List.append_assoc, List.length_append] at h1 h2 ⊢
    rw [h1, h2]
    simp [Nat.add_assoc]

/-- C2. `DataStream::Seek(tag)`, called on a well-formed block sequence with
the cursor at a block boundary and at least one block with identifier `tag`
at or after the cursor, returns `false` (success) and leaves the cursor at
the first byte of the header of the first such block, so that the next
header read by the caller reads that block.  Here `skip` are the blocks
between the cursor and the first block `b` with the tag; `fuel` is any
bound on the loop larger than the number of blocks skipped. -/
theorem Seek_leaves_cursor_at_first_match (tag : Nat) (pre : List Nat) (skip : List Block)
    (b : Block) (rest : List Block) (dev : List Bool) (fuel : Nat)
    (hskip : ∀ c ∈ skip, c.wf ∧ c.Ident ≠ tag) (hb : b.wf) (hbt : b.Ident = tag)
    (hfuel : skip.length < fuel) :
    (DataStream.mk (pre ++ encodeBlocks (skip ++ b :: rest)) pre.length
        false false false dev).Seek fuel tag
      = some (false, DataStream.mk (pre ++ encodeBlocks (skip ++ b :: rest))
          (pre.length + (encodeBlocks skip).length) false false false dev)
    ∧ (DataStream.mk (pre ++ encodeBlocks (skip ++ b :: rest))
          (pre.length + (encodeBlocks skip).length) false false false dev).ReadHeader
      = (false, BlockHeader.new b.Ident (sizeofBlockHeader + b.payload.length),
          DataStream.mk (pre ++ encodeBlocks (skip ++ b :: rest))
            (pre.length + (encodeBlocks skip).length + sizeofBlockHeader)
            false false false dev) := by
  have hd : pre ++ encodeBlocks (skip ++ b :: rest)
      = pre ++ (encodeBlocks skip ++ (b.bytes ++ encodeBlocks rest)) := by
    rw [encodeBlocks_append, encodeBlocks_cons]
  constructor
  · rw [hd]
    exact DataStream.Seek_blocks tag skip pre b (encodeBlocks rest) dev fuel hskip hb hbt hfuel
  · have h := DataStream.ReadHeader_block (pre ++ encodeBlocks skip) (encodeBlocks rest) b hb dev
    rw [BlockHeader.new_of_wf b hb, hd]
    simpa [List.append_assoc, sizeofBlockHeader] using h

/-- Witness for C2: a file holding the file header, a `Config` block and a
`Hits` block; `Seek(TAG_Hits)` from offset 12 stops at offset 24. -/
theorem Seek_leaves_cursor_at_first_match_witness :
    (DataStream.mk (FileHeader.bytes ++ encodeBlocks ([⟨TAG_Config, [0, 0, 0, 64]⟩]
        ++ ⟨TAG_Hits, [0, 0, 0, 0]⟩ :: [])) 12 false false false []).Seek 5 TAG_Hits
      = some (false, DataStream.mk (FileHeader.bytes ++ encodeBlocks ([⟨TAG_Config, [0, 0, 0, 64]⟩]
        ++ ⟨TAG_Hits, [0, 0, 0, 0]⟩ :: [])) 24 false false false []) :=
  (Seek_leaves_cursor_at_first_match TAG_Hits FileHeader.bytes [⟨TAG_Config, [0, 0, 0, 64]⟩]
    ⟨TAG_Hits, [0, 0, 0, 0]⟩ [] [] 5 (by decide) (by decide) rfl (by decide)).1

end SeekTheorems

/-! ### `ColorFilm::Read` and `ColorFilm::ReadHits` -/

section ReadTheorems

variable {Hit : Type}

theorem Layout.length_image (L : Layout Hit) (hs : List Hit) :
    (L.image hs).length = L.size * hs.length := by
  induction hs with
  | nil => simp [Layout.image]
  | cons h hs ih =>
    simp only [Layout.image, List.map_cons, List.flatten_cons, List.length_append,
      L.length_toBytes, List.length_cons] at ih ⊢
    rw [ih]; ring

theorem Layout.image_cons (L : Layout Hit) (h : Hit) (hs : List Hit) :
    L.image (h :: hs) = L.toBytes h ++ L.image hs := by
  simp [Layout.image]

theorem Layout.image_append (L : Layout Hit) (as bs : List Hit) :
    L.image (as ++ bs) = L.image as ++ L.image bs := by
  simp [Layout.image]

/-- Cutting the memory image of `hs` into records gives back `hs`. -/
theorem chunks_image (L : Layout Hit) (hs : List Hit) (tl : List Nat) :
    (chunks L.size hs.length (L.image hs ++ tl)).map L.ofBytes = hs := by
  induction hs with
  | nil => simp [chunks]
  | cons h hs ih =>
    have h1 : (L.toBytes h ++ (L.image hs ++ tl)).take L.size = L.toBytes h :=
      List.take_left' (L.length_toBytes h)
    have h2 : (L.toBytes h ++ (L.image hs ++ tl)).drop L.size = L.image hs ++ tl :=
      List.drop_left' (L.length_toBytes h)
    simp only [List.length_cons, chunks, Layout.image_cons, List.append_assoc, h1, h2,
      List.map_cons, L.ofBytes_toBytes, ih]

theorem ColorFilm.length_resize (L : Layout Hit) (f : ColorFilm Hit) (n : Nat) :
    (f.resize L n).buf.length = n := by
  simp only [ColorFilm.resize, List.length_append, List.length_take, List.length_replicate]
  omega

theorem FilmHeader.new_of_lt (sz n : Nat) (hn : n < 2 ^ 32) (hs : sizeofFilmHeader + sz * n < 2 ^ 32) :
    FilmHeader.new sz n = ⟨⟨BlockMagic, TAG_Hits, 12 + sz * n⟩, n⟩ := by
  simp only [sizeofFilmHeader] at hs
  simp only [FilmHeader.new, BlockHeader.new, sizeofFilmHeader, TAG_Hits]
  rw [Nat.mod_eq_of_lt hn, Nat.mod_eq_of_lt hs]
  norm_num

theorem FilmHeader.length_filmHeader_bytes (h : FilmHeader) : h.bytes.length = 12 := by
  simp [FilmHeader.bytes, BlockHeader.length_blockHeader_bytes, leBytes_length]

/-- The bytes of a well-formed `Hits` block are the `FilmHeader` that
`Flush` builds followed by the memory image of the records. -/
theorem FilmBlock.hits_bytes (L : Layout Hit) (rs : List Hit)
    (hwf : (FilmBlock.hits rs).wf L) :
    (FilmBlock.toBlock L (.hits rs)).bytes
      = (FilmHeader.new L.size rs.length).bytes ++ L.image rs := by
  obtain ⟨hn, hs⟩ := hwf
  rw [FilmHeader.new_of_lt _ _ hn hs]
  simp only [sizeofFilmHeader] at hs
  simp only [FilmBlock.toBlock, Block.bytes, FilmHeader.bytes, List.length_append,
    leBytes_length, Layout.length_image, BlockHeader.new, sizeofBlockHeader, TAG_Hits,
    List.append_assoc]
  rw [Nat.mod_eq_of_lt (by omega : 8 + (4 + L.size * rs.length) < 2 ^ 32)]
  have e : 8 + (4 + L.size * rs.length) = 12 + L.size * rs.length := by omega
  rw [e]
  norm_num

theorem FilmBlock.hits_toBlock_wf (L : Layout Hit) (rs : List Hit)
    (hwf : (FilmBlock.hits rs).wf L) : (FilmBlock.toBlock L (.hits rs)).wf := by
  obtain ⟨hn, hs⟩ := hwf
  simp only [sizeofFilmHeader] at hs
  simp only [Block.wf, FilmBlock.toBlock, TAG_Hits, sizeofBlockHeader, List.length_append,
    leBytes_length, Layout.length_image]
  constructor
  · norm_num
  · omega

/-- Reading the `FilmHeader` of a well-formed `Hits` block at the cursor. -/
theorem DataStream.ReadFilmHeader_hits (sz n : Nat) (hn : n < 2 ^ 32)
    (hs : sizeofFilmHeader + sz * n < 2 ^ 32) (pre tl : List Nat) (dev : List Bool) :
    (DataStream.mk (pre ++ ((FilmHeader.new sz n).bytes ++ tl)) pre.length
        false false false dev).ReadFilmHeader sz
      = (false, FilmHeader.new sz n,
          DataStream.mk (pre ++ ((FilmHeader.new sz n).bytes ++ tl)) (pre.length + 12)
            false false false dev) := by
  have hr := DataStream.read_prefix pre (FilmHeader.new sz n).bytes tl dev
  rw [FilmHeader.length_filmHeader_bytes] at hr
  have hdec : FilmHeader.ofBytes (FilmHeader.new sz n).bytes = FilmHeader.new sz n := by
    rw [FilmHeader.new_of_lt _ _ hn hs]
    simp only [sizeofFilmHeader] at hs
    have h1 := BlockHeader.ofBytes_bytes_append ⟨BlockMagic, TAG_Hits, 12 + sz * n⟩
      (leBytes 4 n) (by simp [BlockMagic]) (by simp [TAG_Hits]) (by simpa using hs)
    have h2 : ((BlockHeader.mk BlockMagic TAG_Hits (12 + sz * n)).bytes ++ leBytes 4 n).drop 8
        = leBytes 4 n := List.drop_left' (BlockHeader.length_blockHeader_bytes _)
    have h3 : (leBytes 4 n).take 4 = leBytes 4 n :=
      List.take_of_length_le (by rw [leBytes_length])
    simp only [FilmHeader.ofBytes, FilmHeader.bytes, h1, h2, h3, leValue_leBytes]
    rw [Nat.mod_eq_of_lt (by norm_num; exact hn)]
  simp only [DataStream.ReadFilmHeader, DataStream.Read, sizeofFilmHeader]
  rw [hr]
  simp only [hdec]
  rw [FilmHeader.new_of_lt _ _ hn hs]
  simp only [sizeofFilmHeader] at hs
  have hm : (12 + sz * n) % 4294967296 = 12 + sz * n := Nat.mod_eq_of_lt hs
  simp [DataStream.fail, FilmHeader.Validate, BlockHeader.ValidateAs, BlockHeader.Validate,
    sizeofFilmHeader, hm]

theorem DataStream.read_prefix_of_eq (data pre xs tl : List Nat) (p n : Nat) (dev : List Bool)
    (hd : data = pre ++ (xs ++ tl)) (hp : p = pre.length) (hn : n = xs.length) :
    (DataStream.mk data p false false false dev).read n
      = (xs, DataStream.mk data (p + n) false false false dev) := by
  subst hd hp hn
  exact DataStream.read_prefix pre xs tl dev

theorem DataStream.ReadFilmHeader_hits_of_eq (sz n : Nat) (hn : n < 2 ^ 32)
    (hs : sizeofFilmHeader + sz * n < 2 ^ 32) (data pre tl : List Nat) (p : Nat)
    (dev : List Bool) (hd : data = pre ++ ((FilmHeader.new sz n).bytes ++ tl))
    (hp : p = pre.length) :
    (DataStream.mk data p false false false dev).ReadFilmHeader sz
      = (false, FilmHeader.new sz n, DataStream.mk data (p + 12) false false false dev) := by
  subst hd hp
  exact DataStream.ReadFilmHeader_hits sz n hn hs pre tl dev

/-- At the end of the file `Seek` fails: the header read sets `failbit`
and `eofbit`. -/
theorem DataStream.Seek_eof (fuel tag : Nat) (pre : List Nat) (dev : List Bool) :
    (DataStream.mk pre pre.length false false false dev).Seek (fuel + 1) tag
      = some (true, DataStream.mk pre pre.length true true false dev) := by
  rw [DataStream.Seek, DataStream.tellg_good]
  simp [DataStream.ReadHeader, DataStream.Read, DataStream.read, DataStream.good,
    DataStream.fail, sizeofBlockHeader]

/-- `Seek` over blocks none of which carries the tag ends at the end of
the file and fails. -/
theorem DataStream.Seek_blocks_eof (tag : Nat) (skip : List Block) :
    ∀ (pre : List Nat) (dev : List Bool) (fuel : Nat),
      (∀ c ∈ skip, c.wf ∧ c.Ident ≠ tag) → skip.length < fuel →
      (DataStream.mk (pre ++ encodeBlocks skip) pre.length false false false dev).Seek fuel tag
        = some (true, DataStream.mk (pre ++ encodeBlocks skip)
            (pre.length + (encodeBlocks skip).length) true true false dev) := by
  induction skip with
  | nil =>
    intro pre dev fuel _ hfuel
    obtain ⟨n, rfl⟩ : ∃ n, fuel = n + 1 := ⟨fuel - 1, by simp at hfuel; omega⟩
    simpa [encodeBlocks] using DataStream.Seek_eof n tag pre dev
  | cons c skip ih =>
    intro pre dev fuel hskip hfuel
    obtain ⟨n, rfl⟩ : ∃ n, fuel = n + 1 := ⟨fuel - 1, by simp at hfuel; omega⟩
    have hc := hskip c (List.mem_cons_self _ _)
    have hrest : ∀ d ∈ skip, d.wf ∧ d.Ident ≠ tag :=
      fun d hd => hskip d (List.mem_cons_of_mem _ hd)
    have h1 := DataStream.Seek_skip n tag pre (encodeBlocks skip) c hc.1 hc.2 dev
    have h2 := ih (pre ++ c.bytes) dev n hrest (by simp at hfuel; omega)
    simp only [encodeBlocks_cons, List.append_assoc, List.length_append] at h1 h2 ⊢
    rw [h1, h2]
    simp [Nat.add_assoc]

/-- `Read` with the cursor in front of blocks with other tags followed by a
well-formed `Hits` block: the buffer receives exactly the records of that
block and the cursor ends behind it. -/
theorem ColorFilm.Read_hits_block (L : Layout Hit) (film : ColorFilm Hit) (fuel : Nat)
    (pre : List Nat) (skip : List Block) (rs : List Hit) (tl : List Nat) (dev : List Bool)
    (hskip : ∀ c ∈ skip, c.wf ∧ c.Ident ≠ TAG_Hits) (hwf : (FilmBlock.hits rs).wf L)
    (hfuel : skip.length < fuel) :
    film.Read L fuel (DataStream.mk
        (pre ++ (encodeBlocks skip ++ ((FilmBlock.toBlock L (.hits rs)).bytes ++ tl)))
        pre.length false false false dev)
      = some (false, { film.resize L rs.length with buf := rs },
          DataStream.mk
            (pre ++ (encodeBlocks skip ++ ((FilmBlock.toBlock L (.hits rs)).bytes ++ tl)))
            (pre.length + (encodeBlocks skip).length
              + (FilmBlock.toBlock L (.hits rs)).bytes.length) false false false dev) := by
  have hseek := DataStream.Seek_blocks TAG_Hits skip pre (FilmBlock.toBlock L (.hits rs)) tl dev
    fuel hskip (FilmBlock.hits_toBlock_wf L rs hwf) rfl hfuel
  have hbytes := FilmBlock.hits_bytes L rs hwf
  obtain ⟨hn, hs⟩ := hwf
  have hhdr := DataStream.ReadFilmHeader_hits_of_eq L.size rs.length hn hs
    (pre ++ (encodeBlocks skip ++ ((FilmBlock.toBlock L (.hits rs)).bytes ++ tl)))
    (pre ++ encodeBlocks skip) (L.image rs ++ tl)
    (pre.length + (encodeBlocks skip).length) dev
    (by rw [hbytes]; simp [List.append_assoc]) (by simp)
  have hrd := DataStream.read_prefix_of_eq
    (pre ++ (encodeBlocks skip ++ ((FilmBlock.toBlock L (.hits rs)).bytes ++ tl)))
    (pre ++ encodeBlocks skip ++ (FilmHeader.new L.size rs.length).bytes) (L.image rs) tl
    (pre.length + (encodeBlocks skip).length + 12) (L.size * rs.length) dev
    (by rw [hbytes]; simp [List.append_assoc])
    (by simp [FilmHeader.length_filmHeader_bytes, Nat.add_assoc]) (by rw [Layout.length_image])
  have hcount : (FilmHeader.new L.size rs.length).Count = rs.length := by
    rw [FilmHeader.new_of_lt _ _ hn hs]
  have hlen : (FilmBlock.toBlock L (.hits rs)).bytes.length = 12 + L.size * rs.length := by
    rw [hbytes, List.length_append, FilmHeader.length_filmHeader_bytes, Layout.length_image]
  have hdrop : (L.image (film.resize L rs.length).buf).drop (L.image rs).length = [] := by
    apply List.drop_of_length_le
    rw [Layout.length_image, Layout.length_image, ColorFilm.length_resize]
  have hch := chunks_image L rs []
  rw [List.append_nil] at hch
  simp only [ColorFilm.Read, hseek, hhdr, hcount, DataStream.Read, hrd, Bool.false_eq_true,
    if_false, hdrop, List.append_nil, hch, hlen, DataStream.fail, Bool.or_self]
  simp [Nat.add_assoc]

/-- `Read` with the cursor in front of blocks none of which is a `Hits`
block: it fails at the end of the file and leaves the film as it was. -/
theorem ColorFilm.Read_no_hits (L : Layout Hit) (film : ColorFilm Hit) (fuel : Nat)
    (pre : List Nat) (skip : List Block) (dev : List Bool)
    (hskip : ∀ c ∈ skip, c.wf ∧ c.Ident ≠ TAG_Hits) (hfuel : skip.length < fuel) :
    film.Read L fuel (DataStream.mk (pre ++ encodeBlocks skip) pre.length
        false false false dev)
      = some (true, film, DataStream.mk (pre ++ encodeBlocks skip)
          (pre.length + (encodeBlocks skip).length) true true false dev) := by
  simp only [ColorFilm.Read, DataStream.Seek_blocks_eof TAG_Hits skip pre dev fuel hskip hfuel]

theorem FilmBlock.split (bs : List (FilmBlock Hit)) :
    (∀ b ∈ bs, ∃ i p, b = FilmBlock.other i p) ∨
    ∃ skip rs rest, bs = skip ++ FilmBlock.hits rs :: rest ∧
      ∀ b ∈ skip, ∃ i p, b = FilmBlock.other i p := by
  induction bs with
  | nil => left; simp
  | cons b bs ih =>
    cases b with
    | hits rs => right; exact ⟨[], rs, bs, rfl, by simp⟩
    | other i p =>
      rcases ih with h | ⟨skip, rs, rest, he, hs⟩
      · left
        intro b hb
        rcases List.mem_cons.mp hb with rfl | hb
        · exact ⟨i, p, rfl⟩
        · exact h b hb
      · right
        refine ⟨FilmBlock.other i p :: skip, rs, rest, by rw [he]; rfl, ?_⟩
        intro b hb
        rcases List.mem_cons.mp hb with rfl | hb
        · exact ⟨i, p, rfl⟩
        · exact hs b hb

theorem hitsOf_others (skip : List (FilmBlock Hit))
    (hs : ∀ b ∈ skip, ∃ i p, b = FilmBlock.other i p) (tl : List (FilmBlock Hit)) :
    hitsOf (skip ++ tl) = hitsOf tl := by
  induction skip with
  | nil => rfl
  | cons b skip ih =>
    obtain ⟨i, p, rfl⟩ := hs _ (List.mem_cons_self _ _)
    simpa [hitsOf] using ih (fun c hc => hs c (List.mem_cons_of_mem _ hc))

theorem others_toBlock (L : Layout Hit) (skip : List (FilmBlock Hit))
    (hs : ∀ b ∈ skip, ∃ i p, b = FilmBlock.other i p) (hwf : ∀ b ∈ skip, b.wf L) :
    ∀ c ∈ skip.map (FilmBlock.toBlock L), c.wf ∧ c.Ident ≠ TAG_Hits := by
  intro c hc
  obtain ⟨b, hb, rfl⟩ := List.mem_map.mp hc
  obtain ⟨i, p, rfl⟩ := hs b hb
  have h := hwf _ hb
  exact ⟨h.2, h.1⟩

theorem encodeFilm_append (L : Layout Hit) (as bs : List (FilmBlock Hit)) :
    encodeFilm L (as ++ bs) = encodeFilm L as ++ encodeFilm L bs := by
  simp [encodeFilm, encodeBlocks_append]

theorem encodeFilm_cons (L : Layout Hit) (b : FilmBlock Hit) (bs : List (FilmBlock Hit)) :
    encodeFilm L (b :: bs) = (FilmBlock.toBlock L b).bytes ++ encodeFilm L bs := by
  simp [encodeFilm, encodeBlocks_cons]

/-- `ReadHits` over a well-formed sequence of film blocks. -/
theorem ColorFilm.ReadHits_blocks {σ : Type} (L : Layout Hit) (Func : σ → List Hit → σ) :
    ∀ (n : Nat) (bs : List (FilmBlock Hit)), bs.length ≤ n → (∀ b ∈ bs, b.wf L) →
      ∀ (pre : List Nat) (acc : σ) (film : ColorFilm Hit) (dev : List Bool) (fuel : Nat),
        bs.length + 1 < fuel →
        ∃ film', ColorFilm.ReadHits L Func fuel acc film
            (DataStream.mk (pre ++ encodeFilm L bs) pre.length false false false dev)
          = some ((hitsOf bs).foldl Func acc, film',
              DataStream.mk (pre ++ encodeFilm L bs) (pre.length + (encodeFilm L bs).length)
                true true false dev) := by
  intro n
  induction n with
  | zero =>
    intro bs hlen _ pre acc film dev fuel hfuel
    have hnil : bs = [] := List.eq_nil_of_length_eq_zero (by omega)
    subst hnil
    obtain ⟨m, rfl⟩ : ∃ m, fuel = m + 1 := ⟨fuel - 1, by omega⟩
    refine ⟨film, ?_⟩
    have h := ColorFilm.Read_no_hits L film (m + 1) pre [] dev (by simp) (by simp)
    simp only [encodeFilm, List.map_nil] at h ⊢
    simp only [ColorFilm.ReadHits, h, hitsOf, List.foldl_nil]
  | succ n ih =>
    intro bs hlen hwf pre acc film dev fuel hfuel
    obtain ⟨m, rfl⟩ : ∃ m, fuel = m + 1 := ⟨fuel - 1, by omega⟩
    rcases FilmBlock.split bs with hall | ⟨skip, rs, rest, rfl, hskip⟩
    · refine ⟨film, ?_⟩
      have h := ColorFilm.Read_no_hits L film (m + 1) pre (bs.map (FilmBlock.toBlock L)) dev
        (others_toBlock L bs hall hwf) (by rw [List.length_map]; omega)
      have hh : hitsOf bs = [] := by
        have := hitsOf_others bs hall []
        simpa [hitsOf] using this
      simp only [encodeFilm] at h ⊢
      simp only [ColorFilm.ReadHits, h, hh, List.foldl_nil]
    · have hwskip : ∀ b ∈ skip, b.wf L := fun b hb => hwf b (List.mem_append_left _ hb)
      have hwrs : (FilmBlock.hits rs).wf L :=
        hwf _ (List.mem_append_right _ (List.mem_cons_self _ _))
      have hwrest : ∀ b ∈ rest, b.wf L :=
        fun b hb => hwf b (List.mem_append_right _ (List.mem_cons_of_mem _ hb))
      simp only [List.length_append, List.length_cons] at hlen hfuel
      have hread := ColorFilm.Read_hits_block L film (m + 1) pre
        (skip.map (FilmBlock.toBlock L)) rs (encodeFilm L rest) dev
        (others_toBlock L skip hskip hwskip) hwrs (by rw [List.length_map]; omega)
      obtain ⟨film', hrec⟩ := ih rest (by omega) hwrest
        (pre ++ (encodeBlocks (skip.map (FilmBlock.toBlock L))
          ++ (FilmBlock.toBlock L (.hits rs)).bytes))
        (Func acc rs) { film.resize L rs.length with buf := rs } dev m (by omega)
      refine ⟨film', ?_⟩
      have hdata : encodeFilm L (skip ++ FilmBlock.hits rs :: rest)
          = encodeBlocks (skip.map (FilmBlock.toBlock L))
              ++ ((FilmBlock.toBlock L (.hits rs)).bytes ++ encodeFilm L rest) := by
        rw [encodeFilm_append, encodeFilm_cons]; rfl
      rw [hitsOf_others skip hskip, hdata]
      simp only [ColorFilm.ReadHits, hread, hitsOf, List.foldl_cons]
      simp only [List.append_assoc, List.length_append, Nat.add_assoc] at hrec ⊢
      exact hrec

/-- C3. `ColorFilm::ReadHits(Func)`, started with the cursor just after the
file header `hdr` of a well-formed film file, invokes `Func` exactly once
for each `Hits` block of the file, in file order, with the buffer holding
exactly the records of that block in stored order; it skips blocks with
other tags and terminates after the last `Hits` block, at the end of the
file.  The calls of `Func` are observed through the state `σ` that `Func`
threads: the final state is the fold of `Func` over the record lists of
the `Hits` blocks. -/
theorem ReadHits_visits_each_hits_block {σ : Type} (L : Layout Hit) (Func : σ → List Hit → σ)
    (acc : σ) (film : ColorFilm Hit) (hdr : List Nat) (bs : List (FilmBlock Hit))
    (dev : List Bool) (fuel : Nat) (hwf : ∀ b ∈ bs, b.wf L) (hfuel : bs.length + 1 < fuel) :
    ∃ film', ColorFilm.ReadHits L Func fuel acc film
        (DataStream.mk (hdr ++ encodeFilm L bs) hdr.length false false false dev)
      = some ((hitsOf bs).foldl Func acc, film',
          DataStream.mk (hdr ++ encodeFilm L bs) (hdr.length + (encodeFilm L bs).length)
            true true false dev) :=
  ColorFilm.ReadHits_blocks L Func bs.length bs le_rfl hwf hdr acc film dev fuel hfuel

/-- Witness for C3: a film file with a `Config` block, a `Hits` block of two
records and an empty `Hits` block; `Func` logs the buffers it is given. -/
theorem ReadHits_visits_each_hits_block_witness :
    ∃ film', ColorFilm.ReadHits (rawLayout 2) (fun log buf => log ++ [buf]) 5 []
        (ColorFilm.new 4)
        (DataStream.mk (FileHeader.bytes ++ encodeFilm (rawLayout 2)
          [.other TAG_Config [0, 0, 0, 64], .hits [⟨[1, 2], rfl⟩, ⟨[3, 4], rfl⟩], .hits []])
          FileHeader.bytes.length false false false [])
      = some ((hitsOf [.other TAG_Config [0, 0, 0, 64],
            .hits [(⟨[1, 2], rfl⟩ : RawHit 2), ⟨[3, 4], rfl⟩], .hits []]).foldl
              (fun log buf => log ++ [buf]) [], film',
          DataStream.mk (FileHeader.bytes ++ encodeFilm (rawLayout 2)
            [.other TAG_Config [0, 0, 0, 64], .hits [⟨[1, 2], rfl⟩, ⟨[3, 4], rfl⟩], .hits []])
            (FileHeader.bytes.length + (encodeFilm (rawLayout 2)
              [.other TAG_Config [0, 0, 0, 64], .hits [⟨[1, 2], rfl⟩, ⟨[3, 4], rfl⟩],
                .hits []]).length) true true false []) :=
  ReadHits_visits_each_hits_block (rawLayout 2) (fun log buf => log ++ [buf]) []
    (ColorFilm.new 4) FileHeader.bytes
    [.other TAG_Config [0, 0, 0, 64], .hits [⟨[1, 2], rfl⟩, ⟨[3, 4], rfl⟩], .hits []] [] 5
    (by
      intro b hb
      simp only [List.mem_cons, List.mem_singleton, List.not_mem_nil, or_false] at hb
      rcases hb with rfl | rfl | rfl <;>
        simp [FilmBlock.wf, Block.wf, TAG_Config, TAG_Hits, sizeofBlockHeader,
          sizeofFilmHeader, rawLayout])
    (by decide)

end ReadTheorems

/-! ### `ColorFilm::Expose` and `ColorFilm::Flush` -/

section WriteTheorems

variable {Hit : Type}

theorem DataStream.noFaults_tail {s : DataStream} (h : s.noFaults) (t : DataStream)
    (ht : t.dev = s.dev.tail) : t.noFaults := by
  intro b hb
  rw [DataStream.noFaults] at h
  rw [ht] at hb
  exact h b (List.mem_of_mem_tail hb)

/-- A write at the end of a stream without faults appends the bytes. -/
theorem DataStream.Write_atEnd (s : DataStream) (bytes : List Nat) (h : s.atEnd)
    (hf : s.noFaults) :
    (s.Write bytes).1 = false ∧ (s.Write bytes).2.atEnd ∧ (s.Write bytes).2.noFaults ∧
      (s.Write bytes).2.data = s.data ++ bytes := by
  obtain ⟨data, pos, fb, eb, bb, dev⟩ := s
  obtain ⟨h1, h2, h3, h4⟩ := h
  simp only at h1 h2 h3 h4
  subst h1 h2 h3 h4
  have hd : dev.headD false = false := by
    cases dev with
    | nil => rfl
    | cons b t => exact hf b (List.mem_cons_self _ _)
  have hw : (DataStream.mk data data.length false false false dev).write bytes
      = DataStream.mk (data ++ bytes) (data.length + bytes.length) false false false dev.tail := by
    have hdrop : List.drop (data.length + bytes.length) data = [] :=
      List.drop_of_length_le (by omega)
    simp only [DataStream.write, DataStream.good, hd, Bool.or_self, Bool.not_false,
      Bool.not_true, Bool.false_eq_true, if_false, List.take_length, Nat.sub_self,
      List.replicate_zero, List.append_nil, hdrop]
  refine ⟨?_, ?_, ?_, ?_⟩
  · simp [DataStream.Write, hw, DataStream.bad]
  · simp [DataStream.Write, hw, DataStream.atEnd]
  · exact DataStream.noFaults_tail hf _ (by simp [DataStream.Write, hw])
  · simp [DataStream.Write, hw]

/-- `Flush` on a stream without faults: the block of the buffer is
appended to the file, the buffer is emptied and `_Exposures` grows by the
number of records written. -/
theorem ColorFilm.Flush_atEnd (L : Layout Hit) (f : ColorFilm Hit) (s : DataStream)
    (h : s.atEnd) (hf : s.noFaults) (hlen : f.buf.length < 2 ^ 32) :
    (f.Flush L s).1 = false ∧ (f.Flush L s).2.2.atEnd ∧ (f.Flush L s).2.2.noFaults ∧
      (f.Flush L s).2.2.data = s.data ++ ColorFilm.blockBytes L f.buf ∧
      (f.Flush L s).2.1.buf = [] ∧ (f.Flush L s).2.1.capacity = f.capacity ∧
      (f.Flush L s).2.1._Exposures = (f._Exposures + f.buf.length) % 2 ^ 64 := by
  obtain ⟨a1, a2, a3, a4⟩ := DataStream.Write_atEnd s
    (FilmHeader.new L.size (f.buf.length % 2 ^ 32)).bytes h hf
  obtain ⟨b1, b2, b3, b4⟩ := DataStream.Write_atEnd
    (s.Write (FilmHeader.new L.size (f.buf.length % 2 ^ 32)).bytes).2
    (L.image (f.buf.take (f.buf.length % 2 ^ 32))) a2 a3
  have hm : f.buf.length % 2 ^ 32 = f.buf.length := Nat.mod_eq_of_lt hlen
  simp only [ColorFilm.Flush, DataStream.WriteHeader, a1, b1, Bool.false_eq_true, if_false]
  refine ⟨trivial, b2, b3, ?_, trivial, trivial, ?_⟩
  · rw [b4, a4, hm, List.take_length, ColorFilm.blockBytes, List.append_assoc]
  · rw [hm]

theorem ColorFilm.grow_le (c n : Nat) (h : n ≤ c) : ColorFilm.grow c n = c := by
  simp [ColorFilm.grow, h]

/-- `Expose` while the buffer stays below capacity only buffers the hit. -/
theorem ColorFilm.Expose_below (L : Layout Hit) (f : ColorFilm Hit) (s : DataStream) (x : Hit)
    (hlt : f.buf.length + 1 < f.capacity) :
    f.Expose L s x = (true, { f with buf := f.buf ++ [x] }, s) := by
  have hg : ColorFilm.grow f.capacity (f.buf.length + 1) = f.capacity :=
    ColorFilm.grow_le _ _ hlt.le
  have hne : (f.buf.length + 1 != f.capacity) = true := by
    simp only [bne_iff_ne, ne_eq]; omega
  simp only [ColorFilm.Expose, ColorFilm.push_back, hg, List.length_append, List.length_singleton,
    hne, if_true]

/-- `Expose` of the hit that fills the buffer flushes the buffer. -/
theorem ColorFilm.Expose_full (L : Layout Hit) (f : ColorFilm Hit) (s : DataStream) (x : Hit)
    (heq : f.buf.length + 1 = f.capacity) :
    f.Expose L s x = ColorFilm.Flush L { f with buf := f.buf ++ [x] } s := by
  have hg : ColorFilm.grow f.capacity (f.buf.length + 1) = f.capacity :=
    ColorFilm.grow_le _ _ heq.le
  have hne : (f.buf.length + 1 != f.capacity) = false := by
    simp only [bne_eq_false_iff_eq]; exact heq
  simp only [ColorFilm.Expose, ColorFilm.push_back, hg, List.length_append, List.length_singleton,
    hne, Bool.false_eq_true, if_false]


/-- Invariant of a run of `Expose` on one film over a stream without
faults: the file grows by whole blocks of `cap` records, and the records of
these blocks followed by the buffer are the records exposed so far. -/
theorem ColorFilm.ExposeAll_inv (L : Layout Hit) (cap : Nat) (hcap : cap < 2 ^ 32) :
    ∀ (hs : List Hit) (f : ColorFilm Hit) (s : DataStream),
      s.atEnd → s.noFaults → f.capacity = cap → f.buf.length < cap →
      ∃ chunks : List (List Hit),
        (ColorFilm.ExposeAll L f s hs).2.atEnd ∧ (ColorFilm.ExposeAll L f s hs).2.noFaults ∧
        (ColorFilm.ExposeAll L f s hs).1.capacity = cap ∧
        (ColorFilm.ExposeAll L f s hs).1.buf.length < cap ∧
        (ColorFilm.ExposeAll L f s hs).2.data
          = s.data ++ (chunks.map (ColorFilm.blockBytes L)).flatten ∧
        chunks.flatten ++ (ColorFilm.ExposeAll L f s hs).1.buf = f.buf ++ hs := by
  intro hs
  induction hs with
  | nil =>
    intro f s h1 h2 h3 h4
    exact ⟨[], by simpa [ColorFilm.ExposeAll] using ⟨h1, h2, h3, h4⟩⟩
  | cons x hs ih =>
    intro f s h1 h2 h3 h4
    by_cases hlt : f.buf.length + 1 < f.capacity
    · obtain ⟨chunks, c1, c2, c3, c4, c5, c6⟩ := ih { f with buf := f.buf ++ [x] } s h1 h2 h3
        (by simp only [List.length_append, List.length_singleton]; omega)
      refine ⟨chunks, ?_⟩
      simp only [ColorFilm.ExposeAll, ColorFilm.Expose_below L f s x hlt]
      exact ⟨c1, c2, c3, c4, c5, by rw [c6]; simp⟩
    · have heq : f.buf.length + 1 = f.capacity := by omega
      obtain ⟨e1, e2, e3, e4, e5, e6, _⟩ := ColorFilm.Flush_atEnd L { f with buf := f.buf ++ [x] }
        s h1 h2 (by simp only [List.length_append, List.length_singleton]; omega)
      obtain ⟨chunks, c1, c2, c3, c4, c5, c6⟩ := ih
        (ColorFilm.Flush L { f with buf := f.buf ++ [x] } s).2.1
        (ColorFilm.Flush L { f with buf := f.buf ++ [x] } s).2.2 e2 e3
        (by rw [e6]; exact h3) (by rw [e5]; simp only [List.length_nil]; omega)
      refine ⟨(f.buf ++ [x]) :: chunks, ?_⟩
      simp only [ColorFilm.ExposeAll, ColorFilm.Expose_full L f s x heq]
      refine ⟨c1, c2, c3, c4, ?_, ?_⟩
      · rw [c5, e4]; simp
      · rw [e5] at c6
        simp only [List.flatten_cons, List.append_assoc, List.nil_append] at c6 ⊢
        rw [c6]; simp

/-- C4. For every sequence of hits passed to `Expose` on one `ColorFilm`
(any buffer capacity from 1 up to the bound `2^32` asserted by the
constructor) followed by one final `Flush`, with all stream writes
succeeding, the final `Flush` reports no error and the bytes appended to
the file are a sequence of `Hits` blocks (`chunks`, in write order) whose
record payloads, concatenated, are exactly the hits in the order given: no
record is lost, duplicated or reordered. -/
theorem Expose_then_Flush_preserves_hits (L : Layout Hit) (cap : Nat) (hs : List Hit)
    (s : DataStream) (h1 : 1 ≤ cap) (h2 : cap < 2 ^ 32) (hs1 : s.atEnd) (hs2 : s.noFaults) :
    (ColorFilm.Flush L (ColorFilm.ExposeAll L (ColorFilm.new cap) s hs).1
        (ColorFilm.ExposeAll L (ColorFilm.new cap) s hs).2).1 = false ∧
    (ColorFilm.Flush L (ColorFilm.ExposeAll L (ColorFilm.new cap) s hs).1
        (ColorFilm.ExposeAll L (ColorFilm.new cap) s hs).2).2.1.buf = [] ∧
    ∃ chunks : List (List Hit), chunks.flatten = hs ∧
      (ColorFilm.Flush L (ColorFilm.ExposeAll L (ColorFilm.new cap) s hs).1
          (ColorFilm.ExposeAll L (ColorFilm.new cap) s hs).2).2.2.data
        = s.data ++ (chunks.map (ColorFilm.blockBytes L)).flatten := by
  obtain ⟨chunks, c1, c2, c3, c4, c5, c6⟩ := ColorFilm.ExposeAll_inv L cap h2 hs
    (ColorFilm.new cap) s hs1 hs2 rfl (by simp only [ColorFilm.new, List.length_nil]; omega)
  obtain ⟨e1, e2, e3, e4, e5, e6, _⟩ := ColorFilm.Flush_atEnd L
    (ColorFilm.ExposeAll L (ColorFilm.new cap) s hs).1
    (ColorFilm.ExposeAll L (ColorFilm.new cap) s hs).2 c1 c2 (by omega)
  refine ⟨e1, e5, chunks ++ [(ColorFilm.ExposeAll L (ColorFilm.new cap) s hs).1.buf], ?_, ?_⟩
  · simpa [ColorFilm.new] using c6
  · rw [e4, c5]; simp

/-- Witness for C4: three hits on a film of capacity 2 over a new file. -/
theorem Expose_then_Flush_preserves_hits_witness :
    ∃ chunks : List (List (RawHit 2)),
      chunks.flatten = [⟨[1, 2], rfl⟩, ⟨[3, 4], rfl⟩, ⟨[5, 6], rfl⟩] ∧
      (ColorFilm.Flush (rawLayout 2)
          (ColorFilm.ExposeAll (rawLayout 2) (ColorFilm.new 2) (DataStream.New []).2
            [⟨[1, 2], rfl⟩, ⟨[3, 4], rfl⟩, ⟨[5, 6], rfl⟩]).1
          (ColorFilm.ExposeAll (rawLayout 2) (ColorFilm.new 2) (DataStream.New []).2
            [⟨[1, 2], rfl⟩, ⟨[3, 4], rfl⟩, ⟨[5, 6], rfl⟩]).2).2.2.data
        = (DataStream.New []).2.data
            ++ (chunks.map (ColorFilm.blockBytes (rawLayout 2))).flatten :=
  (Expose_then_Flush_preserves_hits (rawLayout 2) 2
    [⟨[1, 2], rfl⟩, ⟨[3, 4], rfl⟩, ⟨[5, 6], rfl⟩] (DataStream.New []).2
    (by decide) (by decide) (by decide) (by decide)).2.2

end WriteTheorems

/-! ### The films of all workers -/

section WorkersTheorems

variable {Hit : Type}

theorem sum_map_set {α : Type} (g : α → Nat) :
    ∀ (l : List α) (i : Nat) (x : α), l[i]? = some x →
      ∃ r, (l.map g).sum = r + g x ∧ ∀ a, ((l.set i a).map g).sum = r + g a := by
  intro l
  induction l with
  | nil => intro i x h; simp at h
  | cons y l ih =>
    intro i x h
    cases i with
    | zero =>
      simp only [List.getElem?_cons_zero, Option.some.injEq] at h
      subst h
      exact ⟨(l.map g).sum, by simp [Nat.add_comm], fun a => by simp [Nat.add_comm]⟩
    | succ i =>
      simp only [List.getElem?_cons_succ] at h
      obtain ⟨r, h1, h2⟩ := ih i x h
      refine ⟨g y + r, ?_, fun a => ?_⟩
      · simp only [List.map_cons, List.sum_cons, h1]; omega
      · simp only [List.set_cons_succ, List.map_cons, List.sum_cons, h2 a]; omega

theorem mem_of_getElem?_eq_some {α : Type} {l : List α} {i : Nat} {x : α}
    (h : l[i]? = some x) : x ∈ l := by
  obtain ⟨hi, rfl⟩ := List.getElem?_eq_some.mp h
  exact List.getElem_mem hi

/-- What one operation of a film does to the film and to the stream, while
no device write fails. -/
theorem ColorFilm.op_effect (L : Layout Hit) (Buffer : Nat) (hB : Buffer < 2 ^ 32)
    (hS : sizeofFilmHeader + L.size * Buffer < 2 ^ 32) (f : ColorFilm Hit) (s : DataStream)
    (r : Bool × ColorFilm Hit × DataStream)
    (hr : r = f.Flush L s ∨ ∃ x, r = f.Expose L s x)
    (h1 : s.atEnd) (h2 : s.noFaults) (h3 : f.capacity = Buffer) (h4 : f.buf.length < Buffer)
    (h5 : f._Exposures + f.buf.length + 1 < 2 ^ 64) :
    r.2.2.atEnd ∧ r.2.2.noFaults ∧ r.2.1.capacity = Buffer ∧ r.2.1.buf.length < Buffer ∧
    ∃ written : List (List Hit),
      r.2.2.data = s.data ++ encodeFilm L (written.map FilmBlock.hits) ∧
      (∀ c ∈ written, (FilmBlock.hits c).wf L) ∧
      r.2.1._Exposures = f._Exposures + (written.map List.length).sum ∧
      r.2.1._Exposures + r.2.1.buf.length ≤ f._Exposures + f.buf.length + 1 := by
  have hmul : ∀ n, n ≤ Buffer → sizeofFilmHeader + L.size * n < 2 ^ 32 := by
    intro n hn
    have : L.size * n ≤ L.size * Buffer := Nat.mul_le_mul_left _ hn
    omega
  have hflush : ∀ g : ColorFilm Hit, g.capacity = Buffer → g.buf.length ≤ Buffer →
      g._Exposures = f._Exposures → g.buf.length ≤ f.buf.length + 1 →
      (g.Flush L s).2.2.atEnd ∧ (g.Flush L s).2.2.noFaults ∧
      (g.Flush L s).2.1.capacity = Buffer ∧ (g.Flush L s).2.1.buf.length < Buffer ∧
      ∃ written : List (List Hit),
        (g.Flush L s).2.2.data = s.data ++ encodeFilm L (written.map FilmBlock.hits) ∧
        (∀ c ∈ written, (FilmBlock.hits c).wf L) ∧
        (g.Flush L s).2.1._Exposures = f._Exposures + (written.map List.length).sum ∧
        (g.Flush L s).2.1._Exposures + (g.Flush L s).2.1.buf.length
          ≤ f._Exposures + f.buf.length + 1 := by
    intro g g1 g2 g3 g4
    obtain ⟨_, e2, e3, e4, e5, e6, e7⟩ := ColorFilm.Flush_atEnd L g s h1 h2 (by omega)
    have hwf : (FilmBlock.hits g.buf).wf L := ⟨by omega, hmul _ g2⟩
    have hmod : (g._Exposures + g.buf.length) % 2 ^ 64 = f._Exposures + g.buf.length := by
      rw [g3]; exact Nat.mod_eq_of_lt (by omega)
    refine ⟨e2, e3, by rw [e6, g1], by rw [e5]; simp only [List.length_nil]; omega,
      [g.buf], ?_, ?_, ?_, ?_⟩
    · rw [e4, ColorFilm.blockBytes, ← FilmBlock.hits_bytes L g.buf hwf]
      simp [encodeFilm, encodeBlocks]
    · intro c hc
      rw [List.mem_singleton] at hc
      subst hc; exact hwf
    · rw [e7, hmod]; simp
    · rw [e7, e5, hmod]; simp only [List.length_nil]; omega
  rcases hr with rfl | ⟨x, rfl⟩
  · exact hflush f h3 h4.le rfl (by omega)
  · by_cases hlt : f.buf.length + 1 < f.capacity
    · rw [ColorFilm.Expose_below L f s x hlt]
      refine ⟨h1, h2, h3, by simp only [List.length_append, List.length_singleton]; omega,
        [], by simp [encodeFilm, encodeBlocks], by simp, by simp, ?_⟩
      simp only [List.length_append, List.length_singleton]; omega
    · have heq : f.buf.length + 1 = f.capacity := by omega
      rw [ColorFilm.Expose_full L f s x heq]
      exact hflush { f with buf := f.buf ++ [x] } h3
        (by simp only [List.length_append, List.length_singleton]; omega) rfl
        (by simp only [List.length_append, List.length_singleton]; omega)

theorem Workers.Inv_mono (L : Layout Hit) (data0 : List Nat) (Buffer k k' : Nat)
    (w : Workers Hit) (h : Workers.Inv L data0 Buffer k w) (hk : k ≤ k') :
    Workers.Inv L data0 Buffer k' w := by
  obtain ⟨a, b, c, d, e⟩ := h
  exact ⟨a, b, c, d, by omega⟩

/-- Replacing film `i` by the result of one of its operations keeps the
invariant. -/
theorem Workers.Inv_set (L : Layout Hit) (data0 : List Nat) (Buffer : Nat) (hB : Buffer < 2 ^ 32)
    (hS : sizeofFilmHeader + L.size * Buffer < 2 ^ 32) (k : Nat) (w : Workers Hit)
    (hinv : Workers.Inv L data0 Buffer k w) (hk : k + 1 < 2 ^ 64) (i : Nat) (f : ColorFilm Hit)
    (hi : w.films[i]? = some f) (r : Bool × ColorFilm Hit × DataStream)
    (hr : r = f.Flush L w.stream ∨ ∃ x, r = f.Expose L w.stream x) :
    Workers.Inv L data0 Buffer (k + 1) ⟨r.2.2, w.films.set i r.2.1⟩ := by
  obtain ⟨a, b, c, ⟨chunks, d1, d2, d3⟩, e⟩ := hinv
  obtain ⟨rE, hE1', hE2'⟩ := sum_map_set (fun g : ColorFilm Hit => g._Exposures) w.films i f hi
  obtain ⟨rB, hB1', hB2'⟩ := sum_map_set (fun g : ColorFilm Hit => g.buf.length) w.films i f hi
  have hE1 : (w.films.map (fun g : ColorFilm Hit => g._Exposures)).sum = rE + f._Exposures := hE1'
  have hB1 : (w.films.map (fun g : ColorFilm Hit => g.buf.length)).sum = rB + f.buf.length := hB1'
  have hE2 : ((w.films.set i r.2.1).map (fun g : ColorFilm Hit => g._Exposures)).sum
      = rE + r.2.1._Exposures := hE2' r.2.1
  have hB2 : ((w.films.set i r.2.1).map (fun g : ColorFilm Hit => g.buf.length)).sum
      = rB + r.2.1.buf.length := hB2' r.2.1
  have hf := c f (mem_of_getElem?_eq_some hi)
  simp only [Workers.exposures] at d3 e
  obtain ⟨p1, p2, p3, p4, written, p5, p6, p7, p8⟩ := ColorFilm.op_effect L Buffer hB hS f
    w.stream r hr a b hf.1 hf.2 (by omega)
  refine ⟨p1, p2, ?_, ⟨chunks ++ written, ?_, ?_, ?_⟩, ?_⟩
  · intro g hg
    rcases List.mem_or_eq_of_mem_set hg with hg | rfl
    · exact c g hg
    · exact ⟨p3, p4⟩
  · show r.2.2.data = _
    rw [p5, d1, List.map_append, encodeFilm_append, List.append_assoc]
  · intro x hx
    rcases List.mem_append.mp hx with hx | hx
    · exact d2 x hx
    · exact p6 x hx
  · simp only [Workers.exposures, List.map_append, List.sum_append, hE2, d3, hE1, p7]
    omega
  · simp only [Workers.exposures, hE2, hB2]
    omega

theorem Workers.Inv_step (L : Layout Hit) (data0 : List Nat) (Buffer : Nat) (hB : Buffer < 2 ^ 32)
    (hS : sizeofFilmHeader + L.size * Buffer < 2 ^ 32) (k : Nat) (w : Workers Hit)
    (op : FilmOp Hit) (hinv : Workers.Inv L data0 Buffer k w) (hk : k + 1 < 2 ^ 64) :
    Workers.Inv L data0 Buffer (k + 1) (w.step L op) := by
  cases op with
  | expose i x =>
    cases hi : w.films[i]? with
    | none =>
      simp only [Workers.step, hi]
      exact Workers.Inv_mono L data0 Buffer k (k + 1) w hinv (by omega)
    | some f =>
      simp only [Workers.step, hi]
      exact Workers.Inv_set L data0 Buffer hB hS k w hinv hk i f hi _ (Or.inr ⟨x, rfl⟩)
  | flush i =>
    cases hi : w.films[i]? with
    | none =>
      simp only [Workers.step, hi]
      exact Workers.Inv_mono L data0 Buffer k (k + 1) w hinv (by omega)
    | some f =>
      simp only [Workers.step, hi]
      exact Workers.Inv_set L data0 Buffer hB hS k w hinv hk i f hi _ (Or.inl rfl)

theorem Workers.Inv_run (L : Layout Hit) (data0 : List Nat) (Buffer : Nat) (hB : Buffer < 2 ^ 32)
    (hS : sizeofFilmHeader + L.size * Buffer < 2 ^ 32) (ops : List (FilmOp Hit)) :
    ∀ (k : Nat) (w : Workers Hit), Workers.Inv L data0 Buffer k w → k + ops.length < 2 ^ 64 →
      Workers.Inv L data0 Buffer (k + ops.length) (w.run L ops) := by
  induction ops with
  | nil => intro k w h _; simpa [Workers.run] using h
  | cons op ops ih =>
    intro k w h hk
    simp only [List.length_cons] at hk
    have h1 := Workers.Inv_step L data0 Buffer hB hS k w op h (by omega)
    have h2 := ih (k + 1) (w.step L op) h1 (by omega)
    simp only [Workers.run, List.foldl_cons, List.length_cons] at h2 ⊢
    have e : k + (ops.length + 1) = k + 1 + ops.length := by omega
    rw [e]; exact h2

/-- The set-up of `Render` establishes the invariant. -/
theorem Workers.Inv_init (L : Layout Hit) (dev : List Bool) (LensRadius Buffer Threads : Nat)
    (hdev : ∀ b ∈ dev, b = false) (hB : 1 ≤ Buffer) :
    Workers.Inv L (FileHeader.bytes ++ (ConfigHeader.new LensRadius).bytes) Buffer 0
      (Workers.init dev LensRadius Buffer Threads) := by
  have h0 : (DataStream.mk [] 0 false false false dev).atEnd := by simp [DataStream.atEnd]
  obtain ⟨_, a2, a3, a4⟩ := DataStream.Write_atEnd _ FileHeader.bytes h0 hdev
  obtain ⟨_, b2, b3, b4⟩ := DataStream.Write_atEnd _ (ConfigHeader.new LensRadius).bytes a2 a3
  have hst : (Workers.init dev LensRadius Buffer Threads : Workers Hit).stream
      = (((DataStream.mk [] 0 false false false dev).Write FileHeader.bytes).2.Write
          (ConfigHeader.new LensRadius).bytes).2 := rfl
  unfold Workers.Inv
  rw [hst]
  refine ⟨b2, b3, ?_, ⟨[], ?_, by simp, ?_⟩, ?_⟩
  · intro f hf
    have := List.eq_of_mem_replicate hf
    subst this
    exact ⟨rfl, by simp only [ColorFilm.new, List.length_nil]; omega⟩
  · rw [b4, a4]
    simp [encodeFilm, encodeBlocks]
  · simp [Workers.exposures, Workers.init, ColorFilm.new]
  · simp [Workers.exposures, Workers.init, ColorFilm.new]

theorem hitsOf_map_hits (chunks : List (List Hit)) :
    hitsOf (chunks.map FilmBlock.hits) = chunks := by
  induction chunks with
  | nil => rfl
  | cons c cs ih => simp [hitsOf, ih]

theorem foldl_add_length (chunks : List (List Hit)) :
    ∀ acc : Nat, chunks.foldl (fun photons hits => photons + hits.length) acc
      = acc + (chunks.map List.length).sum := by
  induction chunks with
  | nil => intro acc; simp
  | cons c cs ih => intro acc; simp [ih, Nat.add_assoc]

theorem ConfigHeader.new_bytes (L : Layout Hit) (LensRadius : Nat) :
    (ConfigHeader.new LensRadius).bytes
      = (FilmBlock.toBlock L (.other TAG_Config (leBytes 4 (LensRadius % 2 ^ 32)))).bytes := by
  simp [ConfigHeader.new, ConfigHeader.bytes, FilmBlock.toBlock, Block.bytes, leBytes_length,
    sizeofConfigHeader, sizeofBlockHeader]

/-- The exposure scan of `Develop` over a file made of the file header, the
`Config` block and well-formed `Hits` blocks counts the records of the
`Hits` blocks. -/
theorem countPhotons_chunks (L : Layout Hit) (LensRadius : Nat) (chunks : List (List Hit))
    (hwf : ∀ c ∈ chunks, (FilmBlock.hits c).wf L) (fuel : Nat) (hfuel : chunks.length + 2 < fuel) :
    countPhotons L fuel (FileHeader.bytes ++ (ConfigHeader.new LensRadius).bytes
        ++ encodeFilm L (chunks.map FilmBlock.hits))
      = some (chunks.map List.length).sum := by
  have hdata : FileHeader.bytes ++ (ConfigHeader.new LensRadius).bytes
        ++ encodeFilm L (chunks.map FilmBlock.hits)
      = FileHeader.bytes ++ encodeFilm L
          (FilmBlock.other TAG_Config (leBytes 4 (LensRadius % 2 ^ 32))
            :: chunks.map FilmBlock.hits) := by
    rw [encodeFilm_cons, ← ConfigHeader.new_bytes L LensRadius, List.append_assoc]
  have hall : ∀ b ∈ FilmBlock.other TAG_Config (leBytes 4 (LensRadius % 2 ^ 32))
      :: chunks.map FilmBlock.hits, b.wf L := by
    intro b hb
    rcases List.mem_cons.mp hb with rfl | hb
    · simp [FilmBlock.wf, Block.wf, TAG_Config, TAG_Hits, leBytes_length, sizeofBlockHeader]
    · obtain ⟨c, hc, rfl⟩ := List.mem_map.mp hb
      exact hwf c hc
  obtain ⟨film', h⟩ := ColorFilm.ReadHits_blocks L (fun photons hits => photons + hits.length)
    _ _ le_rfl hall FileHeader.bytes 0 (ColorFilm.new (2 ^ 20)) [] fuel
    (by simp only [List.length_cons, List.length_map]; omega)
  have hl : FileHeader.bytes.length = sizeofFileHeader := rfl
  rw [hl] at h
  rw [countPhotons, hdata, h]
  simp [hitsOf, hitsOf_map_hits, foldl_add_length]

/-- C5 (amended). After any sequence of fewer than `2^64` `Expose` and
`Flush` operations on the films of the workers of `Render`, in which every
stream write succeeds, the sum of the `Count` fields of the `Hits` blocks
of the file, as the exposure scan of `Develop` adds them up, equals the sum
of the `_Exposures` counters of the films.  `Buffer` is the capacity of the
films, within the bounds asserted by the constructors of `ColorFilm` and
`BlockHeader`. -/
theorem counts_eq_exposures_without_write_error (L : Layout Hit) (dev : List Bool)
    (LensRadius Buffer Threads : Nat) (ops : List (FilmOp Hit))
    (hdev : ∀ b ∈ dev, b = false) (hB1 : 1 ≤ Buffer) (hB2 : Buffer < 2 ^ 32)
    (hS : sizeofFilmHeader + L.size * Buffer < 2 ^ 32) (hops : ops.length < 2 ^ 64) :
    ∃ N, ∀ fuel, N ≤ fuel →
      countPhotons L fuel
          ((Workers.init dev LensRadius Buffer Threads : Workers Hit).run L ops).stream.data
        = some ((Workers.init dev LensRadius Buffer Threads : Workers Hit).run L ops).exposures := by
  have h0 := Workers.Inv_init L dev LensRadius Buffer Threads hdev hB1
  have h1 := Workers.Inv_run L _ Buffer hB2 hS ops 0 _ h0 (by omega)
  obtain ⟨_, _, _, ⟨chunks, d1, d2, d3⟩, _⟩ := h1
  refine ⟨chunks.length + 3, fun fuel hfuel => ?_⟩
  rw [d1, ← d3]
  exact countPhotons_chunks L LensRadius chunks d2 fuel (by omega)

/-- Witness for C5 (amended): two workers with films of capacity 2. -/
theorem counts_eq_exposures_without_write_error_witness :
    ∃ N, ∀ fuel, N ≤ fuel →
      countPhotons (rawLayout 2) fuel
          ((Workers.init [] 64 2 2 : Workers (RawHit 2)).run (rawLayout 2)
            [.expose 0 ⟨[1, 2], rfl⟩, .expose 1 ⟨[3, 4], rfl⟩, .expose 0 ⟨[5, 6], rfl⟩,
              .flush 1, .flush 0]).stream.data
        = some ((Workers.init [] 64 2 2 : Workers (RawHit 2)).run (rawLayout 2)
            [.expose 0 ⟨[1, 2], rfl⟩, .expose 1 ⟨[3, 4], rfl⟩, .expose 0 ⟨[5, 6], rfl⟩,
              .flush 1, .flush 0]).exposures :=
  counts_eq_exposures_without_write_error (rawLayout 2) [] 64 2 2
    [.expose 0 ⟨[1, 2], rfl⟩, .expose 1 ⟨[3, 4], rfl⟩, .expose 0 ⟨[5, 6], rfl⟩,
      .flush 1, .flush 0]
    (by simp) (by decide) (by decide) (by decide) (by simp)

/-- C5, counterexample.  One worker with a film of capacity 1; the file
header and the `Config` block are written, then the device fails.  The
`Expose` that fills the buffer calls `Flush`, which adds 1 to `_Exposures`
before its header write fails: the counter is 1, the file is still the file
header and the `Config` block, and the exposure scan finds 0 records. -/
theorem counts_ne_exposures_after_write_error :
    ((Workers.init [false, false, true] 64 1 1 : Workers (RawHit 2)).run (rawLayout 2)
        [.expose 0 ⟨[1, 2], rfl⟩]).exposures = 1 ∧
    ((Workers.init [false, false, true] 64 1 1 : Workers (RawHit 2)).run (rawLayout 2)
        [.expose 0 ⟨[1, 2], rfl⟩]).stream.data
      = FileHeader.bytes ++ (ConfigHeader.new 64).bytes ∧
    countPhotons (rawLayout 2) 8
        ((Workers.init [false, false, true] 64 1 1 : Workers (RawHit 2)).run (rawLayout 2)
          [.expose 0 ⟨[1, 2], rfl⟩]).stream.data = some 0 := by
  refine ⟨by decide, by decide, by decide⟩

end WorkersTheorems

/-! ### Nearest-hit selection -/

section TraceTheorems

variable {K : Type} [LinearOrderedField K] {M : Type}

/-- A shape either leaves every state of the current ray alone, or it has
one candidate `(t, f)` for the ray, which it installs exactly when the
distance stored in the state is larger than `t`. -/
theorem Shape.HitExterior_cases (sqrt : K → K) (sh : Shape K M) (st : TraceState K M) :
    (∀ (d : WithTop K) (g : Option (HitFunc K M)),
      sh.HitExterior sqrt { st with _HitDist := d, _HitFunc := g }
        = { st with _HitDist := d, _HitFunc := g }) ∨
    ∃ (t : K) (f : HitFunc K M), ∀ (d : WithTop K) (g : Option (HitFunc K M)),
      sh.HitExterior sqrt { st with _HitDist := d, _HitFunc := g }
        = if d ≤ (t : WithTop K) then { st with _HitDist := d, _HitFunc := g }
          else { st with _HitDist := (t : WithTop K), _HitFunc := some f } := by
  cases sh with
  | sphere S =>
    by_cases h1 : (S.Position.sub st.Position).Dot st.Direction < Epsilon
    · left; intro d g
      simp only [Shape.HitExterior, Sphere.HitExterior, h1, if_true]
    · by_cases h2 : (S.Position.sub st.Position).LengthSq
          - (S.Position.sub st.Position).Dot st.Direction
            * (S.Position.sub st.Position).Dot st.Direction ≥ S._RadSq
      · left; intro d g
        simp only [Shape.HitExterior, Sphere.HitExterior, h1, h2, if_true, if_false]
      · right
        refine ⟨(S.Position.sub st.Position).Dot st.Direction
          - sqrt (S._RadSq - ((S.Position.sub st.Position).LengthSq
            - (S.Position.sub st.Position).Dot st.Direction
              * (S.Position.sub st.Position).Dot st.Direction)), .sphere S, fun d g => ?_⟩
        simp only [Shape.HitExterior, Sphere.HitExterior, h1, h2, if_false, TraceState.Hit]
  | plane P =>
    by_cases h1 : P.Normal.Dot st.Direction > -Epsilon
    · left; intro d g
      simp only [Shape.HitExterior, Plane.HitExterior, h1, if_true]
    · by_cases h2 : P.Normal.Dot (P.Position.sub st.Position) / P.Normal.Dot st.Direction
          < Epsilon
      · left; intro d g
        simp only [Shape.HitExterior, Plane.HitExterior, h1, h2, or_true, if_true, if_false]
      · right
        refine ⟨P.Normal.Dot (P.Position.sub st.Position) / P.Normal.Dot st.Direction,
          .plane P, fun d g => ?_⟩
        simp only [Shape.HitExterior, Plane.HitExterior, h1, h2, or_false, if_false,
          TraceState.Hit]
  | lens L =>
    by_cases h1 : L.Direction.Dot st.Direction > L._FLim sqrt
    · left; intro d g
      simp only [Shape.HitExterior, Lens.HitExterior, h1, if_true]
    · by_cases h2 : L.Direction.Dot (L.Position.sub st.Position) / L.Direction.Dot st.Direction
          < Epsilon
      · left; intro d g
        simp only [Shape.HitExterior, Lens.HitExterior, h1, h2, or_true, if_true, if_false]
      · by_cases h3 : ((st.Position.add (st.Direction.smul
            (L.Direction.Dot (L.Position.sub st.Position) / L.Direction.Dot st.Direction))).sub
              L.Position).LengthSq ≥ L._RadSq
        · left; intro d g
          simp only [Shape.HitExterior, Lens.HitExterior, h1, h2, h3, or_false, if_true,
            if_false, ite_self]
        · right
          refine ⟨L.Direction.Dot (L.Position.sub st.Position) / L.Direction.Dot st.Direction,
            .lens L (st.Position.add (st.Direction.smul
              (L.Direction.Dot (L.Position.sub st.Position) / L.Direction.Dot st.Direction))),
            fun d g => ?_⟩
          simp only [Shape.HitExterior, Lens.HitExterior, h1, h2, h3, or_false, if_false,
            TraceState.Hit]

/-- The candidate a shape offers after `Reset` determines what the shape
does in every state of the same ray. -/
theorem Shape.HitExterior_of_candidate (sqrt : K → K) (sh : Shape K M) (st : TraceState K M)
    (t : K) (f : HitFunc K M)
    (h : sh.HitExterior sqrt st.Reset = st.Reset.Hit t f) :
    ∀ (d : WithTop K) (g : Option (HitFunc K M)),
      sh.HitExterior sqrt { st with _HitDist := d, _HitFunc := g }
        = if d ≤ (t : WithTop K) then { st with _HitDist := d, _HitFunc := g }
          else { st with _HitDist := (t : WithTop K), _HitFunc := some f } := by
  rcases Shape.HitExterior_cases sqrt sh st with hno | ⟨t', f', hyes⟩
  · have h0 := hno ⊤ none
    have e : ({ st with _HitDist := ⊤, _HitFunc := none } : TraceState K M) = st.Reset := rfl
    rw [e, h] at h0
    have := congrArg TraceState._HitFunc h0
    simp [TraceState.Hit, TraceState.Reset] at this
  · have h0 := hyes ⊤ none
    have e : ({ st with _HitDist := ⊤, _HitFunc := none } : TraceState K M) = st.Reset := rfl
    rw [e, h, if_neg (by simp)] at h0
    have hd := congrArg TraceState._HitDist h0
    have hf := congrArg TraceState._HitFunc h0
    simp only [TraceState.Hit, TraceState.Reset, WithTop.coe_eq_coe, Option.some.injEq] at hd hf
    subst hd hf
    exact hyes

/-- C6. Nearest-hit selection is independent of iteration order: after
`Reset`, if shape `A` offers a candidate at distance `tA` (continuation
`fA`) and shape `B` a candidate at distance `tB` with `tA < tB`, then
whether `HitExterior` is called on `A` then `B` or on `B` then `A`, the
state ends with `_HitDist = tA` and `_HitFunc` equal to the continuation of
`A`, and `Trace` invokes exactly the continuation of `A`. -/
theorem nearest_hit_independent_of_order [FloorRing K] (sqrt : K → K) (Lay : Layout HitRecord)
    (Interface : M → (TraceState K M → TraceState K M) → TraceState K M → Bool × TraceState K M)
    (A B : Shape K M) (st : TraceState K M) (s : DataStream) (tA tB : K) (fA fB : HitFunc K M)
    (hA : A.HitExterior sqrt st.Reset = st.Reset.Hit tA fA)
    (hB : B.HitExterior sqrt st.Reset = st.Reset.Hit tB fB) (hlt : tA < tB) :
    B.HitExterior sqrt (A.HitExterior sqrt st.Reset) = st.Reset.Hit tA fA ∧
    A.HitExterior sqrt (B.HitExterior sqrt st.Reset) = st.Reset.Hit tA fA ∧
    (st.Reset.Hit tA fA)._HitDist = (tA : WithTop K) ∧
    (st.Reset.Hit tA fA)._HitFunc = some fA ∧
    Trace sqrt Lay Interface [A, B] st s = fA.call sqrt Lay Interface (st.Reset.Hit tA fA) s ∧
    Trace sqrt Lay Interface [B, A] st s = fA.call sqrt Lay Interface (st.Reset.Hit tA fA) s := by
  have hA' := Shape.HitExterior_of_candidate sqrt A st tA fA hA
  have hB' := Shape.HitExterior_of_candidate sqrt B st tB fB hB
  have hAB : B.HitExterior sqrt (A.HitExterior sqrt st.Reset) = st.Reset.Hit tA fA := by
    rw [hA]
    have h := hB' (tA : WithTop K) (some fA)
    rw [if_pos (by exact_mod_cast hlt.le)] at h
    exact h
  have hBA : A.HitExterior sqrt (B.HitExterior sqrt st.Reset) = st.Reset.Hit tA fA := by
    rw [hB]
    have h := hA' (tB : WithTop K) (some fB)
    rw [if_neg (by simp only [WithTop.coe_le_coe, not_le]; exact hlt)] at h
    exact h
  refine ⟨hAB, hBA, rfl, rfl, ?_, ?_⟩
  · simp only [Trace, List.foldl_cons, List.foldl_nil, hAB]
    rfl
  · simp only [Trace, List.foldl_cons, List.foldl_nil, hBA]
    rfl

/-- Witness for C6: a ray from the origin along `-Z` and the planes
`z = -1` (at distance 1) and `z = -2` (at distance 2). -/
theorem nearest_hit_independent_of_order_witness :
    (Shape.plane (samplePlane (-2))).HitExterior id ((Shape.plane (samplePlane (-1))).HitExterior id
        (sampleState ⟨0, 0, 0, 0⟩ ⟨0, 0, -1, 0⟩ ⟨1, 1, 1, 1⟩ 4).Reset)
      = (sampleState ⟨0, 0, 0, 0⟩ ⟨0, 0, -1, 0⟩ ⟨1, 1, 1, 1⟩ 4).Reset.Hit 1
          (.plane (samplePlane (-1))) ∧
    (Shape.plane (samplePlane (-1))).HitExterior id ((Shape.plane (samplePlane (-2))).HitExterior id
        (sampleState ⟨0, 0, 0, 0⟩ ⟨0, 0, -1, 0⟩ ⟨1, 1, 1, 1⟩ 4).Reset)
      = (sampleState ⟨0, 0, 0, 0⟩ ⟨0, 0, -1, 0⟩ ⟨1, 1, 1, 1⟩ 4).Reset.Hit 1
          (.plane (samplePlane (-1))) := by
  have h := nearest_hit_independent_of_order id HitRecord.layout (fun _ _ st => (true, st))
    (Shape.plane (samplePlane (-1))) (Shape.plane (samplePlane (-2)))
    (sampleState ⟨0, 0, 0, 0⟩ ⟨0, 0, -1, 0⟩ ⟨1, 1, 1, 1⟩ 4) (DataStream.New []).2 1 2
    (.plane (samplePlane (-1))) (.plane (samplePlane (-2)))
    (by
      norm_num [Shape.HitExterior, Plane.HitExterior, TraceState.Reset, TraceState.Hit,
        sampleState, samplePlane, RVector.Dot, RVector.mul, RVector.Sum, RVector.sub, Epsilon])
    (by
      norm_num [Shape.HitExterior, Plane.HitExterior, TraceState.Reset, TraceState.Hit,
        sampleState, samplePlane, RVector.Dot, RVector.mul, RVector.Sum, RVector.sub, Epsilon])
    (by norm_num)
  exact ⟨h.1, h.2.1⟩

end TraceTheorems

/-! ### The lens -/

section LensGeometry

variable {K : Type} [LinearOrderedField K] {M : Type}

/-- With an exact square root the F-limit of a lens, a cosine, is at
least `-1`. -/
theorem Lens._FLim_ge_neg_one (sqrt : K → K)
    (hsqrt : ∀ x : K, 0 ≤ x → 0 ≤ sqrt x ∧ sqrt x * sqrt x = x) (L : Lens K) :
    -1 ≤ L._FLim sqrt := by
  have hpos : (0 : K) ≤ 1 * 1 + -L.FLimit * -L.FLimit + 0 * 0 := by nlinarith [sq_nonneg L.FLimit]
  obtain ⟨h0, h1⟩ := hsqrt _ hpos
  have hs : 0 < sqrt (1 * 1 + -L.FLimit * -L.FLimit + 0 * 0) := by
    rcases h0.lt_or_eq with h | h
    · exact h
    · rw [← h] at h1; nlinarith [sq_nonneg L.FLimit]
  simp only [Lens._FLim, RVector.ConstNormalized, RVector.ConstLength, RVector.sdiv,
    RVector.LengthSq, RVector.Dot, RVector.mul, RVector.Sum]
  rw [le_div_iff₀ hs]
  nlinarith [sq_nonneg L.FLimit]

/-- The lens test on the aperture radius, in squares: a ray that passes
the F-limit and distance tests installs no hit when the intersection point
`q` is at squared distance `(A/2)^2` from the lens position, and installs
the capture closure for `q` when it is strictly nearer. -/
theorem Lens.HitExterior_aperture (sqrt : K → K) (L : Lens K) (st : TraceState K M)
    (hF : ¬ L.Direction.Dot st.Direction > L._FLim sqrt)
    (hd : ¬ (st._HitDist ≤ ((L.Direction.Dot (L.Position.sub st.Position)
        / L.Direction.Dot st.Direction : K) : WithTop K)
      ∨ L.Direction.Dot (L.Position.sub st.Position) / L.Direction.Dot st.Direction < Epsilon)) :
    (((st.Position.add (st.Direction.smul (L.Direction.Dot (L.Position.sub st.Position)
        / L.Direction.Dot st.Direction))).sub L.Position).LengthSq
          = L.Aperture / 2 * (L.Aperture / 2) →
      L.HitExterior sqrt st = st) ∧
    (((st.Position.add (st.Direction.smul (L.Direction.Dot (L.Position.sub st.Position)
        / L.Direction.Dot st.Direction))).sub L.Position).LengthSq
          < L.Aperture / 2 * (L.Aperture / 2) →
      L.HitExterior sqrt st = st.Hit
        (L.Direction.Dot (L.Position.sub st.Position) / L.Direction.Dot st.Direction)
        (.lens L (st.Position.add (st.Direction.smul
          (L.Direction.Dot (L.Position.sub st.Position) / L.Direction.Dot st.Direction))))) := by
  have hr : L._RadSq = L.Aperture / 2 * (L.Aperture / 2) := by
    unfold Lens._RadSq; ring
  constructor
  · intro h
    simp only [Lens.HitExterior, hF, hd, if_false, hr, h, ge_iff_le, le_refl, if_true]
  · intro h
    simp only [Lens.HitExterior, hF, hd, if_false, hr, ge_iff_le, not_le.mpr h]

/-- The scenario of C8: the lens at the origin facing `+Z` with aperture 2
and a photon emitted at `(0,0,1)` along `(0,0,-1)`. -/
theorem Lens.HitExterior_axis (sqrt : K → K) (Up : RVector K) (F : K) (st : TraceState K M)
    (hF : -1 ≤ Lens._FLim sqrt ⟨⟨0, 0, 0, 0⟩, ⟨0, 0, 1, 0⟩, Up, 2, F⟩)
    (hP : st.Position = ⟨0, 0, 1, 0⟩) (hD : st.Direction = ⟨0, 0, -1, 0⟩) :
    (Lens.mk ⟨0, 0, 0, 0⟩ ⟨0, 0, 1, 0⟩ Up 2 F).HitExterior sqrt st.Reset
      = st.Reset.Hit 1 (.lens ⟨⟨0, 0, 0, 0⟩, ⟨0, 0, 1, 0⟩, Up, 2, F⟩ ⟨0, 0, 0, 0⟩) := by
  have hF' : ¬ Lens._FLim sqrt ⟨⟨0, 0, 0, 0⟩, ⟨0, 0, 1, 0⟩, Up, 2, F⟩ < -1 := not_lt.mpr hF
  have heps : ¬ ((1 : K) < Epsilon) := by unfold Epsilon; norm_num
  have htop : ¬ ((⊤ : WithTop K) ≤ ((1 : K) : WithTop K)) := by simp
  simp only [Lens.HitExterior, TraceState.Reset, TraceState.Hit, hP, hD, RVector.Dot,
    RVector.mul, RVector.Sum, RVector.sub, RVector.add, RVector.smul, RVector.LengthSq,
    Lens._RadSq]
  norm_num [hF', heps, htop]

end LensGeometry

section LensTheorems

variable {K : Type} [LinearOrderedField K] [FloorRing K] {M : Type}

theorem truncate_intCast (n : ℤ) : truncate (n : K) = n := by
  unfold truncate
  split <;> simp

theorem Fixed16.ext_value {a b : Fixed16} (h : a.Value = b.Value) : a = b := by
  cases a; cases b; simp only at h; subst h; rfl

theorem Fixed16.ofReal_zero : (Fixed16.ofReal (0 : K)).Value = 0 := by
  have h : truncate ((0 : K) * 32768) = 0 := by
    have := truncate_intCast (K := K) 0
    simpa using this
  simp only [Fixed16.ofReal, int32, h, clamp, int16]
  norm_num

theorem RGBSystem.uint8_255 : RGBSystem.uint8 (255 : K) = 255 := by
  have h : truncate (255 : K) = 255 := by
    have := truncate_intCast (K := K) 255
    simpa using this
  simp [RGBSystem.uint8, h]

/-- `Store` of full red, green and blue is `(255, 255, 255, 0)`. -/
theorem RGBSystem.Store_white (a : K) :
    (RGBSystem.Store (RColor.mk (1 : K) 1 1 a)).x = 255 ∧
    (RGBSystem.Store (RColor.mk (1 : K) 1 1 a)).y = 255 ∧
    (RGBSystem.Store (RColor.mk (1 : K) 1 1 a)).z = 255 ∧
    (RGBSystem.Store (RColor.mk (1 : K) 1 1 a)).w = 0 := by
  have h1 : min (max ((1 : K) * 255) 0) 255 = 255 := by norm_num
  simp only [RGBSystem.Store, RColor.smul, RColor.Clamp4, RColor.Max4, RColor.Min4, h1,
    RGBSystem.uint8_255, and_self]


/-- The capture closure of the lens appends its record to the buffer when
the buffer stays below capacity. -/
theorem Lens.capture_below (sqrt : K → K) (Lay : Layout HitRecord) (L : Lens K)
    (q : RVector K) (st : TraceState K M) (s : DataStream)
    (h : st.Film.buf.length + 1 < st.Film.capacity) :
    (L.capture sqrt Lay q st s).2.1.Film.buf
        = st.Film.buf ++ [L.record sqrt q { st with Position := q }] ∧
    (L.capture sqrt Lay q st s).2.2 = s := by
  simp only [Lens.capture, ColorFilm.Expose_below Lay st.Film s _ h, and_self]

/-- C8. When the hit continuation of the lens is committed for a ray
hitting the lens plane at `q`, it returns `false`, so that the trace of the
photon ends, leaves `State.Direction` and `State.Color` unchanged, and
exposes exactly one `HitRecord`, with `Pos = (U_a·q, V_a·q)`,
`Dir = (U·dir, V·dir)` and `Clr = Store(State.Color)`: the film and the
stream afterwards are those of `Expose` with this record, so the record is
appended to the buffer when the buffer stays below capacity.  For the lens
at the origin facing `+Z` with `A = 2` (any `Up`, any F-number whose limit
is at least `-1`) and a white photon emitted at `(0,0,1)` along `(0,0,-1)`
into an empty film of capacity at least 2, `Trace` returns `false` and the
film holds one record with `pos = (0,0)`, `dir = (0,0)` and
`clr = (255,255,255,0)`. -/
theorem lens_capture_exposes_one_record (sqrt : K → K) (Lay : Layout HitRecord)
    (Interface : M → (TraceState K M → TraceState K M) → TraceState K M → Bool × TraceState K M)
    (L : Lens K) (q : RVector K) (st : TraceState K M) (s : DataStream)
    (Up : RVector K) (F a : K) (st0 : TraceState K M)
    (hF : -1 ≤ Lens._FLim sqrt ⟨⟨0, 0, 0, 0⟩, ⟨0, 0, 1, 0⟩, Up, 2, F⟩)
    (hbuf : st0.Film.buf = []) (hcap : 2 ≤ st0.Film.capacity) :
    ((L.capture sqrt Lay q st s).1 = false ∧
      (L.capture sqrt Lay q st s).2.1.Direction = st.Direction ∧
      (L.capture sqrt Lay q st s).2.1.Color = st.Color ∧
      (L.capture sqrt Lay q st s).2.1.Film
        = (st.Film.Expose Lay s (HitRecord.new ((L._Ua sqrt).Dot q) ((L._Va sqrt).Dot q)
            ((L._U sqrt).Dot st.Direction) ((L._V sqrt).Dot st.Direction) st.Color)).2.1 ∧
      (L.capture sqrt Lay q st s).2.2
        = (st.Film.Expose Lay s (HitRecord.new ((L._Ua sqrt).Dot q) ((L._Va sqrt).Dot q)
            ((L._U sqrt).Dot st.Direction) ((L._V sqrt).Dot st.Direction) st.Color)).2.2 ∧
      (st.Film.buf.length + 1 < st.Film.capacity →
        (L.capture sqrt Lay q st s).2.1.Film.buf
          = st.Film.buf ++ [HitRecord.new ((L._Ua sqrt).Dot q) ((L._Va sqrt).Dot q)
              ((L._U sqrt).Dot st.Direction) ((L._V sqrt).Dot st.Direction) st.Color] ∧
        (L.capture sqrt Lay q st s).2.2 = s)) ∧
    ((Trace sqrt Lay Interface [.lens ⟨⟨0, 0, 0, 0⟩, ⟨0, 0, 1, 0⟩, Up, 2, F⟩]
        ((PointBeam.mk ⟨0, 0, 1, 0⟩ ⟨0, 0, -1, 0⟩ 1 ⟨1, 1, 1, a⟩).Emit st0) s).1 = false ∧
      (Trace sqrt Lay Interface [.lens ⟨⟨0, 0, 0, 0⟩, ⟨0, 0, 1, 0⟩, Up, 2, F⟩]
        ((PointBeam.mk ⟨0, 0, 1, 0⟩ ⟨0, 0, -1, 0⟩ 1 ⟨1, 1, 1, a⟩).Emit st0) s).2.2 = s ∧
      ∃ r : HitRecord,
        (Trace sqrt Lay Interface [.lens ⟨⟨0, 0, 0, 0⟩, ⟨0, 0, 1, 0⟩, Up, 2, F⟩]
          ((PointBeam.mk ⟨0, 0, 1, 0⟩ ⟨0, 0, -1, 0⟩ 1 ⟨1, 1, 1, a⟩).Emit st0) s).2.1.Film.buf = [r] ∧
        r.Pos_u.Value = 0 ∧ r.Pos_v.Value = 0 ∧ r.Dir_u.Value = 0 ∧ r.Dir_v.Value = 0 ∧
        r.Clr.x = 255 ∧ r.Clr.y = 255 ∧ r.Clr.z = 255 ∧ r.Clr.w = 0) := by
  constructor
  · refine ⟨rfl, rfl, rfl, rfl, rfl, fun h => ?_⟩
    exact Lens.capture_below sqrt Lay L q st s h
  · have hhit := Lens.HitExterior_axis sqrt Up F
      ((PointBeam.mk ⟨0, 0, 1, 0⟩ ⟨0, 0, -1, 0⟩ 1 ⟨1, 1, 1, a⟩).Emit st0) hF rfl rfl
    have hlen : ((PointBeam.mk (K := K) ⟨0, 0, 1, 0⟩ ⟨0, 0, -1, 0⟩ 1 ⟨1, 1, 1, a⟩).Emit
        st0).Film.buf.length + 1
          < ((PointBeam.mk (K := K) ⟨0, 0, 1, 0⟩ ⟨0, 0, -1, 0⟩ 1 ⟨1, 1, 1, a⟩).Emit
              st0).Film.capacity := by
      show st0.Film.buf.length + 1 < st0.Film.capacity
      rw [hbuf]; simp only [List.length_nil]; omega
    obtain ⟨c1, c2⟩ := Lens.capture_below sqrt Lay ⟨⟨0, 0, 0, 0⟩, ⟨0, 0, 1, 0⟩, Up, 2, F⟩
      ⟨0, 0, 0, 0⟩ (((PointBeam.mk ⟨0, 0, 1, 0⟩ ⟨0, 0, -1, 0⟩ 1 ⟨1, 1, 1, a⟩).Emit st0).Reset.Hit 1
        (.lens ⟨⟨0, 0, 0, 0⟩, ⟨0, 0, 1, 0⟩, Up, 2, F⟩ ⟨0, 0, 0, 0⟩)) s hlen
    have htr : Trace sqrt Lay Interface [.lens ⟨⟨0, 0, 0, 0⟩, ⟨0, 0, 1, 0⟩, Up, 2, F⟩]
        ((PointBeam.mk ⟨0, 0, 1, 0⟩ ⟨0, 0, -1, 0⟩ 1 ⟨1, 1, 1, a⟩).Emit st0) s
        = (Lens.mk ⟨0, 0, 0, 0⟩ ⟨0, 0, 1, 0⟩ Up 2 F).capture sqrt Lay ⟨0, 0, 0, 0⟩
            (((PointBeam.mk ⟨0, 0, 1, 0⟩ ⟨0, 0, -1, 0⟩ 1 ⟨1, 1, 1, a⟩).Emit st0).Reset.Hit 1
              (.lens ⟨⟨0, 0, 0, 0⟩, ⟨0, 0, 1, 0⟩, Up, 2, F⟩ ⟨0, 0, 0, 0⟩)) s := by
      simp only [Trace, List.foldl_cons, List.foldl_nil, Shape.HitExterior, hhit]
      rfl
    rw [htr]
    have hnil : (((PointBeam.mk (K := K) ⟨0, 0, 1, 0⟩ ⟨0, 0, -1, 0⟩ 1 ⟨1, 1, 1, a⟩).Emit
        st0).Reset.Hit 1 (HitFunc.lens (M := M) ⟨⟨0, 0, 0, 0⟩, ⟨0, 0, 1, 0⟩, Up, 2, F⟩
          ⟨0, 0, 0, 0⟩)).Film.buf = [] := hbuf
    rw [hnil, List.nil_append] at c1
    refine ⟨rfl, c2, _, c1, ?_⟩
    · have hz := Fixed16.ofReal_zero (K := K)
      have hw := RGBSystem.Store_white a
      simp only [Lens.record, HitRecord.new, TraceState.Hit, TraceState.Reset, PointBeam.Emit,
        RGBSystem.Emit, Lens._Ua, Lens._Va, Lens._U, Lens._V, RVector.Dot, RVector.mul,
        RVector.Sum, RVector.sdiv, RVector.Cross, RVector.ConstNormalized, mul_zero, zero_mul,
        add_zero, zero_add, sub_zero, zero_sub, zero_div, neg_zero, mul_neg, neg_mul, mul_one,
        one_mul, hz, hw, and_self]

/-- Witness for C8 over `ℚ`, with four Newton steps for `csqrt`, `Up = +Y`
and the F-number `0.8` of the scene. -/
theorem lens_capture_exposes_one_record_witness :
    (Trace (csqrt 4) HitRecord.layout (fun (_ : Unit) _ st => (true, st))
        [.lens ⟨⟨0, 0, 0, 0⟩, ⟨0, 0, 1, 0⟩, ⟨0, 1, 0, 0⟩, 2, 4 / 5⟩]
        ((PointBeam.mk ⟨0, 0, 1, 0⟩ ⟨0, 0, -1, 0⟩ 1 ⟨1, 1, 1, 1⟩).Emit
          (sampleState ⟨0, 0, 0, 0⟩ ⟨0, 0, 0, 0⟩ ⟨0, 0, 0, 0⟩ 4)) (DataStream.New []).2).1 = false ∧
    (Trace (csqrt 4) HitRecord.layout (fun (_ : Unit) _ st => (true, st))
        [.lens ⟨⟨0, 0, 0, 0⟩, ⟨0, 0, 1, 0⟩, ⟨0, 1, 0, 0⟩, 2, 4 / 5⟩]
        ((PointBeam.mk ⟨0, 0, 1, 0⟩ ⟨0, 0, -1, 0⟩ 1 ⟨1, 1, 1, 1⟩).Emit
          (sampleState ⟨0, 0, 0, 0⟩ ⟨0, 0, 0, 0⟩ ⟨0, 0, 0, 0⟩ 4)) (DataStream.New []).2).2.2
      = (DataStream.New []).2 ∧
    ∃ r : HitRecord,
      (Trace (csqrt 4) HitRecord.layout (fun (_ : Unit) _ st => (true, st))
        [.lens ⟨⟨0, 0, 0, 0⟩, ⟨0, 0, 1, 0⟩, ⟨0, 1, 0, 0⟩, 2, 4 / 5⟩]
        ((PointBeam.mk ⟨0, 0, 1, 0⟩ ⟨0, 0, -1, 0⟩ 1 ⟨1, 1, 1, 1⟩).Emit
          (sampleState ⟨0, 0, 0, 0⟩ ⟨0, 0, 0, 0⟩ ⟨0, 0, 0, 0⟩ 4))
        (DataStream.New []).2).2.1.Film.buf = [r] ∧
      r.Pos_u.Value = 0 ∧ r.Pos_v.Value = 0 ∧ r.Dir_u.Value = 0 ∧ r.Dir_v.Value = 0 ∧
      r.Clr.x = 255 ∧ r.Clr.y = 255 ∧ r.Clr.z = 255 ∧ r.Clr.w = 0 :=
  (lens_capture_exposes_one_record (csqrt 4) HitRecord.layout (fun (_ : Unit) _ st => (true, st))
    ⟨⟨0, 0, 0, 0⟩, ⟨0, 0, 1, 0⟩, ⟨0, 1, 0, 0⟩, 2, 4 / 5⟩ ⟨0, 0, 0, 0⟩
    (sampleState ⟨0, 0, 1, 0⟩ ⟨0, 0, -1, 0⟩ ⟨1, 1, 1, 1⟩ 4) (DataStream.New []).2
    ⟨0, 1, 0, 0⟩ (4 / 5) 1 (sampleState ⟨0, 0, 0, 0⟩ ⟨0, 0, 0, 0⟩ ⟨0, 0, 0, 0⟩ 4)
    (by decide!) rfl (by decide)).2

/-- C7, evaluation at a failing input.  The lens of the scene moved to
`(10, 0, 0)`, facing `+Z` with `Up = +Y`, aperture 2 and F-number `0.8`; a
photon at `(10, 0, 1)` heading along `(0, 0, -1)` meets the lens plane at
the lens centre `q = (10, 0, 0)`, at squared distance `0 < (A/2)^2` from
the lens position.  The hit is installed, but the filmspace coordinate the
closure computes is `U_a·q = -5/2`, which `Fixed16` stores clamped as
`-32768`, read back as `-1`: the recorded `|pos.u|` is not below `0.5`. -/
theorem lens_records_position_outside_half_range :
    (Lens.mk ⟨10, 0, 0, 0⟩ ⟨0, 0, 1, 0⟩ ⟨0, 1, 0, 0⟩ 2 (4 / 5)).HitExterior (csqrt 4)
        (sampleState ⟨10, 0, 1, 0⟩ ⟨0, 0, -1, 0⟩ ⟨1, 1, 1, 1⟩ 4).Reset
      = (sampleState ⟨10, 0, 1, 0⟩ ⟨0, 0, -1, 0⟩ ⟨1, 1, 1, 1⟩ 4).Reset.Hit 1
          (.lens ⟨⟨10, 0, 0, 0⟩, ⟨0, 0, 1, 0⟩, ⟨0, 1, 0, 0⟩, 2, 4 / 5⟩ ⟨10, 0, 0, 0⟩) ∧
    ((RVector.mk (10 : ℚ) 0 0 0).sub ⟨10, 0, 0, 0⟩).LengthSq < (2 : ℚ) / 2 * (2 / 2) ∧
    (Lens._Ua (csqrt 4) ⟨⟨10, 0, 0, 0⟩, ⟨0, 0, 1, 0⟩, ⟨0, 1, 0, 0⟩, 2, (4 / 5 : ℚ)⟩).Dot
        ⟨10, 0, 0, 0⟩ = -5 / 2 ∧
    (Lens.record (csqrt 4) ⟨⟨10, 0, 0, 0⟩, ⟨0, 0, 1, 0⟩, ⟨0, 1, 0, 0⟩, 2, 4 / 5⟩ ⟨10, 0, 0, 0⟩
        (sampleState ⟨10, 0, 0, 0⟩ ⟨0, 0, -1, 0⟩ ⟨1, 1, 1, 1⟩ 4)).Pos_u.Value = -32768 ∧
    ¬ |((Lens.record (csqrt 4) ⟨⟨10, 0, 0, 0⟩, ⟨0, 0, 1, 0⟩, ⟨0, 1, 0, 0⟩, 2, 4 / 5⟩
        ⟨10, 0, 0, 0⟩ (sampleState ⟨10, 0, 0, 0⟩ ⟨0, 0, -1, 0⟩ ⟨1, 1, 1, 1⟩ 4)).Pos_u.toReal : ℚ)|
      < 1 / 2 := by
  refine ⟨?_, by decide!, by decide!, by decide!, by decide!⟩
  have hF : ¬ (-1 > Lens._FLim (csqrt 4)
      ⟨⟨10, 0, 0, 0⟩, ⟨0, 0, 1, 0⟩, ⟨0, 1, 0, 0⟩, 2, (4 / 5 : ℚ)⟩) := by decide!
  have heps : ¬ ((1 : ℚ) < Epsilon) := by decide!
  have htop : ¬ ((⊤ : WithTop ℚ) ≤ ((1 : ℚ) : WithTop ℚ)) := by simp
  have hr : ¬ ((0 : ℚ) ≥ Lens._RadSq
      ⟨⟨10, 0, 0, 0⟩, ⟨0, 0, 1, 0⟩, ⟨0, 1, 0, 0⟩, 2, (4 / 5 : ℚ)⟩) := by decide!
  simp only [Lens.HitExterior, TraceState.Reset, TraceState.Hit, sampleState, RVector.Dot,
    RVector.mul, RVector.Sum, RVector.sub, RVector.add, RVector.smul, RVector.LengthSq]
  norm_num [hF, heps, htop, Lens._RadSq]

end LensTheorems

/-! ### `RGBSystem::Absorb` -/

section AbsorbTheorems

variable {K : Type} [LinearOrderedField K]

/-- C10 (amended). `RGBSystem::Absorb(color, material)` replaces `color` by
the componentwise product `color * material` and returns `true` exactly
when the sum of the red, green and blue components of the product is below
the cutoff `0.001`; consequently, starting from emissive `(1,1,1)` with
material `(0.1,0.1,0.1)`, the first, second and third calls return `false`
(the sums are `0.3`, `0.03` and `0.003`) and the fourth call is the first
to return `true` (the sum is `0.0003`). -/
theorem Absorb_product_and_cutoff (c m : RColor K) (a b : K) :
    (RGBSystem.Absorb c m).2 = ⟨c.x * m.x, c.y * m.y, c.z * m.z, c.w * m.w⟩ ∧
    ((RGBSystem.Absorb c m).1 = true ↔ c.x * m.x + c.y * m.y + c.z * m.z < 1 / 1000) ∧
    (RGBSystem.Absorb (RColor.mk (1 : K) 1 1 a) ⟨1 / 10, 1 / 10, 1 / 10, b⟩).1 = false ∧
    (RGBSystem.Absorb (RGBSystem.Absorb (RColor.mk (1 : K) 1 1 a)
      ⟨1 / 10, 1 / 10, 1 / 10, b⟩).2 ⟨1 / 10, 1 / 10, 1 / 10, b⟩).1 = false ∧
    (RGBSystem.Absorb (RGBSystem.Absorb (RGBSystem.Absorb (RColor.mk (1 : K) 1 1 a)
      ⟨1 / 10, 1 / 10, 1 / 10, b⟩).2 ⟨1 / 10, 1 / 10, 1 / 10, b⟩).2
      ⟨1 / 10, 1 / 10, 1 / 10, b⟩).1 = false ∧
    (RGBSystem.Absorb (RGBSystem.Absorb (RGBSystem.Absorb (RGBSystem.Absorb
      (RColor.mk (1 : K) 1 1 a) ⟨1 / 10, 1 / 10, 1 / 10, b⟩).2 ⟨1 / 10, 1 / 10, 1 / 10, b⟩).2
      ⟨1 / 10, 1 / 10, 1 / 10, b⟩).2 ⟨1 / 10, 1 / 10, 1 / 10, b⟩).1 = true := by
  refine ⟨rfl, ?_, ?_, ?_, ?_, ?_⟩
  · simp [RGBSystem.Absorb, RColor.mul, RColor.Sum, RGBSystem.LumaCutoff]
  · simp only [RGBSystem.Absorb, RColor.mul, RColor.Sum, RGBSystem.LumaCutoff,
      decide_eq_false_iff_not]
    norm_num
  · simp only [RGBSystem.Absorb, RColor.mul, RColor.Sum, RGBSystem.LumaCutoff,
      decide_eq_false_iff_not]
    norm_num
  · simp only [RGBSystem.Absorb, RColor.mul, RColor.Sum, RGBSystem.LumaCutoff,
      decide_eq_false_iff_not]
    norm_num
  · simp only [RGBSystem.Absorb, RColor.mul, RColor.Sum, RGBSystem.LumaCutoff,
      decide_eq_true_eq]
    norm_num

/-- C10, counterexample: starting from emissive `(1,1,1)` with material
`(0.1,0.1,0.1)` the third call of `Absorb` returns `false`; the colour it
leaves has the component sum `0.003`, which is not below `0.001`. -/
theorem Absorb_third_call_returns_false :
    (RGBSystem.Absorb (RGBSystem.Absorb (RGBSystem.Absorb (RColor.mk (1 : ℚ) 1 1 1)
      ⟨1 / 10, 1 / 10, 1 / 10, 1⟩).2 ⟨1 / 10, 1 / 10, 1 / 10, 1⟩).2
      ⟨1 / 10, 1 / 10, 1 / 10, 1⟩).1 = false ∧
    (RGBSystem.Absorb (RGBSystem.Absorb (RGBSystem.Absorb (RColor.mk (1 : ℚ) 1 1 1)
      ⟨1 / 10, 1 / 10, 1 / 10, 1⟩).2 ⟨1 / 10, 1 / 10, 1 / 10, 1⟩).2
      ⟨1 / 10, 1 / 10, 1 / 10, 1⟩).2.Sum = 3 / 1000 := by
  refine ⟨by decide!, by decide!⟩

end AbsorbTheorems

/-! ### Bits -/

section JumpTheorems

theorem W64_eq : W64 = 2 ^ 64 := by norm_num [W64]

theorem W128_eq : W128 = 2 ^ 128 := by norm_num [W128]

theorem bit_eq_toNat (s i : Nat) : s >>> i % 2 = (s.testBit i).toNat := by
  rw [Nat.toNat_testBit, Nat.shiftRight_eq_div_pow]

theorem bit_xor (a b i : Nat) :
    (a ^^^ b) >>> i % 2 = (a >>> i % 2) ^^^ (b >>> i % 2) := by
  simp only [bit_eq_toNat, Nat.testBit_xor]
  cases a.testBit i <;> cases b.testBit i <;> rfl

theorem mul_bit_xor (c a b i : Nat) :
    c * ((a ^^^ b) >>> i % 2) = c * (a >>> i % 2) ^^^ c * (b >>> i % 2) := by
  rw [bit_xor]
  rcases Nat.mod_two_eq_zero_or_one (a >>> i) with h1 | h1 <;>
    rcases Nat.mod_two_eq_zero_or_one (b >>> i) with h2 | h2 <;> simp [h1, h2]

theorem xor_xor_xor_comm (a b c d : Nat) : (a ^^^ b) ^^^ (c ^^^ d) = (a ^^^ c) ^^^ (b ^^^ d) := by
  apply Nat.eq_of_testBit_eq
  intro i
  simp only [Nat.testBit_xor]
  cases a.testBit i <;> cases b.testBit i <;> cases c.testBit i <;> cases d.testBit i <;> rfl

/-- An exclusive or with a number below `2 ^ k` after a shift by `k` is a sum. -/
theorem shiftLeft_xor_eq_add (a b k : Nat) (hb : b < 2 ^ k) :
    (a <<< k) ^^^ b = 2 ^ k * a + b := by
  apply Nat.eq_of_testBit_eq
  intro j
  rw [Nat.testBit_xor, Nat.testBit_shiftLeft, Nat.testBit_mul_pow_two_add a hb]
  by_cases hj : j < k
  · simp [hj, Nat.not_le.mpr hj]
  · have hbj : b < 2 ^ j :=
      lt_of_lt_of_le hb (Nat.pow_le_pow_right (by norm_num) (Nat.le_of_not_lt hj))
    simp [hj, Nat.le_of_not_lt hj, Nat.testBit_lt_two_pow hbj]

/-! ### Stored linear maps -/

theorem applyM_succ (M s n : Nat) :
    applyM M s (n + 1) = (col M n * (s >>> n % 2)) ^^^ applyM M s n := rfl

theorem mkM_succ (c : Nat → Nat) (n : Nat) :
    mkM c (n + 1) = (c n <<< (128 * n)) ^^^ mkM c n := rfl

theorem col_lt (M i : Nat) : col M i < 2 ^ 128 := by
  rw [← W128_eq]
  exact Nat.mod_lt _ (by norm_num [W128])

theorem col_eq (M i : Nat) : col M i = M >>> (128 * i) % 2 ^ 128 := by
  rw [← W128_eq]; rfl

theorem applyM_lt (M s n : Nat) : applyM M s n < 2 ^ 128 := by
  induction n with
  | zero => exact Nat.two_pow_pos 128
  | succ n ih =>
    rw [applyM_succ]
    apply Nat.xor_lt_two_pow _ ih
    rcases Nat.mod_two_eq_zero_or_one (s >>> n) with h | h
    · rw [h, Nat.mul_zero]; exact Nat.two_pow_pos 128
    · rw [h, Nat.mul_one]; exact col_lt M n

theorem applyM_xor (M a b n : Nat) :
    applyM M (a ^^^ b) n = applyM M a n ^^^ applyM M b n := by
  induction n with
  | zero => simp [applyM]
  | succ n ih => rw [applyM_succ, applyM_succ, applyM_succ, ih, mul_bit_xor, xor_xor_xor_comm]

theorem applyM_zero (M n : Nat) : applyM M 0 n = 0 := by
  induction n with
  | zero => rfl
  | succ n ih => rw [applyM_succ, ih]; simp

theorem applyM_two_pow_of_le (M i n : Nat) (h : n ≤ i) : applyM M (2 ^ i) n = 0 := by
  induction n with
  | zero => rfl
  | succ n ih =>
    have hb : (2 ^ i) >>> n % 2 = 0 := by
      rw [bit_eq_toNat, Nat.testBit_two_pow_of_ne (by omega)]; rfl
    rw [applyM_succ, ih (by omega), hb]; simp

theorem applyM_two_pow (M i n : Nat) (h : i < n) : applyM M (2 ^ i) n = col M i := by
  induction n with
  | zero => omega
  | succ n ih =>
    rw [applyM_succ]
    by_cases hi : i = n
    · subst hi
      have hb : (2 ^ i) >>> i % 2 = 1 := by
        rw [bit_eq_toNat, Nat.testBit_two_pow_self]; rfl
      rw [hb, applyM_two_pow_of_le M i i le_rfl]; simp
    · have hb : (2 ^ i) >>> n % 2 = 0 := by
        rw [bit_eq_toNat, Nat.testBit_two_pow_of_ne hi]; rfl
      rw [hb, ih (by omega)]; simp

theorem mkM_lt (c : Nat → Nat) (n : Nat) (hc : ∀ i, i < n → c i < 2 ^ 128) :
    mkM c n < 2 ^ (128 * n) := by
  induction n with
  | zero => simp [mkM]
  | succ n ih =>
    have h1 := ih (fun i hi => hc i (by omega))
    rw [mkM_succ, shiftLeft_xor_eq_add _ _ _ h1]
    have h2 := hc n (by omega)
    have e : 2 ^ (128 * (n + 1)) = 2 ^ (128 * n) * 2 ^ 128 := by
      rw [← pow_add]; ring_nf
    rw [e]
    nlinarith [Nat.two_pow_pos (128 * n)]

theorem testBit_mkM (c : Nat → Nat) (n : Nat) (hc : ∀ i, i < n → c i < 2 ^ 128) :
    ∀ i j, i < n → j < 128 → (mkM c n).testBit (128 * i + j) = (c i).testBit j := by
  induction n with
  | zero => intro i j hi; omega
  | succ n ih =>
    intro i j hi hj
    rw [mkM_succ, Nat.testBit_xor, Nat.testBit_shiftLeft]
    by_cases hin : i = n
    · subst hin
      have hlt : mkM c i < 2 ^ (128 * i + j) :=
        lt_of_lt_of_le (mkM_lt c i (fun k hk => hc k (by omega)))
          (Nat.pow_le_pow_right (by norm_num) (by omega))
      rw [Nat.testBit_lt_two_pow hlt]
      simp
    · have h1 : ¬ (128 * i + j ≥ 128 * n) := by omega
      rw [ih (fun k hk => hc k (by omega)) i j (by omega) hj]
      simp [h1]

theorem col_mkM (c : Nat → Nat) (n i : Nat) (hc : ∀ i, i < n → c i < 2 ^ 128) (hi : i < n) :
    col (mkM c n) i = c i := by
  apply Nat.eq_of_testBit_eq
  intro j
  rw [col_eq, Nat.testBit_mod_two_pow, Nat.testBit_shiftRight]
  by_cases hj : j < 128
  · simp [hj, testBit_mkM c n hc i j hi hj]
  · have hlt : c i < 2 ^ j :=
      lt_of_lt_of_le (hc i hi) (Nat.pow_le_pow_right (by norm_num) (by omega))
    simp [hj, Nat.testBit_lt_two_pow hlt]

theorem mkM_congr (c d : Nat → Nat) (n : Nat) (h : ∀ i, i < n → c i = d i) :
    mkM c n = mkM d n := by
  induction n with
  | zero => rfl
  | succ n ih => rw [mkM_succ, mkM_succ, h n (by omega), ih (fun i hi => h i (by omega))]

/-- The low `n + 1` bits of a number: bit `n` and the low `n` bits. -/
theorem mod_two_pow_succ_xor (s n : Nat) :
    s % 2 ^ (n + 1) = ((s >>> n % 2) <<< n) ^^^ (s % 2 ^ n) := by
  rw [shiftLeft_xor_eq_add _ _ _ (Nat.mod_lt _ (Nat.two_pow_pos n)), Nat.mod_pow_succ,
    Nat.shiftRight_eq_div_pow]
  omega

/-- A map that is linear for the exclusive or on the numbers below
`2 ^ 128` is the map stored from its values at the powers of two. -/
theorem applyM_mkM_of_linear (f : Nat → Nat)
    (hlin : ∀ a b, a < 2 ^ 128 → b < 2 ^ 128 → f (a ^^^ b) = f a ^^^ f b)
    (h0 : f 0 = 0) (hlt : ∀ a, a < 2 ^ 128 → f a < 2 ^ 128) :
    ∀ n, n ≤ 128 → ∀ s, applyM (mkM (fun i => f (2 ^ i)) 128) s n = f (s % 2 ^ n) := by
  intro n
  induction n with
  | zero => intro _ s; simp [applyM, Nat.mod_one, h0]
  | succ n ih =>
    intro hn s
    have hpow : ∀ i, i < 128 → 2 ^ i < 2 ^ 128 :=
      fun i hi => Nat.pow_lt_pow_right (by norm_num) hi
    have hc : ∀ i, i < 128 → (fun i => f (2 ^ i)) i < 2 ^ 128 := fun i hi => hlt _ (hpow i hi)
    have hcol := col_mkM (fun i => f (2 ^ i)) 128 n hc (by omega)
    have hlow : s % 2 ^ n < 2 ^ 128 :=
      lt_trans (Nat.mod_lt _ (Nat.two_pow_pos n)) (hpow n (by omega))
    rw [applyM_succ, ih (by omega) s, hcol, mod_two_pow_succ_xor]
    rcases Nat.mod_two_eq_zero_or_one (s >>> n) with h | h
    · rw [h]; simp [h0]
    · rw [h, Nat.one_shiftLeft, hlin _ _ (hpow n (by omega)) hlow]; simp

end JumpTheorems

/-! ### The state transition is linear -/

section NextTheorems

theorem rotl_lt (x k : Nat) (hx : x < 2 ^ 64) : rotl x k < 2 ^ 64 := by
  unfold rotl
  apply Nat.or_lt_two_pow (Nat.mod_lt _ (Nat.two_pow_pos 64))
  apply Nat.lt_pow_two_of_testBit
  intro i hi
  rw [Nat.testBit_shiftRight]
  exact Nat.testBit_lt_two_pow (lt_of_lt_of_le hx (Nat.pow_le_pow_right (by norm_num) (by omega)))

theorem rotl_xor (x y k : Nat) (hx : x < 2 ^ 64) (hy : y < 2 ^ 64) (hk : k ≤ 64) :
    rotl (x ^^^ y) k = rotl x k ^^^ rotl y k := by
  apply Nat.eq_of_testBit_eq
  intro i
  simp only [rotl, Nat.testBit_or, Nat.testBit_xor, Nat.testBit_mod_two_pow,
    Nat.testBit_shiftLeft, Nat.testBit_shiftRight]
  by_cases hi : i < k
  · simp [Nat.not_le.mpr hi]
  · have h64 : ∀ z : Nat, z < 2 ^ 64 → z.testBit (64 - k + i) = false := fun z hz =>
      Nat.testBit_lt_two_pow (lt_of_lt_of_le hz (Nat.pow_le_pow_right (by norm_num) (by omega)))
    rw [h64 x hx, h64 y hy]
    cases decide (i < 64) <;> cases decide (i ≥ k) <;> simp

theorem shiftLeft_mod_xor (x y k : Nat) :
    ((x ^^^ y) <<< k) % 2 ^ 64 = (x <<< k) % 2 ^ 64 ^^^ (y <<< k) % 2 ^ 64 := by
  apply Nat.eq_of_testBit_eq
  intro i
  simp only [Nat.testBit_xor, Nat.testBit_mod_two_pow, Nat.testBit_shiftLeft]
  cases decide (i < 64) <;> cases decide (i ≥ k) <;> simp

theorem mod_xor (x y k : Nat) : (x ^^^ y) % 2 ^ k = x % 2 ^ k ^^^ y % 2 ^ k := by
  apply Nat.eq_of_testBit_eq
  intro i
  simp only [Nat.testBit_xor, Nat.testBit_mod_two_pow]
  cases decide (i < k) <;> simp

theorem div_xor (x y k : Nat) : (x ^^^ y) / 2 ^ k = x / 2 ^ k ^^^ y / 2 ^ k := by
  simp only [← Nat.shiftRight_eq_div_pow]
  apply Nat.eq_of_testBit_eq
  intro i
  simp only [Nat.testBit_xor, Nat.testBit_shiftRight]

/-- Packing two numbers side by side commutes with the exclusive or. -/
theorem add_mul_xor (k a0 a1 b0 b1 : Nat) (ha : a0 < 2 ^ k) (hb : b0 < 2 ^ k) :
    (a0 ^^^ b0) + 2 ^ k * (a1 ^^^ b1) = (a0 + 2 ^ k * a1) ^^^ (b0 + 2 ^ k * b1) := by
  have hab : a0 ^^^ b0 < 2 ^ k := Nat.xor_lt_two_pow ha hb
  apply Nat.eq_of_testBit_eq
  intro j
  rw [Nat.add_comm (a0 ^^^ b0), Nat.add_comm a0, Nat.add_comm b0, Nat.testBit_xor,
    Nat.testBit_mul_pow_two_add _ hab, Nat.testBit_mul_pow_two_add _ ha,
    Nat.testBit_mul_pow_two_add _ hb]
  by_cases hj : j < k <;> simp [hj]

theorem Random128.next_valid (r : Random128) (h : r.valid) : r.next.2.valid := by
  obtain ⟨h0, h1⟩ := h
  have hx : r.State1 ^^^ r.State0 < 2 ^ 64 := Nat.xor_lt_two_pow h1 h0
  constructor
  · exact Nat.xor_lt_two_pow (Nat.xor_lt_two_pow (rotl_lt _ _ h0) hx)
      (Nat.mod_lt _ (Nat.two_pow_pos 64))
  · exact rotl_lt _ _ hx

/-- The state transition commutes with the exclusive or of states. -/
theorem Random128.next_xor (r q : Random128) (hr : r.valid) (hq : q.valid) :
    (Random128.mk (r.State0 ^^^ q.State0) (r.State1 ^^^ q.State1)).next.2
      = ⟨r.next.2.State0 ^^^ q.next.2.State0, r.next.2.State1 ^^^ q.next.2.State1⟩ := by
  obtain ⟨r0, r1⟩ := hr
  obtain ⟨q0, q1⟩ := hq
  have hx : r.State1 ^^^ r.State0 < 2 ^ 64 := Nat.xor_lt_two_pow r1 r0
  have hy : q.State1 ^^^ q.State0 < 2 ^ 64 := Nat.xor_lt_two_pow q1 q0
  have e : r.State1 ^^^ q.State1 ^^^ (r.State0 ^^^ q.State0)
      = (r.State1 ^^^ r.State0) ^^^ (q.State1 ^^^ q.State0) := xor_xor_xor_comm _ _ _ _
  simp only [Random128.next, e, rotl_xor _ _ _ r0 q0 (by norm_num : 24 ≤ 64),
    rotl_xor _ _ _ hx hy (by norm_num : 37 ≤ 64), shiftLeft_mod_xor, Random128.mk.injEq,
    and_true]
  generalize rotl r.State0 24 = A
  generalize rotl q.State0 24 = B
  generalize r.State1 <<< 16 % 2 ^ 64 = C
  generalize r.State0 <<< 16 % 2 ^ 64 = D
  generalize q.State1 <<< 16 % 2 ^ 64 = E
  generalize q.State0 <<< 16 % 2 ^ 64 = F
  generalize r.State1 ^^^ r.State0 = G
  generalize q.State1 ^^^ q.State0 = H
  ac_rfl

theorem Random128.pack_lt (r : Random128) (h : r.valid) : r.pack < 2 ^ 128 := by
  obtain ⟨h0, h1⟩ := h
  unfold Random128.pack
  norm_num at h0 h1 ⊢
  omega

theorem Random128.unpack_pack (r : Random128) (h : r.valid) : Random128.unpack r.pack = r := by
  obtain ⟨h0, h1⟩ := h
  obtain ⟨a, b⟩ := r
  simp only [Random128.unpack, Random128.pack, Random128.mk.injEq] at *
  norm_num at h0 h1
  constructor <;> omega

theorem Random128.pack_unpack (n : Nat) : (Random128.unpack n).pack = n := by
  simp only [Random128.unpack, Random128.pack]
  omega

theorem Random128.unpack_valid (n : Nat) (h : n < 2 ^ 128) : (Random128.unpack n).valid := by
  simp only [Random128.unpack, Random128.valid]
  norm_num at h ⊢
  constructor <;> omega

theorem Random128.pack_xor (r q : Random128) (hr : r.valid) (hq : q.valid) :
    (Random128.mk (r.State0 ^^^ q.State0) (r.State1 ^^^ q.State1)).pack = r.pack ^^^ q.pack := by
  have h := add_mul_xor 64 r.State0 r.State1 q.State0 q.State1 hr.1 hq.1
  simpa [Random128.pack] using h

theorem Random128.unpack_xor (a b : Nat) :
    Random128.unpack (a ^^^ b)
      = ⟨(Random128.unpack a).State0 ^^^ (Random128.unpack b).State0,
          (Random128.unpack a).State1 ^^^ (Random128.unpack b).State1⟩ := by
  have h1 := mod_xor a b 64
  have h2 := div_xor a b 64
  norm_num at h1 h2
  simp only [Random128.unpack, h1, h2]

theorem nextN_eq (n : Nat) : nextN n = (Random128.unpack n).next.2.pack := rfl

theorem nextN_pack (r : Random128) (h : r.valid) : nextN r.pack = r.next.2.pack := by
  rw [nextN_eq, Random128.unpack_pack r h]

theorem nextN_lt (a : Nat) (h : a < 2 ^ 128) : nextN a < 2 ^ 128 := by
  rw [nextN_eq]
  exact Random128.pack_lt _ (Random128.next_valid _ (Random128.unpack_valid a h))

theorem nextN_xor (a b : Nat) (ha : a < 2 ^ 128) (hb : b < 2 ^ 128) :
    nextN (a ^^^ b) = nextN a ^^^ nextN b := by
  have va := Random128.unpack_valid a ha
  have vb := Random128.unpack_valid b hb
  rw [nextN_eq, nextN_eq, nextN_eq, Random128.unpack_xor, Random128.next_xor _ _ va vb,
    Random128.pack_xor _ _ (Random128.next_valid _ va) (Random128.next_valid _ vb)]

theorem nextN_zero : nextN 0 = 0 := by decide

end NextTheorems

/-! ### The jump on packed states -/

section JumpWordTheorems

theorem jumpWordC_succ (j b : Nat) (p : Nat × Nat) :
    jumpWordC j (b + 1) p = jumpStepC ((j >>> b) % 2) (jumpWordC j b p) := rfl

theorem jumpWordN_succ (j p b : Nat) :
    jumpWordN j p (b + 1) = jumpStepN j b (jumpWordN j p b) := rfl

theorem mul_bit_lt (c x : Nat) (hc : c < 2 ^ 128) : c * (x % 2) < 2 ^ 128 := by
  rcases Nat.mod_two_eq_zero_or_one x with h | h <;> rw [h]
  · rw [Nat.mul_zero]; exact Nat.two_pow_pos 128
  · rw [Nat.mul_one]; exact hc

theorem jumpWordC_lt (j n : Nat) (p : Nat × Nat) (h1 : p.1 < 2 ^ 128) (h2 : p.2 < 2 ^ 128) :
    (jumpWordC j n p).1 < 2 ^ 128 ∧ (jumpWordC j n p).2 < 2 ^ 128 := by
  induction n with
  | zero => exact ⟨h1, h2⟩
  | succ n ih =>
    rw [jumpWordC_succ]
    exact ⟨Nat.xor_lt_two_pow ih.1 (mul_bit_lt _ _ ih.2), nextN_lt _ ih.2⟩

theorem jumpStepN_eq (j b acc cur : Nat) (h : acc < 2 ^ 128) :
    jumpStepN j b (acc + W128 * cur)
      = (jumpStepC ((j >>> b) % 2) (acc, cur)).1
        + W128 * (jumpStepC ((j >>> b) % 2) (acc, cur)).2 := by
  have hm : (acc + W128 * cur) % W128 = acc := by
    rw [W128_eq, Nat.add_mul_mod_self_left, Nat.mod_eq_of_lt h]
  have hd : (acc + W128 * cur) / W128 = cur := by
    rw [W128_eq, Nat.add_mul_div_left _ _ (Nat.two_pow_pos 128), Nat.div_eq_of_lt h,
      Nat.zero_add]
  show ((acc + W128 * cur) % W128 ^^^ (acc + W128 * cur) / W128 * (j >>> b % 2))
      + W128 * nextN ((acc + W128 * cur) / W128) = _
  rw [hm, hd]
  rfl

theorem jumpWordN_eq (j n acc cur : Nat) (h1 : acc < 2 ^ 128) (h2 : cur < 2 ^ 128) :
    jumpWordN j (acc + W128 * cur) n
      = (jumpWordC j n (acc, cur)).1 + W128 * (jumpWordC j n (acc, cur)).2 := by
  induction n with
  | zero => rfl
  | succ n ih =>
    rw [jumpWordN_succ, ih, jumpStepN_eq _ _ _ _ (jumpWordC_lt j n (acc, cur) h1 h2).1,
      jumpWordC_succ]

theorem jumpStepC_xor (bit : Nat) (p q : Nat × Nat) (hb : bit = 0 ∨ bit = 1)
    (hp : p.2 < 2 ^ 128) (hq : q.2 < 2 ^ 128) :
    jumpStepC bit (p.1 ^^^ q.1, p.2 ^^^ q.2)
      = ((jumpStepC bit p).1 ^^^ (jumpStepC bit q).1,
          (jumpStepC bit p).2 ^^^ (jumpStepC bit q).2) := by
  simp only [jumpStepC, nextN_xor _ _ hp hq, Prod.mk.injEq, and_true]
  rcases hb with h | h <;> rw [h]
  · simp
  · simp only [Nat.mul_one]
    exact xor_xor_xor_comm _ _ _ _

theorem jumpWordC_xor (j n : Nat) (p q : Nat × Nat)
    (hp1 : p.1 < 2 ^ 128) (hp2 : p.2 < 2 ^ 128) (hq1 : q.1 < 2 ^ 128) (hq2 : q.2 < 2 ^ 128) :
    jumpWordC j n (p.1 ^^^ q.1, p.2 ^^^ q.2)
      = ((jumpWordC j n p).1 ^^^ (jumpWordC j n q).1,
          (jumpWordC j n p).2 ^^^ (jumpWordC j n q).2) := by
  induction n with
  | zero => rfl
  | succ n ih =>
    rw [jumpWordC_succ, ih, jumpWordC_succ, jumpWordC_succ]
    exact jumpStepC_xor _ _ _ (Nat.mod_two_eq_zero_or_one _)
      (jumpWordC_lt j n p hp1 hp2).2 (jumpWordC_lt j n q hq1 hq2).2

theorem jumpWordC_zero (j n : Nat) : jumpWordC j n (0, 0) = (0, 0) := by
  induction n with
  | zero => rfl
  | succ n ih =>
    rw [jumpWordC_succ, ih]
    simp [jumpStepC, nextN_zero]

/-- The long jump on packed states, through the loop on pairs. -/
theorem longJumpN_eq (s : Nat) (hs : s < 2 ^ 128) :
    longJumpN s
      = (jumpWordC 0xDDDF9B1090AA7AC1 64 (jumpWordC 0xD2A98B26625EEE7B 64 (0, s))).1 := by
  have h0 : (0 : Nat) < 2 ^ 128 := Nat.two_pow_pos 128
  have hb := jumpWordC_lt 0xD2A98B26625EEE7B 64 (0, s) h0 hs
  have hc := jumpWordC_lt 0xDDDF9B1090AA7AC1 64 _ hb.1 hb.2
  have e1 : Nat.mul W128 s = 0 + W128 * s := (Nat.zero_add _).symm
  show (jumpWordN 0xDDDF9B1090AA7AC1 (jumpWordN 0xD2A98B26625EEE7B (Nat.mul W128 s) 64) 64)
      % W128 = _
  rw [e1, jumpWordN_eq _ _ _ _ h0 hs, jumpWordN_eq _ _ _ _ hb.1 hb.2, W128_eq,
    Nat.add_mul_mod_self_left, Nat.mod_eq_of_lt hc.1]

theorem longJumpN_lt (s : Nat) (hs : s < 2 ^ 128) : longJumpN s < 2 ^ 128 := by
  have h0 : (0 : Nat) < 2 ^ 128 := Nat.two_pow_pos 128
  rw [longJumpN_eq s hs]
  exact (jumpWordC_lt _ 64 _ (jumpWordC_lt _ 64 (0, s) h0 hs).1
    (jumpWordC_lt _ 64 (0, s) h0 hs).2).1

theorem longJumpN_xor (a b : Nat) (ha : a < 2 ^ 128) (hb : b < 2 ^ 128) :
    longJumpN (a ^^^ b) = longJumpN a ^^^ longJumpN b := by
  have h0 : (0 : Nat) < 2 ^ 128 := Nat.two_pow_pos 128
  have e : ((0 : Nat), a ^^^ b) = (((0 : Nat), a).1 ^^^ ((0 : Nat), b).1, (0, a).2 ^^^ (0, b).2) := by
    simp
  have la := jumpWordC_lt 0xD2A98B26625EEE7B 64 (0, a) h0 ha
  have lb := jumpWordC_lt 0xD2A98B26625EEE7B 64 (0, b) h0 hb
  rw [longJumpN_eq _ (Nat.xor_lt_two_pow ha hb), longJumpN_eq a ha, longJumpN_eq b hb, e,
    jumpWordC_xor _ _ _ _ h0 ha h0 hb, jumpWordC_xor _ _ _ _ la.1 la.2 lb.1 lb.2]

theorem longJumpN_zero : longJumpN 0 = 0 := by
  rw [longJumpN_eq 0 (Nat.two_pow_pos 128), jumpWordC_zero, jumpWordC_zero]

/-! ### The loop of the source and the loop on packed states -/

theorem bit_test (j b : Nat) : j &&& (1 <<< b) ≠ 0 ↔ (j >>> b) % 2 = 1 := by
  rw [Nat.one_shiftLeft, Nat.and_two_pow, bit_eq_toNat]
  cases j.testBit b <;> simp

theorem Random128.jumpWord_succ (j b : Nat) (p : Random128 × Random128) :
    Random128.jumpWord j (b + 1) p
      = ((if j &&& (1 <<< b) ≠ 0 then
            ⟨(Random128.jumpWord j b p).1.State0 ^^^ (Random128.jumpWord j b p).2.State0,
              (Random128.jumpWord j b p).1.State1 ^^^ (Random128.jumpWord j b p).2.State1⟩
          else (Random128.jumpWord j b p).1),
          (Random128.jumpWord j b p).2.next.2) := rfl

theorem Random128.xor_valid (r q : Random128) (hr : r.valid) (hq : q.valid) :
    (Random128.mk (r.State0 ^^^ q.State0) (r.State1 ^^^ q.State1)).valid :=
  ⟨Nat.xor_lt_two_pow hr.1 hq.1, Nat.xor_lt_two_pow hr.2 hq.2⟩

/-- The loop of the source and the loop on packed states run in step. -/
theorem Random128.jumpWord_pack (j n : Nat) (p : Random128 × Random128)
    (h1 : p.1.valid) (h2 : p.2.valid) :
    (Random128.jumpWord j n p).1.valid ∧ (Random128.jumpWord j n p).2.valid ∧
      jumpWordC j n (p.1.pack, p.2.pack)
        = ((Random128.jumpWord j n p).1.pack, (Random128.jumpWord j n p).2.pack) := by
  induction n with
  | zero => exact ⟨h1, h2, rfl⟩
  | succ n ih =>
    obtain ⟨v1, v2, e⟩ := ih
    rw [jumpWordC_succ, e, Random128.jumpWord_succ]
    by_cases hb : j &&& (1 <<< n) ≠ 0
    · have hb1 := (bit_test j n).mp hb
      rw [if_pos hb, hb1]
      refine ⟨Random128.xor_valid _ _ v1 v2, Random128.next_valid _ v2, ?_⟩
      simp only [jumpStepC, Nat.mul_one, Random128.pack_xor _ _ v1 v2, nextN_pack _ v2]
    · have hb0 : (j >>> n) % 2 = 0 := by
        rcases Nat.mod_two_eq_zero_or_one (j >>> n) with h | h
        · exact h
        · exact absurd ((bit_test j n).mpr h) hb
      rw [if_neg hb, hb0]
      refine ⟨v1, Random128.next_valid _ v2, ?_⟩
      simp only [jumpStepC, Nat.mul_zero, Nat.xor_zero, nextN_pack _ v2]

theorem Random128.LongJump_eq (r : Random128) :
    r.LongJump
      = (Random128.jumpWord 0xDDDF9B1090AA7AC1 64
          (Random128.jumpWord 0xD2A98B26625EEE7B 64 (⟨0, 0⟩, r))).1 := by
  unfold Random128.LongJump Random128.Jump
  simp only [List.foldl]

theorem Random128.LongJump_pack (r : Random128) (h : r.valid) :
    r.LongJump.valid ∧ r.LongJump.pack = longJumpN r.pack := by
  rw [Random128.LongJump_eq]
  have z : (Random128.mk 0 0).valid := ⟨Nat.two_pow_pos 64, Nat.two_pow_pos 64⟩
  obtain ⟨a1, a2, ea⟩ := Random128.jumpWord_pack 0xD2A98B26625EEE7B 64 (⟨0, 0⟩, r) z h
  obtain ⟨b1, b2, eb⟩ := Random128.jumpWord_pack 0xDDDF9B1090AA7AC1 64 _ a1 a2
  have ea0 : jumpWordC 0xD2A98B26625EEE7B 64 (0, r.pack)
      = ((Random128.jumpWord 0xD2A98B26625EEE7B 64 (⟨0, 0⟩, r)).1.pack,
          (Random128.jumpWord 0xD2A98B26625EEE7B 64 (⟨0, 0⟩, r)).2.pack) := ea
  refine ⟨b1, ?_⟩
  rw [longJumpN_eq _ (Random128.pack_lt r h), ea0, eb]

theorem Random128.pack_injective (r q : Random128) (hr : r.valid) (hq : q.valid)
    (h : r.pack = q.pack) : r = q := by
  rw [← Random128.unpack_pack r hr, ← Random128.unpack_pack q hq, h]

end JumpWordTheorems

/-! ### Powers of the stored state transition -/

section PowerTheorems

theorem iterate_congr_on (g h : Nat → Nat) (B : Nat) (e : ∀ s, s < B → g s = h s)
    (hc : ∀ s, s < B → h s < B) (n : Nat) :
    ∀ s, s < B → g^[n] s = h^[n] s ∧ h^[n] s < B := by
  induction n with
  | zero => intro s hs; exact ⟨rfl, hs⟩
  | succ n ih =>
    intro s hs
    rw [Function.iterate_succ_apply', Function.iterate_succ_apply', (ih s hs).1,
      e _ (ih s hs).2]
    exact ⟨rfl, hc _ (ih s hs).2⟩

theorem applyM_tableT (s : Nat) (hs : s < 2 ^ 128) : applyM tableT s 128 = nextN s := by
  have h := applyM_mkM_of_linear nextN nextN_xor nextN_zero nextN_lt 128 (le_refl _) s
  rw [Nat.mod_eq_of_lt hs] at h
  exact h

theorem applyM_tableJ (s : Nat) (hs : s < 2 ^ 128) : applyM tableJ s 128 = longJumpN s := by
  have h := applyM_mkM_of_linear longJumpN longJumpN_xor longJumpN_zero longJumpN_lt 128
    (le_refl _) s
  rw [Nat.mod_eq_of_lt hs] at h
  exact h

/-- The square of a stored map applies the map twice. -/
theorem applyM_sqM (M s : Nat) (hs : s < 2 ^ 128) :
    applyM (sqM M) s 128 = applyM M (applyM M s 128) 128 := by
  have hcols : sqM M = mkM (fun i => (fun s => applyM M (applyM M s 128) 128) (2 ^ i)) 128 := by
    unfold sqM
    apply mkM_congr
    intro i hi
    show applyM M (col M i) 128 = applyM M (applyM M (2 ^ i) 128) 128
    rw [applyM_two_pow M i 128 hi]
  have h := applyM_mkM_of_linear (fun s => applyM M (applyM M s 128) 128)
    (fun a b _ _ => by
      show applyM M (applyM M (a ^^^ b) 128) 128 = _
      rw [applyM_xor, applyM_xor])
    (by show applyM M (applyM M 0 128) 128 = 0; rw [applyM_zero, applyM_zero])
    (fun a _ => applyM_lt _ _ _) 128 (le_refl _) s
  rw [Nat.mod_eq_of_lt hs, ← hcols] at h
  exact h

theorem rec_succ_apply (f : Nat → Nat) (k M : Nat) :
    (Nat.rec (fun M => M) (fun _ ih M => ih (f M)) (k + 1) : Nat → Nat) M
      = (Nat.rec (fun M => M) (fun _ ih M => ih (f M)) k : Nat → Nat) (f M) := rfl

theorem powM_succ (k M : Nat) : powM (k + 1) M = powM k (sqM M) :=
  rec_succ_apply sqM k M

/-- After `k` squarings the stored map applies the map `2 ^ k` times. -/
theorem applyM_powM (k : Nat) :
    ∀ M s, s < 2 ^ 128 → applyM (powM k M) s 128 = (fun s => applyM M s 128)^[2 ^ k] s := by
  induction k with
  | zero => intro M s _; rfl
  | succ k ih =>
    intro M s hs
    rw [powM_succ, ih (sqM M) s hs, pow_succ, Nat.mul_comm, Function.iterate_mul]
    have h := iterate_congr_on (fun s => applyM (sqM M) s 128)
      ((fun s => applyM M s 128)^[2]) (2 ^ 128)
      (fun s hs => applyM_sqM M s hs)
      (fun s _ => by
        show applyM M (applyM M s 128) 128 < 2 ^ 128
        exact applyM_lt _ _ _) (2 ^ k) s hs
    exact h.1

/-- The stored long jump is the state transition squared 96 times. -/
theorem powM_tableT : powM 96 tableT = tableJ := by decide!

theorem longJumpN_eq_iterate (s : Nat) (hs : s < 2 ^ 128) :
    longJumpN s = nextN^[2 ^ 96] s := by
  rw [← applyM_tableJ s hs, ← powM_tableT, applyM_powM 96 tableT s hs]
  exact (iterate_congr_on (fun s => applyM tableT s 128) nextN (2 ^ 128)
    (fun s hs => applyM_tableT s hs) nextN_lt (2 ^ 96) s hs).1

theorem Random128.iterate_pack (n : Nat) (r : Random128) (h : r.valid) :
    ((fun r : Random128 => r.next.2)^[n] r).valid ∧
      nextN^[n] r.pack = ((fun r : Random128 => r.next.2)^[n] r).pack := by
  induction n with
  | zero => exact ⟨h, rfl⟩
  | succ n ih =>
    rw [Function.iterate_succ_apply', Function.iterate_succ_apply', ih.2, nextN_pack _ ih.1]
    exact ⟨Random128.next_valid _ ih.1, rfl⟩

end PowerTheorems

section XoroshiroClaims

/-- C9: for every 128-bit generator state (both words in the range of
`uint64`), the state that `Random128::LongJump` produces is the state
reached by calling the generator (`operator()`) `2 ^ 96` times. -/
theorem LongJump_eq_iterate_next (r : Random128) (h0 : r.State0 < 2 ^ 64)
    (h1 : r.State1 < 2 ^ 64) :
    r.LongJump = (fun s : Random128 => s.next.2)^[2 ^ 96] r := by
  have h : r.valid := ⟨h0, h1⟩
  have hL := Random128.LongJump_pack r h
  have hI := Random128.iterate_pack (2 ^ 96) r h
  apply Random128.pack_injective _ _ hL.1 hI.1
  rw [hL.2, longJumpN_eq_iterate _ (Random128.pack_lt r h), hI.2]

theorem LongJump_eq_iterate_next_witness :
    (1 : Nat) < 2 ^ 64 ∧ (2 : Nat) < 2 ^ 64 ∧
      (Random128.mk 1 2).LongJump = (fun s : Random128 => s.next.2)^[2 ^ 96] ⟨1, 2⟩ :=
  ⟨by norm_num, by norm_num, LongJump_eq_iterate_next ⟨1, 2⟩ (by norm_num) (by norm_num)⟩

end XoroshiroClaims

section ColorRoundTrip

variable {K : Type} [LinearOrderedField K] [FloorRing K]

/-- One channel through `Store` and `Load`: for `v` in `[0, 1]` the stored
byte is the floor of `v * 255`, and dividing by 255 gives `v` back within
`1 / 255`. -/
theorem RGBSystem.channel_roundtrip (v : K) (h0 : 0 ≤ v) (h1 : v ≤ 1) :
    |((RGBSystem.uint8 (min (max (v * 255) 0) 255) : Nat) : K) / 255 - v| ≤ 1 / 255 := by
  have ht0 : (0 : K) ≤ v * 255 := by positivity
  have ht1 : v * 255 ≤ 255 := by nlinarith
  rw [max_eq_left ht0, min_eq_left ht1]
  have hf0 : 0 ≤ ⌊v * 255⌋ := Int.floor_nonneg.mpr ht0
  have hf1 : ⌊v * 255⌋ ≤ 255 := by
    have : ((⌊v * 255⌋ : ℤ) : K) ≤ ((255 : ℤ) : K) := by
      push_cast
      exact le_trans (Int.floor_le _) ht1
    exact_mod_cast this
  have hu : ((RGBSystem.uint8 (v * 255) : Nat) : K) = ((⌊v * 255⌋ : ℤ) : K) := by
    have e : (RGBSystem.uint8 (v * 255) : ℤ) = ⌊v * 255⌋ := by
      unfold RGBSystem.uint8 truncate
      rw [if_pos ht0]
      omega
    rw [← e]
    simp
  rw [hu]
  have hlt := abs_truncate_sub_lt (v * 255)
  have htr : truncate (v * 255) = ⌊v * 255⌋ := by unfold truncate; rw [if_pos ht0]
  rw [htr] at hlt
  have e : ((⌊v * 255⌋ : ℤ) : K) / 255 - v = (((⌊v * 255⌋ : ℤ) : K) - v * 255) / 255 := by
    field_simp
    ring
  rw [e, abs_div, abs_of_pos (by norm_num : (0 : K) < 255)]
  exact div_le_div_of_nonneg_right hlt.le (by norm_num)

/-- C11: for every colour whose red, green and blue components lie in
`[0, 1]`, `Load (Store c)` differs from `c` by at most `1 / 255` in each of
the red, green and blue components. -/
theorem Load_Store_within (c : RColor K)
    (hx : 0 ≤ c.x ∧ c.x ≤ 1) (hy : 0 ≤ c.y ∧ c.y ≤ 1) (hz : 0 ≤ c.z ∧ c.z ≤ 1) :
    |(RGBSystem.Load (RGBSystem.Store c) : RColor K).x - c.x| ≤ 1 / 255 ∧
    |(RGBSystem.Load (RGBSystem.Store c) : RColor K).y - c.y| ≤ 1 / 255 ∧
    |(RGBSystem.Load (RGBSystem.Store c) : RColor K).z - c.z| ≤ 1 / 255 :=
  ⟨RGBSystem.channel_roundtrip c.x hx.1 hx.2, RGBSystem.channel_roundtrip c.y hy.1 hy.2,
    RGBSystem.channel_roundtrip c.z hz.1 hz.2⟩

theorem Load_Store_within_witness :
    ((0 : ℚ) ≤ 1 / 3 ∧ (1 / 3 : ℚ) ≤ 1) ∧ ((0 : ℚ) ≤ 1 ∧ (1 : ℚ) ≤ 1) ∧
    ((0 : ℚ) ≤ 0 ∧ (0 : ℚ) ≤ 1) ∧
    |(RGBSystem.Load (RGBSystem.Store (RColor.mk (1 / 3 : ℚ) 1 0 7)) : RColor ℚ).x - 1 / 3|
      ≤ 1 / 255 ∧
    |(RGBSystem.Load (RGBSystem.Store (RColor.mk (1 / 3 : ℚ) 1 0 7)) : RColor ℚ).y - 1|
      ≤ 1 / 255 ∧
    |(RGBSystem.Load (RGBSystem.Store (RColor.mk (1 / 3 : ℚ) 1 0 7)) : RColor ℚ).z - 0|
      ≤ 1 / 255 :=
  ⟨by norm_num, by norm_num, by norm_num,
    Load_Store_within (RColor.mk (1 / 3 : ℚ) 1 0 7) (by norm_num) (by norm_num) (by norm_num)⟩

end ColorRoundTrip

/-! ### The bounce loop -/

section BounceTheorems

variable {K : Type} [LinearOrderedField K] [FloorRing K] {M : Type}

theorem incr32_of_mem (n : ℤ) (h0 : -2147483648 ≤ n) (h1 : n + 1 ≤ 2147483647) :
    incr32 n = n + 1 := by
  unfold incr32
  omega

omit [FloorRing K] in
theorem Shape.HitExterior_Hits (sqrt : K → K) (sh : Shape K M) (st : TraceState K M) :
    (sh.HitExterior sqrt st)._Hits = st._Hits := by
  cases sh with
  | sphere S =>
    simp only [Shape.HitExterior, Sphere.HitExterior]
    split_ifs <;> rfl
  | plane P =>
    simp only [Shape.HitExterior, Plane.HitExterior]
    split_ifs <;> rfl
  | lens L =>
    simp only [Shape.HitExterior, Lens.HitExterior]
    split_ifs <;> rfl

omit [FloorRing K] in
theorem foldl_HitExterior_Hits (sqrt : K → K) (Scene : List (Shape K M)) (st : TraceState K M) :
    (Scene.foldl (fun st sh => sh.HitExterior sqrt st) st)._Hits = st._Hits := by
  induction Scene generalizing st with
  | nil => rfl
  | cons sh rest ih => rw [List.foldl_cons, ih, Shape.HitExterior_Hits]

/-- A call of `Trace` leaves the hit counter alone when the materials do. -/
theorem Trace_Hits (sqrt : K → K) (Lay : Layout HitRecord)
    (Interface : M → (TraceState K M → TraceState K M) → TraceState K M → Bool × TraceState K M)
    (hI : ∀ m n st, (∀ x, (n x)._Hits = x._Hits) → (Interface m n st).2._Hits = st._Hits)
    (Scene : List (Shape K M)) (State : TraceState K M) (s : DataStream) :
    (Trace sqrt Lay Interface Scene State s).2.1._Hits = State._Hits := by
  have hf := foldl_HitExterior_Hits sqrt Scene State.Reset
  have hr : State.Reset._Hits = State._Hits := rfl
  unfold Trace
  cases hfun : (Scene.foldl (fun st sh => sh.HitExterior sqrt st) State.Reset)._HitFunc with
  | none => simp only [hfun]; rw [hf, hr]
  | some f =>
    simp only [hfun]
    cases f with
    | sphere S =>
      simp only [HitFunc.call]
      rw [hI S.Material S.HitNormal _ (fun x => rfl)]
      exact hf.trans hr
    | plane P =>
      simp only [HitFunc.call]
      rw [hI P.Material P.HitNormal _ (fun x => rfl)]
      exact hf.trans hr
    | lens L pos =>
      simp only [HitFunc.call, Lens.capture]
      exact hf.trans hr

theorem Render.bounces_succ (sqrt : K → K) (Lay : Layout HitRecord)
    (Interface : M → (TraceState K M → TraceState K M) → TraceState K M → Bool × TraceState K M)
    (Scene : List (Shape K M)) (n : Nat) (State : TraceState K M) (s : DataStream) :
    Render.bounces sqrt Lay Interface Scene (n + 1) State s
      = if (Trace sqrt Lay Interface Scene State s).1 then
          (true ::
              (Render.bounces sqrt Lay Interface Scene n
                { (Trace sqrt Lay Interface Scene State s).2.1 with
                  _Hits := incr32 (Trace sqrt Lay Interface Scene State s).2.1._Hits }
                (Trace sqrt Lay Interface Scene State s).2.2).1,
            (Render.bounces sqrt Lay Interface Scene n
                { (Trace sqrt Lay Interface Scene State s).2.1 with
                  _Hits := incr32 (Trace sqrt Lay Interface Scene State s).2.1._Hits }
                (Trace sqrt Lay Interface Scene State s).2.2).2)
        else
          ([false], (Trace sqrt Lay Interface Scene State s).2.1,
            (Trace sqrt Lay Interface Scene State s).2.2) := rfl

/-- C12: for an emitted photon and a bounce cap `Bounces`, the bounce loop
of `Render` calls `Trace` at most `Bounces` times; a call that returns
false is the last call, and the loop ends before the cap only on such a
call; the counter `_Hits` grows by exactly the number of calls that
returned true, which is at most `Bounces`.  The materials leave `_Hits`
alone, and the counter stays in the range of `int`. -/
theorem bounce_loop_bounded (sqrt : K → K) (Lay : Layout HitRecord)
    (Interface : M → (TraceState K M → TraceState K M) → TraceState K M → Bool × TraceState K M)
    (hI : ∀ m n st, (∀ x, (n x)._Hits = x._Hits) → (Interface m n st).2._Hits = st._Hits)
    (Scene : List (Shape K M)) (Bounces : Nat) (State : TraceState K M) (s : DataStream)
    (hlo : -2147483648 ≤ State._Hits) (hhi : State._Hits + Bounces ≤ 2147483647) :
    (Render.bounces sqrt Lay Interface Scene Bounces State s).1.length ≤ Bounces ∧
    (∀ i, (Render.bounces sqrt Lay Interface Scene Bounces State s).1[i]? = some false →
      i + 1 = (Render.bounces sqrt Lay Interface Scene Bounces State s).1.length) ∧
    ((Render.bounces sqrt Lay Interface Scene Bounces State s).1.length < Bounces →
      (Render.bounces sqrt Lay Interface Scene Bounces State s).1.getLast? = some false) ∧
    (Render.bounces sqrt Lay Interface Scene Bounces State s).2.1._Hits
      = State._Hits + (Render.bounces sqrt Lay Interface Scene Bounces State s).1.count true ∧
    (Render.bounces sqrt Lay Interface Scene Bounces State s).1.count true ≤ Bounces := by
  induction Bounces generalizing State s with
  | zero =>
    refine ⟨le_refl _, ?_, ?_, ?_, le_refl _⟩
    · intro i h; simp [Render.bounces] at h
    · intro h; simp [Render.bounces] at h
    · simp [Render.bounces]
  | succ n ih =>
    have hT := Trace_Hits sqrt Lay Interface hI Scene State s
    rw [Render.bounces_succ]
    by_cases hc : (Trace sqrt Lay Interface Scene State s).1 = true
    · rw [if_pos hc]
      have hinc : incr32 (Trace sqrt Lay Interface Scene State s).2.1._Hits
          = State._Hits + 1 := by
        rw [hT]
        exact incr32_of_mem _ hlo (by push_cast at hhi; omega)
      obtain ⟨h1, h2, h3, h4, h5⟩ := ih
        { (Trace sqrt Lay Interface Scene State s).2.1 with
          _Hits := incr32 (Trace sqrt Lay Interface Scene State s).2.1._Hits }
        (Trace sqrt Lay Interface Scene State s).2.2
        (by show -2147483648 ≤ incr32 _; rw [hinc]; omega)
        (by show incr32 _ + (n : ℤ) ≤ 2147483647; rw [hinc]; push_cast at hhi; omega)
      dsimp only at h1 h2 h3 h4 h5 ⊢
      refine ⟨?_, ?_, ?_, ?_, ?_⟩
      · simp only [List.length_cons]; omega
      · intro i hi
        cases i with
        | zero => simp at hi
        | succ i =>
          simp only [List.getElem?_cons_succ] at hi
          simp only [List.length_cons]
          have := h2 i hi
          omega
      · intro hl
        simp only [List.length_cons] at hl
        have hl2 := h3 (by omega)
        generalize (Render.bounces sqrt Lay Interface Scene n _ _).1 = l at hl2 ⊢
        cases l with
        | nil => simp at hl2
        | cons a l => simpa [List.getLast?_cons_cons] using hl2
      · show (Render.bounces sqrt Lay Interface Scene n _ _).2.1._Hits = _
        rw [h4, hinc, List.count_cons_self]
        push_cast
        ring
      · rw [List.count_cons_self]; omega
    · rw [if_neg hc]
      refine ⟨by simp, ?_, ?_, ?_, by simp⟩
      · intro i hi
        cases i with
        | zero => rfl
        | succ i => simp at hi
      · intro _; rfl
      · show (Trace sqrt Lay Interface Scene State s).2.1._Hits = _
        rw [hT]; simp

end BounceTheorems

section BounceWitness

/-- A ray from the origin along `-Z` under the plane `z = -1` with a
material that always continues: the first call of `Trace` hits the plane,
the second finds nothing, and the loop ends after two of the three turns
with one hit counted. -/
theorem Render.bounces_sample :
    (Render.bounces id HitRecord.layout (fun _ n st => (true, n st))
      [Shape.plane (samplePlane (-1))] 3
      (sampleState ⟨0, 0, 0, 0⟩ ⟨0, 0, -1, 0⟩ ⟨1, 1, 1, 1⟩ 4) (DataStream.New []).2).1
        = [true, false] ∧
    (Render.bounces id HitRecord.layout (fun _ n st => (true, n st))
      [Shape.plane (samplePlane (-1))] 3
      (sampleState ⟨0, 0, 0, 0⟩ ⟨0, 0, -1, 0⟩ ⟨1, 1, 1, 1⟩ 4) (DataStream.New []).2).2.1._Hits
        = 1 := by
  decide!

theorem bounce_loop_bounded_witness :
    (-2147483648 : ℤ) ≤ (sampleState ⟨0, 0, 0, 0⟩ ⟨0, 0, -1, 0⟩ ⟨1, 1, 1, 1⟩ 4)._Hits ∧
    (sampleState ⟨0, 0, 0, 0⟩ ⟨0, 0, -1, 0⟩ ⟨1, 1, 1, 1⟩ 4)._Hits + ((3 : Nat) : ℤ)
      ≤ 2147483647 ∧
    (Render.bounces id HitRecord.layout (fun _ n st => (true, n st))
      [Shape.plane (samplePlane (-1))] 3
      (sampleState ⟨0, 0, 0, 0⟩ ⟨0, 0, -1, 0⟩ ⟨1, 1, 1, 1⟩ 4)
      (DataStream.New []).2).1.length ≤ 3 ∧
    (Render.bounces id HitRecord.layout (fun _ n st => (true, n st))
      [Shape.plane (samplePlane (-1))] 3
      (sampleState ⟨0, 0, 0, 0⟩ ⟨0, 0, -1, 0⟩ ⟨1, 1, 1, 1⟩ 4) (DataStream.New []).2).2.1._Hits
      = (sampleState ⟨0, 0, 0, 0⟩ ⟨0, 0, -1, 0⟩ ⟨1, 1, 1, 1⟩ 4)._Hits
        + (Render.bounces id HitRecord.layout (fun _ n st => (true, n st))
            [Shape.plane (samplePlane (-1))] 3
            (sampleState ⟨0, 0, 0, 0⟩ ⟨0, 0, -1, 0⟩ ⟨1, 1, 1, 1⟩ 4)
            (DataStream.New []).2).1.count true := by
  have h := bounce_loop_bounded id HitRecord.layout
    (fun (_ : Unit) n (st : TraceState ℚ Unit) => (true, n st)) (fun _ n st hn => hn st)
    [Shape.plane (samplePlane (-1))] 3
    (sampleState ⟨0, 0, 0, 0⟩ ⟨0, 0, -1, 0⟩ ⟨1, 1, 1, 1⟩ 4) (DataStream.New []).2
    (by simp [sampleState]) (by simp [sampleState])
  exact ⟨by simp [sampleState], by simp [sampleState], h.1, h.2.2.2.1⟩

end BounceWitness

/-! ### `DataStream::Step` -/

section StepTheorems

/-- C13 (what the code does instead): with the cursor at the header of a
well-formed block, `Step` returns false and leaves the cursor 8 bytes past
the header of the next block, not at it: the header read has moved the
cursor over the 8 bytes of the `BlockHeader`, and the relative seek adds
`Size`, which counts those 8 bytes again. -/
theorem Step_lands_past_next_header (pre tl : List Nat) (b : Block) (hb : b.wf)
    (dev : List Bool) :
    (DataStream.mk (pre ++ (b.bytes ++ tl)) pre.length false false false dev).Step
      = (false, DataStream.mk (pre ++ (b.bytes ++ tl))
          (pre.length + b.bytes.length + sizeofBlockHeader) false false false dev) := by
  simp only [DataStream.Step, DataStream.ReadHeader_block pre tl b hb dev, Bool.false_eq_true,
    if_false, DataStream.seekg_cur, DataStream.fail, Bool.or_self, Block.length_block_bytes,
    sizeofBlockHeader, Prod.mk.injEq, DataStream.mk.injEq, true_and, and_true]
  omega

/-- The sample file is 264 bytes long and its second `Hits` block starts at
offset 48. -/
theorem sampleFilmFile_layout :
    sampleFilmFile.length = 264 ∧
    (BlockHeader.ofBytes (sampleFilmFile.drop 48)) = ⟨BlockMagic, TAG_Hits, 24⟩ := by
  decide!

/-- In the file laid out `File, Config, Hits x10`, the first `Step` from the
first `Hits` block (offset 24) returns false with the cursor at offset 56,
8 bytes into the second `Hits` block (offset 48); the second `Step` then
reads the record count and the start of a record as a header and returns
true. -/
theorem Step_lands_past_next_header_witness :
    (DataStream.mk sampleFilmFile 24 false false false []).Step
      = (false, DataStream.mk sampleFilmFile 56 false false false []) ∧
    (DataStream.mk sampleFilmFile 56 false false false []).Step.1 = true := by
  have h := Step_lands_past_next_header
    (FileHeader.bytes ++ (Block.mk TAG_Config [0, 0, 0, 64]).bytes)
    (encodeBlocks (List.replicate 9
      ⟨TAG_Hits, [1, 0, 0, 0] ++ [0, 0, 0, 0, 0, 0, 0, 0, 255, 255, 255, 0]⟩))
    ⟨TAG_Hits, [1, 0, 0, 0] ++ [0, 0, 0, 0, 0, 0, 0, 0, 255, 255, 255, 0]⟩ (by decide) []
  have e : FileHeader.bytes ++ (Block.mk TAG_Config [0, 0, 0, 64]).bytes
      ++ ((Block.mk TAG_Hits
            ([1, 0, 0, 0] ++ [0, 0, 0, 0, 0, 0, 0, 0, 255, 255, 255, 0])).bytes
          ++ encodeBlocks (List.replicate 9
            ⟨TAG_Hits, [1, 0, 0, 0] ++ [0, 0, 0, 0, 0, 0, 0, 0, 255, 255, 255, 0]⟩))
      = sampleFilmFile := by decide!
  have hp : (FileHeader.bytes ++ (Block.mk TAG_Config [0, 0, 0, 64]).bytes).length = 24 := by
    decide!
  have hq : (Block.mk TAG_Hits
      ([1, 0, 0, 0] ++ [0, 0, 0, 0, 0, 0, 0, 0, 255, 255, 255, 0])).bytes.length = 24 := by
    decide!
  rw [e, hp, hq] at h
  exact ⟨h, by decide!⟩

end StepTheorems

/-! ### `DataStream::Seek` on failure -/

section SeekFailureTheorems

/-- `Seek` walks over blocks with other tags, whatever follows them. -/
theorem DataStream.Seek_skip_blocks (tag : Nat) (skip : List Block) :
    ∀ (pre tl : List Nat) (dev : List Bool) (fuel : Nat),
      (∀ c ∈ skip, c.wf ∧ c.Ident ≠ tag) →
      (DataStream.mk (pre ++ (encodeBlocks skip ++ tl)) pre.length false false false dev).Seek
          (skip.length + fuel) tag
        = (DataStream.mk (pre ++ (encodeBlocks skip ++ tl))
            (pre.length + (encodeBlocks skip).length) false false false dev).Seek fuel tag := by
  induction skip with
  | nil => intro pre tl dev fuel _; simp [encodeBlocks]
  | cons c skip ih =>
    intro pre tl dev fuel hskip
    have hc := hskip c (List.mem_cons_self _ _)
    have hrest : ∀ d ∈ skip, d.wf ∧ d.Ident ≠ tag :=
      fun d hd => hskip d (List.mem_cons_of_mem _ hd)
    have h1 := DataStream.Seek_skip (skip.length + fuel) tag pre (encodeBlocks skip ++ tl) c
      hc.1 hc.2 dev
    have h2 := ih (pre ++ c.bytes) tl dev fuel hrest
    have e : (c :: skip).length + fuel = skip.length + fuel + 1 := by
      simp only [List.length_cons]; omega
    simp only [encodeBlocks_cons, List.append_assoc, List.length_append] at h1 h2 ⊢
    rw [e, h1, h2]
    simp [Nat.add_assoc]

/-- Fewer than 8 bytes are left: the header read takes them, sets `failbit`
and `eofbit`, and `Seek` returns true there. -/
theorem DataStream.Seek_short (fuel tag : Nat) (pre junk : List Nat) (dev : List Bool)
    (h : junk.length < 8) :
    (DataStream.mk (pre ++ junk) pre.length false false false dev).Seek (fuel + 1) tag
      = some (true, DataStream.mk (pre ++ junk) (pre.length + junk.length)
          true true false dev) := by
  rw [DataStream.Seek, DataStream.tellg_good]
  have hn : ¬ 8 ≤ junk.length := by omega
  simp [DataStream.ReadHeader, DataStream.Read, DataStream.read, DataStream.good,
    DataStream.fail, sizeofBlockHeader, hn]

/-- The 8 bytes at the cursor do not start with the block magic: the header
read takes them, and `Seek` returns true with the cursor behind them. -/
theorem DataStream.Seek_bad_magic (fuel tag : Nat) (pre junk : List Nat) (dev : List Bool)
    (h : 8 ≤ junk.length) (hm : (BlockHeader.ofBytes junk).Magic ≠ BlockMagic) :
    (DataStream.mk (pre ++ junk) pre.length false false false dev).Seek (fuel + 1) tag
      = some (true, DataStream.mk (pre ++ junk) (pre.length + 8) false false false dev) := by
  rw [DataStream.Seek, DataStream.tellg_good]
  have hmag : (BlockHeader.ofBytes (List.take 8 junk)).Magic = (BlockHeader.ofBytes junk).Magic := by
    simp only [BlockHeader.ofBytes, List.take_take]
    rfl
  have hv : (BlockHeader.ofBytes (List.take 8 junk)).Validate = true := by
    simp only [BlockHeader.Validate, hmag, bne_iff_ne, ne_eq]
    exact hm
  simp [DataStream.ReadHeader, DataStream.Read, DataStream.read, DataStream.good,
    DataStream.fail, sizeofBlockHeader, h, hv]

/-- C14 (what the code does instead): when `Seek(tag)` has walked over
well-formed blocks with other tags and then fails on a header read, because
fewer than 8 bytes are left (the end of the file included) or because the 8
bytes do not carry the block magic, it returns true and the cursor is not
restored: it stands behind the bytes the failing read consumed,
`min 8 junk.length` bytes past the position before that read, and after a
short read `failbit` and `eofbit` are set.  The branch of `Seek` for a
failed seek (`seekg(pos); clear();`, "this is the end") and the failed
header read of `SeekTail` do restore the cursor and clear the flags; the
failed header read of `Seek` is a bare `return true`. -/
theorem Seek_failure_leaves_cursor_after_read (tag : Nat) (skip : List Block)
    (pre junk : List Nat) (dev : List Bool) (fuel : Nat)
    (hskip : ∀ c ∈ skip, c.wf ∧ c.Ident ≠ tag) (hfuel : skip.length < fuel)
    (hjunk : junk.length < 8 ∨ (BlockHeader.ofBytes junk).Magic ≠ BlockMagic) :
    (DataStream.mk (pre ++ (encodeBlocks skip ++ junk)) pre.length false false false dev).Seek
        fuel tag
      = some (true, DataStream.mk (pre ++ (encodeBlocks skip ++ junk))
          (pre.length + (encodeBlocks skip).length + min 8 junk.length)
          (decide (junk.length < 8)) (decide (junk.length < 8)) false dev) := by
  obtain ⟨m, rfl⟩ : ∃ m, fuel = skip.length + (m + 1) := ⟨fuel - skip.length - 1, by omega⟩
  rw [DataStream.Seek_skip_blocks tag skip pre junk dev (m + 1) hskip]
  have e : pre ++ (encodeBlocks skip ++ junk) = (pre ++ encodeBlocks skip) ++ junk := by
    rw [List.append_assoc]
  have el : pre.length + (encodeBlocks skip).length = (pre ++ encodeBlocks skip).length := by
    rw [List.length_append]
  rw [e, el]
  by_cases hs : junk.length < 8
  · rw [DataStream.Seek_short m tag _ junk dev hs, Nat.min_eq_right (by omega)]
    simp [hs]
  · have hm : (BlockHeader.ofBytes junk).Magic ≠ BlockMagic := by
      rcases hjunk with h | h
      · exact absurd h hs
      · exact h
    rw [DataStream.Seek_bad_magic m tag _ junk dev (by omega) hm, Nat.min_eq_left (by omega)]
    simp [hs]

/-- Witness for C14: the file header and a `Config` block followed by 8
bytes without the block magic; `Seek(TAG_Hits)` from offset 12 fails with
the cursor at offset 32. -/
theorem Seek_failure_leaves_cursor_after_read_witness :
    (DataStream.mk (FileHeader.bytes ++ (encodeBlocks [⟨TAG_Config, [0, 0, 0, 64]⟩]
        ++ [0, 0, 2, 0, 12, 0, 0, 0])) 12 false false false []).Seek 5 TAG_Hits
      = some (true, DataStream.mk (FileHeader.bytes ++ (encodeBlocks [⟨TAG_Config, [0, 0, 0, 64]⟩]
        ++ [0, 0, 2, 0, 12, 0, 0, 0])) 32 false false false []) :=
  Seek_failure_leaves_cursor_after_read TAG_Hits [⟨TAG_Config, [0, 0, 0, 64]⟩] FileHeader.bytes
    [0, 0, 2, 0, 12, 0, 0, 0] [] 5 (by decide) (by decide) (Or.inr (by decide))

/-- The failing inputs of C14: a failing `Seek` that does not leave the
cursor at the position before the failing read.  In a file holding the file
header, a `Config` block (offsets 12 to 23, its header read validly) and 8
bytes without the block magic, `Seek(TAG_Hits)` from offset 12 returns true
with the cursor at offset 32: past the position before the failing read
(24) and past the start of the last block whose header was valid (12).
With 4 bytes in place of the 8 the stream is left at offset 28 with
`failbit` set, so that `tellg` reports no position. -/
theorem Seek_failure_does_not_restore_cursor :
    (DataStream.mk (FileHeader.bytes ++ (encodeBlocks [⟨TAG_Config, [0, 0, 0, 64]⟩]
        ++ [0, 0, 2, 0, 12, 0, 0, 0])) 12 false false false []).ReadHeader.1 = false ∧
    (DataStream.mk (FileHeader.bytes ++ (encodeBlocks [⟨TAG_Config, [0, 0, 0, 64]⟩]
        ++ [0, 0, 2, 0, 12, 0, 0, 0])) 12 false false false []).ReadHeader.2.1.Size = 12 ∧
    (DataStream.mk (FileHeader.bytes ++ (encodeBlocks [⟨TAG_Config, [0, 0, 0, 64]⟩]
        ++ [0, 0, 2, 0, 12, 0, 0, 0])) 12 false false false []).Seek 5 TAG_Hits
      = some (true, DataStream.mk (FileHeader.bytes ++ (encodeBlocks [⟨TAG_Config, [0, 0, 0, 64]⟩]
        ++ [0, 0, 2, 0, 12, 0, 0, 0])) 32 false false false []) ∧
    (DataStream.mk (FileHeader.bytes ++ (encodeBlocks [⟨TAG_Config, [0, 0, 0, 64]⟩]
        ++ [0x54, 0x53, 2, 0])) 12 false false false []).Seek 5 TAG_Hits
      = some (true, DataStream.mk (FileHeader.bytes ++ (encodeBlocks [⟨TAG_Config, [0, 0, 0, 64]⟩]
        ++ [0x54, 0x53, 2, 0])) 28 true true false []) ∧
    (DataStream.mk (FileHeader.bytes ++ (encodeBlocks [⟨TAG_Config, [0, 0, 0, 64]⟩]
        ++ [0x54, 0x53, 2, 0])) 28 true true false []).tellg.1 = none := by
  decide!

/-- The end of the file as `Seek` meets it: in a file holding the file
header and a `Config` block and nothing behind it, `Seek(TAG_Hits)` from
offset 12 steps over the `Config` block to offset 24, where the header read
fails for want of bytes; `Seek` returns true with `failbit` and `eofbit`
set, so that `tellg` reports no position. -/
theorem Seek_at_end_of_file_leaves_stream_failed :
    (DataStream.mk (FileHeader.bytes ++ encodeBlocks [⟨TAG_Config, [0, 0, 0, 64]⟩])
        12 false false false []).Seek 5 TAG_Hits
      = some (true, DataStream.mk (FileHeader.bytes ++ encodeBlocks [⟨TAG_Config, [0, 0, 0, 64]⟩])
          24 true true false []) ∧
    (DataStream.mk (FileHeader.bytes ++ encodeBlocks [⟨TAG_Config, [0, 0, 0, 64]⟩])
        24 true true false []).tellg.1 = none := by
  decide!

end SeekFailureTheorems

/-! ### The `Size` field of a `Hits` block -/

section FilmHeaderTheorems

/-- C15 (amended): a `HitRecord<Fixed16, RGBSystem>` occupies 12 bytes (four
`int16` and four `uint8`), and for every record count `N` whose block fits
the `uint32` field, the `Size` that `FilmHeader` writes for a `Hits` block,
and that `FilmHeader::Validate` requires on read, is `12 + 12 * N`. -/
theorem FilmHeader_size_twelve_per_record (N : Nat) (hN : 12 + 12 * N < 2 ^ 32) :
    HitRecord.layout.size = 12 ∧
    (∀ r : HitRecord, (HitRecord.layout.toBytes r).length = 12) ∧
    (FilmHeader.new HitRecord.layout.size N).hdr.Size = 12 + 12 * N ∧
    (FilmHeader.new HitRecord.layout.size N).Count = N ∧
    (FilmHeader.new HitRecord.layout.size N).Validate HitRecord.layout.size = false ∧
    (∀ h : FilmHeader, h.Count = N → h.Validate HitRecord.layout.size = false →
      h.hdr.Size = 12 + 12 * N) := by
  have hsz : HitRecord.layout.size = 12 := rfl
  have hN2 : N % 2 ^ 32 = N := Nat.mod_eq_of_lt (by omega)
  have hS : (12 + 12 * N) % 2 ^ 32 = 12 + 12 * N := Nat.mod_eq_of_lt hN
  refine ⟨hsz, fun r => HitRecord.layout.length_toBytes r, ?_, ?_, ?_, ?_⟩
  · simp only [hsz, FilmHeader.new, BlockHeader.new, sizeofFilmHeader, hN2, hS]
  · simp only [FilmHeader.new, hN2]
  · simp [hsz, FilmHeader.Validate, FilmHeader.new, BlockHeader.ValidateAs, BlockHeader.Validate,
      BlockHeader.new, sizeofFilmHeader, hN2, hS, TAG_Hits]
  · intro h hc hv
    simp only [hsz, FilmHeader.Validate, BlockHeader.ValidateAs, Bool.or_eq_false_iff,
      bne_eq_false_iff_eq, sizeofFilmHeader, hc, hS] at hv
    exact hv.2

theorem FilmHeader_size_twelve_per_record_witness :
    12 + 12 * 10 < 2 ^ 32 ∧
    (FilmHeader.new HitRecord.layout.size 10).hdr.Size = 12 + 12 * 10 ∧
    (FilmHeader.new HitRecord.layout.size 10).Validate HitRecord.layout.size = false :=
  ⟨by norm_num, (FilmHeader_size_twelve_per_record 10 (by norm_num)).2.2.1,
    (FilmHeader_size_twelve_per_record 10 (by norm_num)).2.2.2.2.1⟩

/-- C15 (counterexample): for one record the `Size` written is 24, not
`12 + 16 * 1 = 28`; a header with `Size = 28` and `Count = 1` is rejected
by `Validate`, and a record occupies 12 bytes, not 16. -/
theorem FilmHeader_size_not_sixteen_per_record :
    (FilmHeader.new HitRecord.layout.size 1).hdr.Size = 24 ∧
    (FilmHeader.new HitRecord.layout.size 1).hdr.Size ≠ 12 + 16 * 1 ∧
    (FilmHeader.mk ⟨BlockMagic, TAG_Hits, 12 + 16 * 1⟩ 1).Validate HitRecord.layout.size = true ∧
    (HitRecord.layout.toBytes
      (HitRecord.new (0 : ℚ) 0 0 0 ⟨1, 1, 1, 1⟩)).length = 12 ∧
    HitRecord.layout.size ≠ 16 := by
  decide!

end FilmHeaderTheorems

/-! ### The value `Expose` returns -/

section ExposeReturnTheorems

variable {Hit : Type}

/-- C16 (what the code does instead): whenever the buffer is still below
capacity after the append, `Expose` returns true, although nothing was
written and nothing failed: the hit is buffered and the stream is
untouched.  (`return this->size() != this->capacity() || Flush();`) -/
theorem Expose_returns_true_below_capacity (L : Layout Hit) (f : ColorFilm Hit)
    (s : DataStream) (x : Hit) (hlt : f.buf.length + 1 < f.capacity) :
    (f.Expose L s x).1 = true ∧ (f.Expose L s x).2.1.buf = f.buf ++ [x] ∧
      (f.Expose L s x).2.2 = s := by
  rw [ColorFilm.Expose_below L f s x hlt]
  exact ⟨rfl, rfl, rfl⟩

/-- When the append fills the buffer, `Expose` returns what `Flush`
returns: false after a successful write. -/
theorem ColorFilm.Expose_full_ok (L : Layout Hit) (f : ColorFilm Hit) (s : DataStream) (x : Hit)
    (heq : f.buf.length + 1 = f.capacity) (h : s.atEnd) (hf : s.noFaults)
    (hcap : f.capacity < 2 ^ 32) :
    (f.Expose L s x).1 = false := by
  rw [ColorFilm.Expose_full L f s x heq]
  exact (ColorFilm.Flush_atEnd L { f with buf := f.buf ++ [x] } s h hf
    (by simp only [List.length_append, List.length_singleton]; omega)).1

/-- Witness for C16: the first hit on an empty film of capacity 4 over a
new stream. -/
theorem Expose_returns_true_below_capacity_witness :
    ((ColorFilm.new 4 : ColorFilm (RawHit 2)).buf.length + 1
        < (ColorFilm.new 4 : ColorFilm (RawHit 2)).capacity) ∧
    ((ColorFilm.new 4 : ColorFilm (RawHit 2)).Expose (rawLayout 2) (DataStream.New []).2
      ⟨[1, 2], rfl⟩).1 = true ∧
    ((ColorFilm.new 4 : ColorFilm (RawHit 2)).Expose (rawLayout 2) (DataStream.New []).2
      ⟨[1, 2], rfl⟩).2.2 = (DataStream.New []).2 :=
  ⟨by decide,
    (Expose_returns_true_below_capacity (rawLayout 2) (ColorFilm.new 4) (DataStream.New []).2
      ⟨[1, 2], rfl⟩ (by decide)).1,
    (Expose_returns_true_below_capacity (rawLayout 2) (ColorFilm.new 4) (DataStream.New []).2
      ⟨[1, 2], rfl⟩ (by decide)).2.2⟩

end ExposeReturnTheorems

/-! ### The final flush of a render without captured photons -/

section FinalFlushTheorems

variable {Hit : Type}

theorem ColorFilm.blockBytes_nil (L : Layout Hit) :
    ColorFilm.blockBytes L [] = (FilmHeader.new L.size 0).bytes := by
  simp [ColorFilm.blockBytes, Layout.image]

/-- Flushes of films with empty buffers: each appends a `FilmHeader` with
`Count = 0` to the file. -/
theorem Workers.run_flush_empty (L : Layout Hit) (idx : List Nat) :
    ∀ w : Workers Hit, w.stream.atEnd → w.stream.noFaults → (∀ f ∈ w.films, f.buf = []) →
      (∀ i ∈ idx, i < w.films.length) →
      (w.run L (idx.map FilmOp.flush)).stream.atEnd ∧
      (w.run L (idx.map FilmOp.flush)).stream.noFaults ∧
      (w.run L (idx.map FilmOp.flush)).stream.data
        = w.stream.data ++ (List.replicate idx.length (FilmHeader.new L.size 0).bytes).flatten := by
  induction idx with
  | nil => intro w h1 h2 _ _; simp [Workers.run, h1, h2]
  | cons i idx ih =>
    intro w h1 h2 h3 h4
    have hi : i < w.films.length := h4 i (List.mem_cons_self _ _)
    have hget : w.films[i]? = some w.films[i] := List.getElem?_eq_getElem hi
    have hbuf : (w.films[i]).buf = [] := h3 _ (List.getElem_mem hi)
    obtain ⟨a1, a2, a3, a4, a5, _, _⟩ := ColorFilm.Flush_atEnd L w.films[i] w.stream h1 h2
      (by rw [hbuf]; simp)
    have hstep : w.step L (FilmOp.flush i)
        = ⟨((w.films[i]).Flush L w.stream).2.2,
            w.films.set i ((w.films[i]).Flush L w.stream).2.1⟩ := by
      simp only [Workers.step, hget]
    have hrun : w.run L ((i :: idx).map FilmOp.flush)
        = (w.step L (FilmOp.flush i)).run L (idx.map FilmOp.flush) := by
      simp [Workers.run]
    have h := ih (w.step L (FilmOp.flush i))
      (by rw [hstep]; exact a2) (by rw [hstep]; exact a3)
      (by
        rw [hstep]
        intro f hf
        rcases List.mem_or_eq_of_mem_set hf with h | h
        · exact h3 f h
        · rw [h]; exact a5)
      (by
        rw [hstep]
        intro j hj
        simp only [List.length_set]
        exact h4 j (List.mem_cons_of_mem _ hj))
    rw [hrun]
    refine ⟨h.1, h.2.1, ?_⟩
    rw [h.2.2, hstep]
    simp only [a4, hbuf, ColorFilm.blockBytes_nil, List.length_cons, List.replicate_succ,
      List.flatten_cons, List.append_assoc]

/-- C17 (amended): when no photon is captured during a render, the final
`Flush` of every worker still writes a `Hits` block, a `FilmHeader` with
`Count = 0` and no record.  The finished file is the file header, the
`Config` block and one such header of 12 bytes per worker, so its size is
`sizeof(FileHeader) + sizeof(ConfigHeader) + Threads * sizeof(FilmHeader)`. -/
theorem final_flush_writes_empty_hits_blocks (L : Layout Hit) (dev : List Bool)
    (LensRadius Buffer Threads : Nat) (hdev : ∀ b ∈ dev, b = false) :
    ((Workers.init dev LensRadius Buffer Threads : Workers Hit).finish L).stream.data
      = FileHeader.bytes ++ (ConfigHeader.new LensRadius).bytes
          ++ (List.replicate Threads (FilmHeader.new L.size 0).bytes).flatten ∧
    ((Workers.init dev LensRadius Buffer Threads : Workers Hit).finish L).stream.data.length
      = sizeofFileHeader + sizeofConfigHeader + Threads * sizeofFilmHeader := by
  have h0 : (DataStream.mk [] 0 false false false dev).atEnd := by simp [DataStream.atEnd]
  obtain ⟨_, a2, a3, a4⟩ := DataStream.Write_atEnd _ FileHeader.bytes h0 hdev
  obtain ⟨_, b2, b3, b4⟩ := DataStream.Write_atEnd _ (ConfigHeader.new LensRadius).bytes a2 a3
  have hst : (Workers.init dev LensRadius Buffer Threads : Workers Hit).stream
      = (((DataStream.mk [] 0 false false false dev).Write FileHeader.bytes).2.Write
          (ConfigHeader.new LensRadius).bytes).2 := rfl
  have hfl : (Workers.init dev LensRadius Buffer Threads : Workers Hit).films.length = Threads := by
    simp [Workers.init]
  have hem : ∀ f ∈ (Workers.init dev LensRadius Buffer Threads : Workers Hit).films, f.buf = [] := by
    intro f hf
    have := List.eq_of_mem_replicate hf
    subst this
    rfl
  have h := Workers.run_flush_empty L (List.range Threads)
    (Workers.init dev LensRadius Buffer Threads : Workers Hit)
    (by rw [hst]; exact b2) (by rw [hst]; exact b3) hem
    (by intro i hi; rw [hfl]; exact List.mem_range.mp hi)
  have hdata : ((Workers.init dev LensRadius Buffer Threads : Workers Hit).finish L).stream.data
      = FileHeader.bytes ++ (ConfigHeader.new LensRadius).bytes
          ++ (List.replicate Threads (FilmHeader.new L.size 0).bytes).flatten := by
    unfold Workers.finish
    rw [hfl, h.2.2, hst, b4, a4, List.length_range]
    simp
  refine ⟨hdata, ?_⟩
  rw [hdata]
  have hF : FileHeader.bytes.length = 12 := by decide
  have hC : (ConfigHeader.new LensRadius).bytes.length = 12 := by
    simp [ConfigHeader.bytes, BlockHeader.length_blockHeader_bytes, leBytes_length]
  simp only [List.length_append, List.length_flatten, List.map_replicate, List.sum_replicate,
    FilmHeader.length_filmHeader_bytes, hF, hC, sizeofFileHeader, sizeofConfigHeader,
    sizeofFilmHeader, smul_eq_mul]

theorem final_flush_writes_empty_hits_blocks_witness :
    (∀ b ∈ ([] : List Bool), b = false) ∧
    ((Workers.init [] 0x40000000 65536 4 : Workers HitRecord).finish
        HitRecord.layout).stream.data.length
      = sizeofFileHeader + sizeofConfigHeader + 4 * sizeofFilmHeader :=
  ⟨by simp, (final_flush_writes_empty_hits_blocks HitRecord.layout [] 0x40000000 65536 4
    (by simp)).2⟩

/-- C17 (counterexample): `Flush` on an empty buffer appends bytes.  One
worker, no photon captured: before the final flush the file holds the 24
bytes of the file header and the `Config` block; after it the file is 36
bytes long and ends with a `Hits` block of `Count = 0`. -/
theorem Flush_on_empty_buffer_appends_header :
    (Workers.init [] 0x40000000 65536 1 : Workers HitRecord).stream.data.length = 24 ∧
    ((ColorFilm.new 65536 : ColorFilm HitRecord).Flush HitRecord.layout
      (Workers.init [] 0x40000000 65536 1 : Workers HitRecord).stream).1 = false ∧
    ((ColorFilm.new 65536 : ColorFilm HitRecord).Flush HitRecord.layout
      (Workers.init [] 0x40000000 65536 1 : Workers HitRecord).stream).2.2.data.length = 36 ∧
    ((Workers.init [] 0x40000000 65536 1 : Workers HitRecord).finish
      HitRecord.layout).stream.data.length = 36 ∧
    ((Workers.init [] 0x40000000 65536 1 : Workers HitRecord).finish
      HitRecord.layout).stream.data.drop 24 = (FilmHeader.new 12 0).bytes := by
  decide!

end FinalFlushTheorems

/-! ### The `Fixed16` encoding: truncation and saturation -/

section Fixed16EncodeTheorems

variable {K : Type} [LinearOrderedField K] [FloorRing K]

theorem clamp_mem (v : ℤ) : -32768 ≤ clamp v (-32768) 32767 ∧ clamp v (-32768) 32767 ≤ 32767 := by
  unfold clamp
  split_ifs <;> omega

theorem int16_of_mem (n : ℤ) (h1 : -32768 ≤ n) (h2 : n ≤ 32767) : int16 n = n := by
  unfold int16
  omega

/-- The truncated value is below every integer bound above the argument. -/
theorem truncate_lt_of_lt {v : K} {n : ℤ} (hn : 0 < n) (h : v < (n : K)) : truncate v < n := by
  by_cases h0 : 0 ≤ v
  · have h1 := (truncate_le_of_nonneg h0).1
    have h2 : (truncate v : K) < (n : K) := lt_of_le_of_lt h1 h
    exact_mod_cast h2
  · have h1 := truncate_ge_of_neg h0
    have h2 : (truncate v : K) < ((1 : ℤ) : K) := by
      push_cast; push_neg at h0; linarith [h1.2]
    have h3 : truncate v < 1 := by exact_mod_cast h2
    omega

/-- Below `65536` the encoding is the truncated scaled value, clamped: the
conversion to `int32` is in range or, far below, yields `INT_MIN`, which
clamps as the truncated value does. -/
theorem Fixed16.ofReal_value_of_lt {x : K} (h : x < 65536) :
    (Fixed16.ofReal x).Value = clamp (truncate (x * 32768)) (-32768) 32767 := by
  have hlt : x * 32768 < ((2147483648 : ℤ) : K) := by push_cast; linarith
  have ht : truncate (x * 32768) < 2147483648 := truncate_lt_of_lt (by norm_num) hlt
  show int16 (clamp (int32 (x * 32768)) (-32768) 32767) = _
  rw [int16_of_mem _ (clamp_mem _).1 (clamp_mem _).2]
  by_cases hlo : -2147483648 ≤ truncate (x * 32768)
  · have e32 : int32 (x * 32768) = truncate (x * 32768) := by
      unfold int32
      exact if_pos ⟨hlo, by omega⟩
    rw [e32]
  · have e32 : int32 (x * 32768) = -2147483648 := by
      unfold int32
      exact if_neg (fun hc => hlo hc.1)
    rw [e32]
    unfold clamp
    rw [if_pos (by norm_num), if_pos (by omega)]

/-- From `65536` on the scaled value is beyond the range of `int32`; the
conversion yields `INT_MIN` and the encoding is `-32768`. -/
theorem Fixed16.ofReal_value_of_ge {x : K} (h : 65536 ≤ x) :
    (Fixed16.ofReal x).Value = -32768 := by
  have h0 : (0 : K) ≤ x * 32768 := by nlinarith
  have hge : ((2147483648 : ℤ) : K) ≤ x * 32768 := by push_cast; linarith
  have ht : 2147483648 ≤ truncate (x * 32768) := by
    unfold truncate
    rw [if_pos h0]
    exact Int.le_floor.mpr hge
  have e32 : int32 (x * 32768) = -2147483648 := by
    unfold int32
    exact if_neg (fun hc => by omega)
  show int16 (clamp (int32 (x * 32768)) (-32768) 32767) = _
  rw [e32]
  unfold clamp int16
  rw [if_pos (by norm_num)]
  norm_num

/-- C18 (amended): for every real `x < 65536`, the `Fixed16` encoding of
`x` is `clamp(trunc(x * 32768), -32768, +32767)`: the scaled value is
truncated toward zero, not rounded to the nearest integer, before it is
clamped. -/
theorem Fixed16_encode_truncates (x : K) (h : x < 65536) :
    (Fixed16.ofReal x).Value = clamp (truncate (x * 32768)) (-32768) 32767 ∧
    |((truncate (x * 32768) : ℤ) : K)| ≤ |x * 32768| := by
  refine ⟨Fixed16.ofReal_value_of_lt h, ?_⟩
  by_cases h0 : 0 ≤ x * 32768
  · have h1 := truncate_le_of_nonneg h0
    have h2 : (0 : K) ≤ (truncate (x * 32768) : K) := by
      have : (0 : ℤ) ≤ truncate (x * 32768) := by
        unfold truncate; rw [if_pos h0]; exact Int.floor_nonneg.mpr h0
      exact_mod_cast this
    rw [abs_of_nonneg h2, abs_of_nonneg h0]
    exact h1.1
  · have h1 := truncate_ge_of_neg h0
    push_neg at h0
    have h2 : (truncate (x * 32768) : K) ≤ 0 := by
      have : truncate (x * 32768) ≤ 0 := by
        unfold truncate; rw [if_neg (not_le.mpr h0)]
        exact Int.ceil_le.mpr (by push_cast; exact h0.le)
      exact_mod_cast this
    rw [abs_of_nonpos h2, abs_of_neg h0]
    linarith [h1.1]

theorem Fixed16_encode_truncates_witness :
    ((3 / 131072 : ℚ) < 65536) ∧
    (Fixed16.ofReal (3 / 131072 : ℚ)).Value
      = clamp (truncate ((3 / 131072 : ℚ) * 32768)) (-32768) 32767 :=
  ⟨by norm_num, (Fixed16_encode_truncates (3 / 131072 : ℚ) (by norm_num)).1⟩

/-- C18 (counterexample): at `x = 0.75 / 32768` the scaled value is `0.75`;
the code encodes `0`, rounding to the nearest integer would give `1`.  At
`x = -0.75 / 32768` the code encodes `0`, rounding would give `-1`. -/
theorem Fixed16_encode_is_not_rounded :
    (Fixed16.ofReal (3 / 131072 : ℚ)).Value = 0 ∧
    Fixed16.specEncode (3 / 131072 : ℚ) = 1 ∧
    (Fixed16.ofReal (-3 / 131072 : ℚ)).Value = 0 ∧
    Fixed16.specEncode (-3 / 131072 : ℚ) = -1 := by
  decide!

end Fixed16EncodeTheorems

/-! ### Saturation of the `Fixed16` encoding -/

section Fixed16SaturationTheorems

variable {K : Type} [LinearOrderedField K] [FloorRing K]

/-- At and below `-1` the encoding is `-32768`. -/
theorem Fixed16.ofReal_value_of_le_neg_one {x : K} (h : x ≤ -1) :
    (Fixed16.ofReal x).Value = -32768 := by
  rw [Fixed16.ofReal_value_of_lt (by linarith)]
  have hneg : ¬ (0 : K) ≤ x * 32768 := by push_neg; linarith
  have h1 := truncate_ge_of_neg hneg
  have h2 : (truncate (x * 32768) : K) < ((-32767 : ℤ) : K) := by
    push_cast; linarith [h1.2]
  have h3 : truncate (x * 32768) < -32767 := by exact_mod_cast h2
  unfold clamp
  by_cases hc : truncate (x * 32768) < -32768
  · rw [if_pos hc]
  · rw [if_neg hc, if_neg (by omega)]
    omega

/-- From `1` up to `65536` the encoding is `32767`. -/
theorem Fixed16.ofReal_value_of_ge_one {x : K} (h1 : 1 ≤ x) (h2 : x < 65536) :
    (Fixed16.ofReal x).Value = 32767 := by
  rw [Fixed16.ofReal_value_of_lt h2]
  have h0 : (0 : K) ≤ x * 32768 := by linarith
  have ht : 32768 ≤ truncate (x * 32768) := by
    unfold truncate
    rw [if_pos h0]
    exact Int.le_floor.mpr (by push_cast; linarith)
  unfold clamp
  rw [if_neg (by omega), if_pos (by omega)]

/-- C19 (what the code does): outside `[-1, +1)` the encoding saturates to
`-32768` for every `x ≤ -1` and to `32767` for every `x` with
`1 ≤ x < 65536`; from `65536` on the scaled value `x * 32768` is beyond
the range of `int32`, the conversion yields `INT_MIN`, and the encoding is
`-32768` instead of `32767`. -/
theorem Fixed16_saturation_within_int32 (x : K) (h : x ≤ -1 ∨ 1 ≤ x) :
    (Fixed16.ofReal x).Value
      = if x ≤ -1 then -32768 else if x < 65536 then 32767 else -32768 := by
  by_cases h1 : x ≤ -1
  · rw [if_pos h1]; exact Fixed16.ofReal_value_of_le_neg_one h1
  · have h2 : 1 ≤ x := by
      rcases h with h | h
      · exact absurd h h1
      · exact h
    rw [if_neg h1]
    by_cases h3 : x < 65536
    · rw [if_pos h3]; exact Fixed16.ofReal_value_of_ge_one h2 h3
    · rw [if_neg h3]; exact Fixed16.ofReal_value_of_ge (not_lt.mp h3)

/-- Witness for C19 at `x = 65536`, where the encoding is `-32768`. -/
theorem Fixed16_saturation_within_int32_witness :
    ((65536 : ℚ) ≤ -1 ∨ (1 : ℚ) ≤ 65536) ∧ (Fixed16.ofReal (65536 : ℚ)).Value = -32768 := by
  have h := Fixed16_saturation_within_int32 (65536 : ℚ) (Or.inr (by norm_num))
  rw [if_neg (by norm_num), if_neg (by norm_num)] at h
  exact ⟨Or.inr (by norm_num), h⟩

/-- The two values the specification names: `encode(2) = 32767` and
`encode(-2) = -32768`. -/
theorem Fixed16.ofReal_two :
    (Fixed16.ofReal (2 : ℚ)).Value = 32767 ∧ (Fixed16.ofReal (-2 : ℚ)).Value = -32768 := by
  decide!

end Fixed16SaturationTheorems

/-! ### The `Config` block: write, rewind, read -/

section ConfigRoundTrip

variable {Hit : Type}

theorem ConfigHeader.length_configHeader_bytes (c : ConfigHeader) : c.bytes.length = 12 := by
  simp [ConfigHeader.bytes, BlockHeader.length_blockHeader_bytes, leBytes_length]

theorem ConfigHeader.ofBytes_new_bytes (r : Nat) :
    ConfigHeader.ofBytes (ConfigHeader.new r).bytes = ConfigHeader.new r := by
  have h1 := BlockHeader.new_bytes_roundtrip TAG_Config sizeofConfigHeader (leBytes 4 (r % 2 ^ 32))
  have h2 : leValue (((BlockHeader.new TAG_Config sizeofConfigHeader).bytes
      ++ leBytes 4 (r % 2 ^ 32)).drop 8 |>.take 4) = r % 2 ^ 32 := by
    have hd : ((BlockHeader.new TAG_Config sizeofConfigHeader).bytes
        ++ leBytes 4 (r % 2 ^ 32)).drop 8 = leBytes 4 (r % 2 ^ 32) := by
      rw [List.drop_append_of_le_length (by rw [BlockHeader.length_blockHeader_bytes])]
      rw [List.drop_of_length_le (by rw [BlockHeader.length_blockHeader_bytes])]
      rfl
    rw [hd, List.take_of_length_le (by rw [leBytes_length]), leValue_leBytes]
    norm_num
  simp only [ConfigHeader.ofBytes, ConfigHeader.new, ConfigHeader.bytes] at h1 h2 ⊢
  rw [h1, h2]

/-- Reading the `Config` block that starts at the cursor. -/
theorem DataStream.ReadConfigHeader_config (r : Nat) (pre tl : List Nat) (dev : List Bool) :
    (DataStream.mk (pre ++ ((ConfigHeader.new r).bytes ++ tl)) pre.length
        false false false dev).ReadConfigHeader
      = (false, ConfigHeader.new r,
          DataStream.mk (pre ++ ((ConfigHeader.new r).bytes ++ tl)) (pre.length + 12)
            false false false dev) := by
  have hr := DataStream.read_prefix pre (ConfigHeader.new r).bytes tl dev
  rw [ConfigHeader.length_configHeader_bytes] at hr
  have hv : (ConfigHeader.new r).Validate = false := by
    simp [ConfigHeader.Validate, ConfigHeader.new, BlockHeader.ValidateAs, BlockHeader.Validate,
      BlockHeader.new, TAG_Config, sizeofConfigHeader]
  simp only [DataStream.ReadConfigHeader, DataStream.Read, sizeofConfigHeader, hr,
    ConfigHeader.ofBytes_new_bytes, hv, DataStream.fail, Bool.or_self]

/-- `ReadConfig` with the cursor at a `Config` block. -/
theorem ColorFilm.ReadConfig_config (r : Nat) (pre tl : List Nat) (dev : List Bool)
    (g : ColorFilm Hit) (n : Nat) :
    g.ReadConfig (n + 1)
        (DataStream.mk (pre ++ ((ConfigHeader.new r).bytes ++ tl)) pre.length
          false false false dev)
      = some (false, { g with Config := ConfigHeader.new r },
          DataStream.mk (pre ++ ((ConfigHeader.new r).bytes ++ tl)) (pre.length + 12)
            false false false dev) := by
  have hcfg : (ConfigHeader.new r).bytes
      = (Block.mk TAG_Config (leBytes 4 (r % 2 ^ 32))).bytes := by
    simp [ConfigHeader.new, ConfigHeader.bytes, Block.bytes, leBytes_length,
      sizeofConfigHeader, sizeofBlockHeader]
  have hwf : (Block.mk TAG_Config (leBytes 4 (r % 2 ^ 32))).wf := by
    simp [Block.wf, TAG_Config, leBytes_length, sizeofBlockHeader]
  have hseek := DataStream.Seek_hit n TAG_Config pre tl
    (Block.mk TAG_Config (leBytes 4 (r % 2 ^ 32))) hwf rfl dev
  rw [← hcfg] at hseek
  simp only [ColorFilm.ReadConfig, hseek, DataStream.ReadConfigHeader_config r pre tl dev]

/-- C20: for every `float32` image `r` (the 32 bits of the value), on a
stream created with `New` without write errors: `WriteConfig` with
`Config.LensRadius = r` returns false and leaves the file holding the file
header and the `Config` block; whatever bytes `tl` are appended behind it
(the `Hits` blocks of a render) and wherever the stream then stands,
`Rewind` returns false and `ReadConfig` returns false and leaves
`Config.LensRadius` with the same 32 bits `r`. -/
theorem WriteConfig_Rewind_ReadConfig (r : Nat) (hr : r < 2 ^ 32) (dev : List Bool)
    (hdev : ∀ b ∈ dev, b = false) (Buffer : Nat) (tl : List Nat) (g : ColorFilm Hit)
    (pos : Nat) (fb eb bb : Bool) (dev2 : List Bool) (fuel : Nat) (hfuel : 0 < fuel) :
    (({ (ColorFilm.new Buffer : ColorFilm Hit) with Config := ConfigHeader.new r }).WriteConfig
      (DataStream.New dev).2).1 = false ∧
    (({ (ColorFilm.new Buffer : ColorFilm Hit) with Config := ConfigHeader.new r }).WriteConfig
      (DataStream.New dev).2).2.data = FileHeader.bytes ++ (ConfigHeader.new r).bytes ∧
    (DataStream.mk (FileHeader.bytes ++ (ConfigHeader.new r).bytes ++ tl)
      pos fb eb bb dev2).Rewind.1 = false ∧
    g.ReadConfig fuel
        (DataStream.mk (FileHeader.bytes ++ (ConfigHeader.new r).bytes ++ tl)
          pos fb eb bb dev2).Rewind.2
      = some (false, { g with Config := ConfigHeader.new r },
          DataStream.mk (FileHeader.bytes ++ (ConfigHeader.new r).bytes ++ tl)
            (sizeofFileHeader + sizeofConfigHeader) false false false dev2) ∧
    (ConfigHeader.new r).LensRadius = r := by
  have h0 : (DataStream.mk [] 0 false false false dev).atEnd := by simp [DataStream.atEnd]
  obtain ⟨_, a2, a3, a4⟩ := DataStream.Write_atEnd _ FileHeader.bytes h0 hdev
  obtain ⟨b1, _, _, b4⟩ := DataStream.Write_atEnd _ (ConfigHeader.new r).bytes a2 a3
  have hF : FileHeader.bytes.length = 12 := by decide
  have hrew : (DataStream.mk (FileHeader.bytes ++ (ConfigHeader.new r).bytes ++ tl)
      pos fb eb bb dev2).Rewind
      = (false, DataStream.mk (FileHeader.bytes ++ ((ConfigHeader.new r).bytes ++ tl))
          FileHeader.bytes.length false false false dev2) := by
    simp [DataStream.Rewind, DataStream.clear, DataStream.seekg, DataStream.fail,
      sizeofFileHeader, hF]
  obtain ⟨n, rfl⟩ : ∃ n, fuel = n + 1 := ⟨fuel - 1, by omega⟩
  have hread := ColorFilm.ReadConfig_config r FileHeader.bytes tl dev2 g n
  refine ⟨b1, ?_, ?_, ?_, Nat.mod_eq_of_lt hr⟩
  · show (((DataStream.mk [] 0 false false false dev).Write FileHeader.bytes).2.Write
        (ConfigHeader.new r).bytes).2.data = _
    rw [b4, a4]
    rfl
  · rw [hrew]
  · rw [hrew, hread, hF, List.append_assoc]
    rfl

/-- Witness for C20: lens radius `2.0f` (bits `0x40000000`), one `Hits`
block of one record appended, the stream left at its end with `eofbit` and
`failbit` set by the last read. -/
theorem WriteConfig_Rewind_ReadConfig_witness :
    (0x40000000 < 2 ^ 32) ∧
    (ColorFilm.new 4 : ColorFilm HitRecord).ReadConfig 3
        (DataStream.mk (FileHeader.bytes ++ (ConfigHeader.new 0x40000000).bytes
            ++ ColorFilm.blockBytes HitRecord.layout
                [HitRecord.new (0 : ℚ) 0 0 0 ⟨1, 1, 1, 1⟩])
          48 true true false []).Rewind.2
      = some (false,
          { (ColorFilm.new 4 : ColorFilm HitRecord) with Config := ConfigHeader.new 0x40000000 },
          DataStream.mk (FileHeader.bytes ++ (ConfigHeader.new 0x40000000).bytes
            ++ ColorFilm.blockBytes HitRecord.layout
                [HitRecord.new (0 : ℚ) 0 0 0 ⟨1, 1, 1, 1⟩])
            (sizeofFileHeader + sizeofConfigHeader) false false false []) ∧
    (ConfigHeader.new 0x40000000).LensRadius = 0x40000000 :=
  ⟨by norm_num,
    (WriteConfig_Rewind_ReadConfig 0x40000000 (by norm_num) [] (by simp) 4
      (ColorFilm.blockBytes HitRecord.layout [HitRecord.new (0 : ℚ) 0 0 0 ⟨1, 1, 1, 1⟩])
      (ColorFilm.new 4) 48 true true false [] 3 (by norm_num)).2.2.2.1,
    (WriteConfig_Rewind_ReadConfig 0x40000000 (by norm_num) [] (by simp) 4 []
      (ColorFilm.new 4 : ColorFilm HitRecord) 0 false false false [] 1 (by norm_num)).2.2.2.2⟩

end ConfigRoundTrip

/-! ### The F-limit of the lens -/

section LensLimitTheorems

variable {K : Type} [LinearOrderedField K] {M : Type}

/-- The iterates of `sqrtNewtonRaphson` for `x > 0`, from a positive
`curr` with `x ≤ curr * curr`, stay positive and stay at or above the
square root. -/
theorem sqrtNewtonRaphson_upper (x : K) (hx : 0 < x) :
    ∀ (fuel : Nat) (curr prev : K), 0 < curr → x ≤ curr * curr →
      0 < sqrtNewtonRaphson x fuel curr prev ∧
        x ≤ sqrtNewtonRaphson x fuel curr prev * sqrtNewtonRaphson x fuel curr prev := by
  intro fuel
  induction fuel with
  | zero => intro curr prev h1 h2; exact ⟨h1, h2⟩
  | succ n ih =>
    intro curr prev h1 h2
    unfold sqrtNewtonRaphson
    by_cases hc : curr = prev
    · rw [if_pos hc]; exact ⟨h1, h2⟩
    · rw [if_neg hc]
      have hq : 0 < x / curr := div_pos hx h1
      apply ih
      · linarith
      · have e : x = curr * (x / curr) := by field_simp
        nlinarith [sq_nonneg (curr - x / curr)]

/-- With at least one turn, `csqrt` of a positive number is positive and
at or above the square root. -/
theorem csqrt_upper (n : Nat) (y : K) (hy : 0 < y) :
    0 < csqrt (n + 1) y ∧ y ≤ csqrt (n + 1) y * csqrt (n + 1) y := by
  unfold csqrt sqrtNewtonRaphson
  rw [if_neg (ne_of_gt hy)]
  apply sqrtNewtonRaphson_upper y hy
  · have : 0 < y / y := div_pos hy hy
    linarith
  · rw [div_self (ne_of_gt hy)]
    nlinarith [sq_nonneg (y - 1)]

end LensLimitTheorems

/-! ### `Sphere::HitExterior` for a ray that starts inside the sphere -/

section SphereInteriorTheorems

variable {K : Type} [LinearOrderedField K] {M : Type}

/-- C25 (what the code does instead): for a ray whose origin lies strictly
inside the sphere and whose direction has a projection of at least
`Epsilon` on the vector to the centre, `HitExterior` installs a hit, at a
negative distance (the point where the line enters the sphere behind the
origin): unlike `Plane` and `Lens`, the sphere has no test `dist < Epsilon`.
The square root is taken positive and not below the exact one. -/
theorem Sphere_HitExterior_hits_from_inside (sqrt : K → K) (S : Sphere K M)
    (State : TraceState K M)
    (hsqrt : ∀ y : K, 0 < y → 0 < sqrt y ∧ y ≤ sqrt y * sqrt y)
    (hin : (S.Position.sub State.Position).LengthSq < S.Radius * S.Radius)
    (hadj : Epsilon ≤ (S.Position.sub State.Position).Dot State.Direction)
    (hd : (0 : WithTop K) ≤ State._HitDist) :
    (S.Position.sub State.Position).Dot State.Direction
        - sqrt (S._RadSq - ((S.Position.sub State.Position).LengthSq
            - (S.Position.sub State.Position).Dot State.Direction
              * (S.Position.sub State.Position).Dot State.Direction)) < 0 ∧
    S.HitExterior sqrt State
      = State.Hit ((S.Position.sub State.Position).Dot State.Direction
          - sqrt (S._RadSq - ((S.Position.sub State.Position).LengthSq
              - (S.Position.sub State.Position).Dot State.Direction
                * (S.Position.sub State.Position).Dot State.Direction)))
          (.sphere S) := by
  generalize hadjv : (S.Position.sub State.Position).Dot State.Direction = adj at hadj ⊢
  generalize hlen : (S.Position.sub State.Position).LengthSq = len at hin ⊢
  have heps : (0 : K) < Epsilon := by unfold Epsilon; norm_num
  have hadj0 : 0 < adj := lt_of_lt_of_le heps hadj
  have hrad : S._RadSq = S.Radius * S.Radius := rfl
  have hpos : 0 < S._RadSq - (len - adj * adj) := by rw [hrad]; nlinarith
  obtain ⟨ht0, ht1⟩ := hsqrt _ hpos
  have hlt : adj < sqrt (S._RadSq - (len - adj * adj)) := by
    by_contra hc
    push_neg at hc
    have : sqrt (S._RadSq - (len - adj * adj)) * sqrt (S._RadSq - (len - adj * adj))
        ≤ adj * adj := mul_le_mul hc hc ht0.le hadj0.le
    rw [hrad] at ht1 this
    nlinarith
  have hdist : adj - sqrt (S._RadSq - (len - adj * adj)) < 0 := by linarith
  refine ⟨hdist, ?_⟩
  have h1 : ¬ adj < Epsilon := not_lt.mpr hadj
  have h2 : ¬ len - adj * adj ≥ S._RadSq := by
    rw [hrad]; push_neg; nlinarith
  have h3 : ¬ State._HitDist
      ≤ ((adj - sqrt (S._RadSq - (len - adj * adj)) : K) : WithTop K) := by
    intro hc
    have h4 : (0 : WithTop K) ≤ ((adj - sqrt (S._RadSq - (len - adj * adj)) : K) : WithTop K) :=
      le_trans hd hc
    have h5 : (0 : K) ≤ adj - sqrt (S._RadSq - (len - adj * adj)) := by exact_mod_cast h4
    linarith
  simp only [Sphere.HitExterior, hadjv, hlen, h1, h2, h3, if_false]

/-- Witness for C25: the unit sphere at the origin and a photon at
`(0, 0, 1/2)` heading along `-Z`; the hit is installed at distance `-1/2`. -/
theorem Sphere_HitExterior_hits_from_inside_witness :
    (Sphere.mk (⟨0, 0, 0, 0⟩ : RVector ℚ) 1 ()).HitExterior (csqrt 2)
        (sampleState ⟨0, 0, 1 / 2, 0⟩ ⟨0, 0, -1, 0⟩ ⟨1, 1, 1, 1⟩ 4)
      = (sampleState ⟨0, 0, 1 / 2, 0⟩ ⟨0, 0, -1, 0⟩ ⟨1, 1, 1, 1⟩ 4).Hit (-1 / 2)
          (.sphere (Sphere.mk (⟨0, 0, 0, 0⟩ : RVector ℚ) 1 ())) := by
  have h := (Sphere_HitExterior_hits_from_inside (csqrt 2)
    (Sphere.mk (⟨0, 0, 0, 0⟩ : RVector ℚ) 1 ())
    (sampleState ⟨0, 0, 1 / 2, 0⟩ ⟨0, 0, -1, 0⟩ ⟨1, 1, 1, 1⟩ 4)
    (fun y hy => csqrt_upper 1 y hy)
    (by norm_num [sampleState, RVector.sub, RVector.LengthSq, RVector.Dot, RVector.mul,
      RVector.Sum])
    (by norm_num [sampleState, RVector.sub, RVector.Dot, RVector.mul, RVector.Sum, Epsilon])
    (by simp [sampleState])).2
  have e : ((Sphere.mk (⟨0, 0, 0, 0⟩ : RVector ℚ) 1 ()).Position.sub
        (sampleState ⟨0, 0, 1 / 2, 0⟩ ⟨0, 0, -1, 0⟩ ⟨1, 1, 1, 1⟩ 4).Position).Dot
        (sampleState ⟨0, 0, 1 / 2, 0⟩ ⟨0, 0, -1, 0⟩ ⟨1, 1, 1, 1⟩ 4).Direction
      - csqrt 2 ((Sphere.mk (⟨0, 0, 0, 0⟩ : RVector ℚ) 1 ())._RadSq
          - (((Sphere.mk (⟨0, 0, 0, 0⟩ : RVector ℚ) 1 ()).Position.sub
              (sampleState ⟨0, 0, 1 / 2, 0⟩ ⟨0, 0, -1, 0⟩ ⟨1, 1, 1, 1⟩ 4).Position).LengthSq
            - ((Sphere.mk (⟨0, 0, 0, 0⟩ : RVector ℚ) 1 ()).Position.sub
                (sampleState ⟨0, 0, 1 / 2, 0⟩ ⟨0, 0, -1, 0⟩ ⟨1, 1, 1, 1⟩ 4).Position).Dot
                (sampleState ⟨0, 0, 1 / 2, 0⟩ ⟨0, 0, -1, 0⟩ ⟨1, 1, 1, 1⟩ 4).Direction
              * ((Sphere.mk (⟨0, 0, 0, 0⟩ : RVector ℚ) 1 ()).Position.sub
                  (sampleState ⟨0, 0, 1 / 2, 0⟩ ⟨0, 0, -1, 0⟩ ⟨1, 1, 1, 1⟩ 4).Position).Dot
                  (sampleState ⟨0, 0, 1 / 2, 0⟩ ⟨0, 0, -1, 0⟩ ⟨1, 1, 1, 1⟩ 4).Direction))
      = -1 / 2 := by decide!
  rw [e] at h
  exact h

end SphereInteriorTheorems

/-! ### The point and the normal of a hit on a sphere -/

section SphereSurfaceTheorems

variable {K : Type} [LinearOrderedField K] {M : Type}

/-- `HitExterior` of a sphere either leaves the state alone or installs
its closure at the distance `adj - sqrt(_RadSq - oppSq)`. -/
theorem Sphere.HitExterior_outcomes (sqrt : K → K) (S : Sphere K M) (State : TraceState K M) :
    S.HitExterior sqrt State = State ∨
    ((S.Position.sub State.Position).LengthSq
        - (S.Position.sub State.Position).Dot State.Direction
          * (S.Position.sub State.Position).Dot State.Direction < S._RadSq ∧
      S.HitExterior sqrt State
        = State.Hit ((S.Position.sub State.Position).Dot State.Direction
            - sqrt (S._RadSq - ((S.Position.sub State.Position).LengthSq
                - (S.Position.sub State.Position).Dot State.Direction
                  * (S.Position.sub State.Position).Dot State.Direction)))
            (.sphere S)) := by
  simp only [Sphere.HitExterior]
  split_ifs with h1 h2 h3
  · left; rfl
  · left; rfl
  · left; rfl
  · right; exact ⟨not_le.mp h2, rfl⟩

/-- A point at distance `adj - t` along a unit direction, where `t * t` is
`r^2 - oppSq`, is at squared distance `r^2` from the centre. -/
theorem RVector.LengthSq_hit (O D P : RVector K) (R t : K) (hD : D.LengthSq = 1)
    (ht : t * t = R * R - ((P.sub O).LengthSq - (P.sub O).Dot D * (P.sub O).Dot D)) :
    ((O.add (D.smul ((P.sub O).Dot D - t))).sub P).LengthSq = R * R := by
  obtain ⟨ox, oy, oz, ow⟩ := O
  obtain ⟨dx, dy, dz, dw⟩ := D
  obtain ⟨px, py, pz, pw⟩ := P
  simp only [RVector.LengthSq, RVector.Dot, RVector.mul, RVector.Sum, RVector.sub, RVector.add,
    RVector.smul] at hD ht ⊢
  linear_combination ht
    + (((px - ox) * dx + (py - oy) * dy + (pz - oz) * dz - t) ^ 2) * hD

/-- C27: for a sphere of radius `r > 0` and a ray with unit direction for
which `Sphere::HitExterior` installs a hit (the square root being exact at
the radicand of that hit), committing the hit calls the material with the
photon at a point `p` on the surface, `|p - P|^2 = r^2`, and the normal
`HitNormal` computes there, `(p - P) / r`, has unit length. -/
theorem sphere_hit_on_surface [FloorRing K] (sqrt : K → K) (Lay : Layout HitRecord)
    (S : Sphere K M) (State : TraceState K M) (s : DataStream)
    (hR : 0 < S.Radius) (hD : State.Direction.LengthSq = 1)
    (hhit : S.HitExterior sqrt State ≠ State)
    (hsq : sqrt (S._RadSq - ((S.Position.sub State.Position).LengthSq
          - (S.Position.sub State.Position).Dot State.Direction
            * (S.Position.sub State.Position).Dot State.Direction))
        * sqrt (S._RadSq - ((S.Position.sub State.Position).LengthSq
          - (S.Position.sub State.Position).Dot State.Direction
            * (S.Position.sub State.Position).Dot State.Direction))
      = S._RadSq - ((S.Position.sub State.Position).LengthSq
          - (S.Position.sub State.Position).Dot State.Direction
            * (S.Position.sub State.Position).Dot State.Direction)) :
    ∃ st : TraceState K M,
      (S.HitExterior sqrt State)._HitFunc = some (.sphere S) ∧
      (∀ Interface : M → (TraceState K M → TraceState K M) → TraceState K M
          → Bool × TraceState K M,
        HitFunc.call sqrt Lay Interface (.sphere S) (S.HitExterior sqrt State) s
          = ((Interface S.Material S.HitNormal st).1,
              (Interface S.Material S.HitNormal st).2, s)) ∧
      (st.Position.sub S.Position).LengthSq = S.Radius * S.Radius ∧
      (S.HitNormal st)._HitNorm = (st.Position.sub S.Position).mul S._InvRad ∧
      (S.HitNormal st)._HitNorm.LengthSq = 1 := by
  rcases Sphere.HitExterior_outcomes sqrt S State with h | ⟨_, h⟩
  · exact absurd h hhit
  · rw [h]
    have hP := RVector.LengthSq_hit State.Position State.Direction S.Position S.Radius _ hD hsq
    refine ⟨_, rfl, fun Interface => rfl, ?_, rfl, ?_⟩
    · exact hP
    · have hne : S.Radius ≠ 0 := ne_of_gt hR
      have e : ∀ v : RVector K, (v.mul S._InvRad).LengthSq
          = v.LengthSq / (S.Radius * S.Radius) := by
        intro v
        simp only [RVector.LengthSq, RVector.Dot, RVector.mul, RVector.Sum, Sphere._InvRad]
        field_simp
      show ((_ : RVector K).mul S._InvRad).LengthSq = 1
      rw [e]
      exact (div_eq_one_iff_eq (mul_ne_zero hne hne)).mpr hP

/-- Witness for C27: the unit sphere at the origin and a photon at
`(0, 0, 2)` heading along `-Z`; the radicand is 1 and the hit is at
`(0, 0, 1)`. -/
theorem sphere_hit_on_surface_witness :
    ∃ st : TraceState ℚ Unit,
      ((Sphere.mk (⟨0, 0, 0, 0⟩ : RVector ℚ) 1 ()).HitExterior (csqrt 2)
        (sampleState ⟨0, 0, 2, 0⟩ ⟨0, 0, -1, 0⟩ ⟨1, 1, 1, 1⟩ 4))._HitFunc
        = some (.sphere (Sphere.mk (⟨0, 0, 0, 0⟩ : RVector ℚ) 1 ())) ∧
      (st.Position.sub (Sphere.mk (⟨0, 0, 0, 0⟩ : RVector ℚ) 1 ()).Position).LengthSq = 1 * 1 ∧
      ((Sphere.mk (⟨0, 0, 0, 0⟩ : RVector ℚ) 1 ()).HitNormal st)._HitNorm.LengthSq = 1 := by
  obtain ⟨st, h1, _, h3, _, h5⟩ := sphere_hit_on_surface (csqrt 2) HitRecord.layout
    (Sphere.mk (⟨0, 0, 0, 0⟩ : RVector ℚ) 1 ())
    (sampleState ⟨0, 0, 2, 0⟩ ⟨0, 0, -1, 0⟩ ⟨1, 1, 1, 1⟩ 4) (DataStream.New []).2
    (by norm_num)
    (by norm_num [sampleState, RVector.LengthSq, RVector.Dot, RVector.mul, RVector.Sum])
    (by
      intro h
      have h2 := congrArg (fun st : TraceState ℚ Unit => st._HitDist) h
      norm_num [Sphere.HitExterior, Sphere._RadSq, sampleState, RVector.sub, RVector.LengthSq,
        RVector.Dot, RVector.mul, RVector.Sum, Epsilon, TraceState.Hit, csqrt,
        sqrtNewtonRaphson] at h2)
    (by decide!)
  exact ⟨st, h1, h3, h5⟩

end SphereSurfaceTheorems

/-! ### The mirror -/

section MirrorTheorems

variable {K : Type} [LinearOrderedField K] {M : Type}

/-- The reflection `d - 2 (d · n) n` about a unit normal `n` keeps the
length of `d` and negates its component along `n`. -/
theorem RVector.reflect (d n : RVector K) (hn : n.LengthSq = 1) :
    (d.sub ((n.smul (d.Dot n)).smul 2)).LengthSq = d.LengthSq ∧
    (d.sub ((n.smul (d.Dot n)).smul 2)).Dot n = -(d.Dot n) := by
  obtain ⟨dx, dy, dz, dw⟩ := d
  obtain ⟨nx, ny, nz, nw⟩ := n
  simp only [RVector.LengthSq, RVector.Dot, RVector.mul, RVector.Sum, RVector.sub,
    RVector.smul] at hn ⊢
  constructor
  · linear_combination (4 * (dx * nx + dy * ny + dz * nz) ^ 2) * hn
  · linear_combination (-2 * (dx * nx + dy * ny + dz * nz)) * hn

/-- C28: for every direction `d` and every unit normal `n` (the normal
`HitNormal` stores for the shape), `IdealMirror::Interface` replaces `d` by
`d' = d - 2 (d · n) n`, which has the length of `d` (`|d'|^2 = |d|^2`, so a
unit direction stays unit) and the negated normal component
(`d' · n = -(d · n)`); it changes nothing else of the state `HitNormal`
returned, the colour in particular, and returns true. -/
theorem mirror_preserves_length (HitNormal : TraceState K M → TraceState K M)
    (State : TraceState K M) (hn : (HitNormal State)._HitNorm.LengthSq = 1) :
    (IdealMirror.Interface HitNormal State).1 = true ∧
    (IdealMirror.Interface HitNormal State).2.Direction
      = (HitNormal State).Direction.sub (((HitNormal State)._HitNorm.smul
          ((HitNormal State).Direction.Dot (HitNormal State)._HitNorm)).smul 2) ∧
    (IdealMirror.Interface HitNormal State).2.Direction.LengthSq
      = (HitNormal State).Direction.LengthSq ∧
    ((HitNormal State).Direction.LengthSq = 1 →
      (IdealMirror.Interface HitNormal State).2.Direction.LengthSq = 1) ∧
    (IdealMirror.Interface HitNormal State).2.Direction.Dot (HitNormal State)._HitNorm
      = -((HitNormal State).Direction.Dot (HitNormal State)._HitNorm) ∧
    (IdealMirror.Interface HitNormal State).2.Color = (HitNormal State).Color ∧
    (IdealMirror.Interface HitNormal State).2._HitNorm = (HitNormal State)._HitNorm ∧
    (IdealMirror.Interface HitNormal State).2.Position = (HitNormal State).Position := by
  have h := RVector.reflect (HitNormal State).Direction (HitNormal State)._HitNorm hn
  refine ⟨rfl, rfl, h.1, fun h1 => ?_, h.2, rfl, rfl, rfl⟩
  exact h.1.trans h1

/-- Witness for C28: a photon heading along `(3/5, 0, -4/5)` reflected by
the plane `z = 0` facing `+Z`; the colour `(1/2, 1/3, 1/4)` is kept. -/
theorem mirror_preserves_length_witness :
    ((samplePlane 0).HitNormal
        (sampleState ⟨0, 0, 0, 0⟩ ⟨3 / 5, 0, -4 / 5, 0⟩ ⟨1 / 2, 1 / 3, 1 / 4, 1⟩ 4))._HitNorm.LengthSq
      = 1 ∧
    (IdealMirror.Interface (samplePlane 0).HitNormal
        (sampleState ⟨0, 0, 0, 0⟩ ⟨3 / 5, 0, -4 / 5, 0⟩ ⟨1 / 2, 1 / 3, 1 / 4, 1⟩ 4)).2.Direction
      = ⟨3 / 5, 0, 4 / 5, 0⟩ ∧
    (IdealMirror.Interface (samplePlane 0).HitNormal
        (sampleState ⟨0, 0, 0, 0⟩ ⟨3 / 5, 0, -4 / 5, 0⟩ ⟨1 / 2, 1 / 3, 1 / 4, 1⟩ 4)).2.Color
      = ⟨1 / 2, 1 / 3, 1 / 4, 1⟩ := by
  have h := mirror_preserves_length (samplePlane 0).HitNormal
    (sampleState ⟨0, 0, 0, 0⟩ ⟨3 / 5, 0, -4 / 5, 0⟩ ⟨1 / 2, 1 / 3, 1 / 4, 1⟩ 4) (by decide!)
  exact ⟨by decide!, by decide!, h.2.2.2.2.2.1⟩

end MirrorTheorems

/-! ### `Develop`: one photon at the centre -/

section DevelopCenter

variable {K : Type} [LinearOrderedField K] [FloorRing K]

omit [FloorRing K] in
theorem Fixed16.toReal_of_value_zero (f : Fixed16) (h : f.Value = 0) : (f.toReal : K) = 0 := by
  simp [Fixed16.toReal, h]

omit [FloorRing K] in
theorem FLT_MAX_pos : (0 : K) < FLT_MAX := by
  unfold FLT_MAX; norm_num

omit [FloorRing K] in
theorem isfinite_of_abs_le (x : K) (h : |x| ≤ FLT_MAX) : isfinite x := h

omit [FloorRing K] in
theorem isfinite_zero : isfinite (0 : K) := by
  unfold isfinite; rw [abs_zero]; exact le_of_lt FLT_MAX_pos

omit [FloorRing K] in
theorem isfinite_of_abs_le_256 (x : K) (h : |x| ≤ 256) : isfinite x :=
  le_trans h (by unfold FLT_MAX; norm_num)

omit [FloorRing K] in
theorem RVector.finite_of_isfinite (v : RVector K) (h : v.isfinite) : v.finite = some v :=
  if_pos h

omit [FloorRing K] in
theorem RVector.finite_of_not_isfinite (v : RVector K) (h : ¬ v.isfinite) : v.finite = none :=
  if_neg h

omit [FloorRing K] in
/-- The scale factor is finite when `128 * |lensRad| * csqrt(2)` is at most
`FLT_MAX` (with `csqrt(2)` at least 1): no product on the way overflows. -/
theorem Develop.hScale_of_le (csqrt : K → K) (lensRad : K) (hc : 1 ≤ csqrt 2)
    (hR : 128 * |lensRad| * csqrt 2 ≤ FLT_MAX) :
    Develop.hScale csqrt lensRad
      = some ⟨128 * lensRad * csqrt 2 / -2, 128 * lensRad * csqrt 2 / -2, 0, 0⟩ := by
  have hc0 : (0 : K) < csqrt 2 := lt_of_lt_of_le one_pos hc
  have habs : (0 : K) ≤ 128 * |lensRad| := by positivity
  have h1 : |128 * lensRad| ≤ FLT_MAX := by
    rw [abs_mul, abs_of_pos (by norm_num : (0 : K) < 128)]
    calc 128 * |lensRad| = 128 * |lensRad| * 1 := (mul_one _).symm
      _ ≤ 128 * |lensRad| * csqrt 2 := mul_le_mul_of_nonneg_left hc habs
      _ ≤ FLT_MAX := hR
  have h2 : |128 * lensRad * csqrt 2| ≤ FLT_MAX := by
    rw [abs_mul, abs_mul, abs_of_pos (by norm_num : (0 : K) < 128), abs_of_pos hc0]
    exact hR
  have h3 : |128 * lensRad * csqrt 2 / -2| ≤ FLT_MAX := by
    rw [abs_div, abs_neg, abs_of_pos (by norm_num : (0 : K) < 2)]
    have : (0 : K) ≤ |128 * lensRad * csqrt 2| := abs_nonneg _
    linarith
  have z := isfinite_zero (K := K)
  have ea : (Develop.half.smul lensRad : RVector K) = ⟨128 * lensRad, 128 * lensRad, 0, 0⟩ := by
    simp only [Develop.half, RVector.smul, RVector.sdiv, Develop.Width, Develop.Height]
    norm_num
  have fa : (⟨128 * lensRad, 128 * lensRad, 0, 0⟩ : RVector K).isfinite := ⟨h1, h1, z, z⟩
  have fd : (⟨128 * lensRad * csqrt 2, 128 * lensRad * csqrt 2, 0, 0⟩ : RVector K).isfinite :=
    ⟨h2, h2, z, z⟩
  have fe : (⟨128 * lensRad * csqrt 2 / -2, 128 * lensRad * csqrt 2 / -2, 0, 0⟩
      : RVector K).isfinite := ⟨h3, h3, z, z⟩
  have e1 : (RVector.mk (128 * lensRad) (128 * lensRad) 0 0 : RVector K).smul 1
      = ⟨128 * lensRad, 128 * lensRad, 0, 0⟩ := by
    simp only [RVector.smul, mul_one]
  have e2 : (RVector.mk (128 * lensRad) (128 * lensRad) 0 0 : RVector K).smul (csqrt 2)
      = ⟨128 * lensRad * csqrt 2, 128 * lensRad * csqrt 2, 0, 0⟩ := by
    simp only [RVector.smul, zero_mul]
  have e3 : (RVector.mk (128 * lensRad * csqrt 2) (128 * lensRad * csqrt 2) 0 0 : RVector K).sdiv
      (-2) = ⟨128 * lensRad * csqrt 2 / -2, 128 * lensRad * csqrt 2 / -2, 0, 0⟩ := by
    simp only [RVector.sdiv, zero_div]
  simp only [Develop.hScale, Develop.FocalLen, Develop.Zoom, ea,
    RVector.finite_of_isfinite _ fa, Option.some_bind, e1, e2,
    RVector.finite_of_isfinite _ fd, e3, RVector.finite_of_isfinite _ fe]

omit [FloorRing K] in
/-- The scale factor is not finite when `128 * |lensRad|` or
`128 * |lensRad| * |csqrt(2)|` exceeds `FLT_MAX`: the product overflows. -/
theorem Develop.hScale_of_gt (csqrt : K → K) (lensRad : K)
    (hR : FLT_MAX < 128 * |lensRad| ∨ FLT_MAX < 128 * |lensRad| * |csqrt 2|) :
    Develop.hScale csqrt lensRad = none := by
  have ea : (Develop.half.smul lensRad : RVector K) = ⟨128 * lensRad, 128 * lensRad, 0, 0⟩ := by
    simp only [Develop.half, RVector.smul, RVector.sdiv, Develop.Width, Develop.Height]
    norm_num
  have e1 : (RVector.mk (128 * lensRad) (128 * lensRad) 0 0 : RVector K).smul 1
      = ⟨128 * lensRad, 128 * lensRad, 0, 0⟩ := by
    simp only [RVector.smul, mul_one]
  have e2 : (RVector.mk (128 * lensRad) (128 * lensRad) 0 0 : RVector K).smul (csqrt 2)
      = ⟨128 * lensRad * csqrt 2, 128 * lensRad * csqrt 2, 0, 0⟩ := by
    simp only [RVector.smul, zero_mul]
  by_cases fa : (⟨128 * lensRad, 128 * lensRad, 0, 0⟩ : RVector K).isfinite
  · have fd : ¬ (⟨128 * lensRad * csqrt 2, 128 * lensRad * csqrt 2, 0, 0⟩ : RVector K).isfinite := by
      intro h
      have h1 : |128 * lensRad| ≤ FLT_MAX := fa.1
      have h2 : |128 * lensRad * csqrt 2| ≤ FLT_MAX := h.1
      rw [abs_mul, abs_of_pos (by norm_num : (0 : K) < 128)] at h1
      rw [abs_mul, abs_mul, abs_of_pos (by norm_num : (0 : K) < 128)] at h2
      rcases hR with h | h <;> linarith
    simp only [Develop.hScale, Develop.FocalLen, Develop.Zoom, ea,
      RVector.finite_of_isfinite _ fa, Option.some_bind, e1, e2,
      RVector.finite_of_not_isfinite _ fd, Option.none_bind]
  · simp only [Develop.hScale, ea, RVector.finite_of_not_isfinite _ fa, Option.none_bind]

omit [FloorRing K] in
/-- When the scale factor is not finite no pixel is finite: every hit is
dropped. -/
theorem Develop.pixel_of_hScale_none (sqrt csqrt : K → K) (frameIdx : Nat) (lensRad : K)
    (hit : HitRecord) (h : Develop.hScale csqrt lensRad = none) :
    Develop.pixel sqrt csqrt frameIdx lensRad hit = none := by
  simp only [Develop.pixel, h]

omit [FloorRing K] in
/-- The distance to the image plane, `1 / (1 / FocalLen - 1 / focalDist)`
with `focalDist = 2 + frame / 32`, lies between 1 and 2 for every frame. -/
theorem Develop.imgDist_mem (frameIdx : Nat) :
    (1 : K) / 1 - 1 / (2 + (frameIdx : K) / 32) ≠ 0 ∧
    0 ≤ (1 : K) / (1 / 1 - 1 / (2 + (frameIdx : K) / 32)) ∧
    (1 : K) / (1 / 1 - 1 / (2 + (frameIdx : K) / 32)) ≤ 2 := by
  have h0 : (0 : K) ≤ (frameIdx : K) / 32 := by positivity
  have h2 : (0 : K) < 2 + (frameIdx : K) / 32 := by linarith
  have h3 : 1 / (2 + (frameIdx : K) / 32) ≤ 1 / 2 :=
    one_div_le_one_div_of_le (by norm_num) (by linarith)
  have h4 : (1 : K) / 2 ≤ 1 / 1 - 1 / (2 + (frameIdx : K) / 32) := by
    rw [div_one]; linarith
  have h5 : (0 : K) < 1 / 1 - 1 / (2 + (frameIdx : K) / 32) := by linarith
  refine ⟨ne_of_gt h5, le_of_lt (div_pos one_pos h5), ?_⟩
  rw [div_le_iff₀ h5]
  linarith

omit [FloorRing K] in
/-- The pixel of a hit record with `pos = (0, 0)` and `dir = (0, 0)` is the
centre `(128, 128)`, for every frame and every lens radius for which the
scale factor is finite. -/
theorem Develop.pixel_center (sqrt csqrt : K → K) (frameIdx : Nat) (lensRad : K)
    (hit : HitRecord) (hs1 : sqrt 1 = 1) (hf : 4 / 5 ≤ sqrt (41 / 25))
    (hc : 1 ≤ csqrt 2) (hR : 128 * |lensRad| * csqrt 2 ≤ FLT_MAX)
    (hpu : hit.Pos_u.Value = 0) (hpv : hit.Pos_v.Value = 0)
    (hdu : hit.Dir_u.Value = 0) (hdv : hit.Dir_v.Value = 0) :
    Develop.pixel sqrt csqrt frameIdx lensRad hit = some ⟨128, 128, 0, 0⟩ := by
  have e1 := Fixed16.toReal_of_value_zero (K := K) hit.Pos_u hpu
  have e2 := Fixed16.toReal_of_value_zero (K := K) hit.Pos_v hpv
  have e3 := Fixed16.toReal_of_value_zero (K := K) hit.Dir_u hdu
  have e4 := Fixed16.toReal_of_value_zero (K := K) hit.Dir_v hdv
  have hpos : (0 : K) < sqrt (41 / 25) := lt_of_lt_of_le (by norm_num) hf
  have hne : sqrt (41 / 25) ≠ 0 := ne_of_gt hpos
  have hmask : ¬ (1 : K) < 4 / 5 / sqrt (41 / 25) := by
    rw [not_lt, div_le_one hpos]
    exact hf
  have harg : (1 : K) * 1 + 4 / 5 * (4 / 5) + 0 * 0 = 41 / 25 := by norm_num
  obtain ⟨hfd, hd0, hd2⟩ := Develop.imgDist_mem (K := K) frameIdx
  have z := isfinite_zero (K := K)
  have hS := Develop.hScale_of_le csqrt lensRad hc hR
  have f0 : (⟨0, 0, 0, 0⟩ : RVector K).isfinite := ⟨z, z, z, z⟩
  have hrec : ((RVector.mk (0 : K) 0 0 0).smul lensRad).finite = some ⟨0, 0, 0, 0⟩ := by
    simp only [RVector.smul, zero_mul]
    exact RVector.finite_of_isfinite _ f0
  have hlen : isfinite ((RVector.mk (0 : K) 0 1 0).LengthSq) := by
    apply isfinite_of_abs_le_256
    simp only [RVector.LengthSq, RVector.Dot, RVector.mul, RVector.Sum]
    norm_num
  have hrad : (1 : K) - 0 * 0 - 0 * 0 = 1 := by norm_num
  have hfl : RVector.Normalized sqrt (⟨1, Develop.FLimit, 0, 0⟩ : RVector K)
      = some ⟨1 / sqrt (41 / 25), 4 / 5 / sqrt (41 / 25), 0 / sqrt (41 / 25),
          0 / sqrt (41 / 25)⟩ := by
    simp only [RVector.Normalized, RVector.Length, RVector.LengthSq, RVector.Dot, RVector.mul,
      RVector.Sum, RVector.sdiv, Develop.FLimit, harg, hne, if_false]
  have hld : RVector.Normalized sqrt (⟨0, 0, 1, 0⟩ : RVector K) = some ⟨0, 0, 1, 0⟩ := by
    have e : (0 : K) * 0 + 0 * 0 + 1 * 1 = 1 := by norm_num
    simp only [RVector.Normalized, RVector.Length, RVector.LengthSq, RVector.Dot, RVector.mul,
      RVector.Sum, RVector.sdiv, e, hs1, one_ne_zero, if_false, zero_div, div_one]
  have hdot : (⟨0, 0, 1, 0⟩ : RVector K).Dot ⟨0, 0, 1, 0⟩ = 1 := by
    simp only [RVector.Dot, RVector.mul, RVector.Sum]; norm_num
  have hsub : (⟨0, 0, 1 - 1, 0⟩ : RVector K).sub ⟨0, 0, 1, 0⟩ = ⟨0, 0, -1, 0⟩ := by
    simp only [RVector.sub]; norm_num
  have hpd : RVector.Normalized sqrt (⟨0, 0, -1, 0⟩ : RVector K) = some ⟨0, 0, -1, 0⟩ := by
    have e : (0 : K) * 0 + 0 * 0 + -1 * -1 = 1 := by norm_num
    simp only [RVector.Normalized, RVector.Length, RVector.LengthSq, RVector.Dot, RVector.mul,
      RVector.Sum, RVector.sdiv, e, hs1, one_ne_zero, if_false, zero_div, div_one]
  have hz1 : ¬ (-(-1 : K) = 0) := by norm_num
  generalize hd : (1 : K) / (1 / 1 - 1 / (2 + (frameIdx : K) / 32)) = d at hd0 hd2
  have fd : isfinite (-d) := by
    apply isfinite_of_abs_le_256
    rw [abs_neg, abs_of_nonneg hd0]; linarith
  have hquot : (((⟨0, 0, -1, 0⟩ : RVector K).smul d).sdiv (-(-1))).finite
      = some ⟨0, 0, -d, 0⟩ := by
    have e : ((⟨0, 0, -1, 0⟩ : RVector K).smul d).sdiv (-(-1)) = ⟨0, 0, -d, 0⟩ := by
      simp only [RVector.smul, RVector.sdiv]; norm_num
    rw [e]
    exact RVector.finite_of_isfinite _ ⟨z, z, fd, z⟩
  have himg : ((⟨0, 0, 0, 0⟩ : RVector K).add ⟨0, 0, -d, 0⟩).finite = some ⟨0, 0, -d, 0⟩ := by
    have e : (⟨0, 0, 0, 0⟩ : RVector K).add ⟨0, 0, -d, 0⟩ = ⟨0, 0, -d, 0⟩ := by
      simp only [RVector.add]; norm_num
    rw [e]
    exact RVector.finite_of_isfinite _ ⟨z, z, fd, z⟩
  have hprod : ((⟨0, 0, -d, 0⟩ : RVector K).mul
      ⟨128 * lensRad * csqrt 2 / -2, 128 * lensRad * csqrt 2 / -2, 0, 0⟩).finite
      = some ⟨0, 0, 0, 0⟩ := by
    have e : (⟨0, 0, -d, 0⟩ : RVector K).mul
        ⟨128 * lensRad * csqrt 2 / -2, 128 * lensRad * csqrt 2 / -2, 0, 0⟩ = ⟨0, 0, 0, 0⟩ := by
      simp only [RVector.mul]; norm_num
    rw [e]
    exact RVector.finite_of_isfinite _ f0
  have hsum : ((⟨0, 0, 0, 0⟩ : RVector K).add Develop.half).finite = some ⟨128, 128, 0, 0⟩ := by
    have e : (⟨0, 0, 0, 0⟩ : RVector K).add Develop.half = ⟨128, 128, 0, 0⟩ := by
      simp only [RVector.add, Develop.half, RVector.sdiv, Develop.Width, Develop.Height]
      norm_num
    have f128 : isfinite (128 : K) := by
      apply isfinite_of_abs_le_256; rw [abs_of_pos (by norm_num)]; norm_num
    rw [e]
    exact RVector.finite_of_isfinite _ ⟨f128, f128, z, z⟩
  simp only [Develop.pixel, hS, e1, e2, e3, e4, hrec, Develop.FocalLen, hlen, not_true_eq_false,
    if_false, hrad, hfl, hld, hs1, hdot, hmask, hsub, hpd, hz1, hd, hquot, himg, hprod, hsum,
    (by norm_num : ¬ ((1 : K) < 0))]

omit [FloorRing K] in
/-- The image `Develop` starts a frame with: 65536 zero pixels. -/
theorem RImage.new_develop :
    (RImage.new ⟨(Develop.Width : Nat), (Develop.Height : Nat)⟩ : RImage K)
      = ⟨⟨256, 256⟩, List.replicate 65536 ⟨0, 0, 0, 0⟩⟩ := by
  have h : ((256 : ℤ) * 256).toNat = 65536 := rfl
  simp only [RImage.new, Develop.Width, Develop.Height, Nat.cast_ofNat, h]

theorem int32_of_mem (v : K) (h0 : 0 ≤ v) (h1 : v < 2147483648) :
    int32 v = truncate v ∧ 0 ≤ truncate v := by
  have ht0 : (0 : ℤ) ≤ truncate v := by
    unfold truncate; rw [if_pos h0]; exact Int.floor_nonneg.mpr h0
  have ht1 : truncate v < 2147483648 :=
    truncate_lt_of_lt (by norm_num) (by push_cast; exact h1)
  refine ⟨?_, ht0⟩
  unfold int32
  exact if_pos ⟨by omega, by omega⟩

/-- The boundary checks on a finite pixel whose coordinates are in the
range of `int`: the hit is dropped or the access is inside the image. -/
theorem Develop.expose_in_range (image : RImage K) (pixel : RVector K) (Clr : BColor)
    (hx : pixel.x < 2147483648) (hy : pixel.y < 2147483648)
    (hW : 0 ≤ image.Dimensions.x)
    (hlen : (image.pix.length : ℤ) = image.Dimensions.y * image.Dimensions.x) :
    Develop.expose image (some pixel) Clr = some image ∨
    (0 ≤ pixel.x ∧ 0 ≤ pixel.y ∧
      0 ≤ truncate pixel.x ∧ truncate pixel.x < image.Dimensions.x ∧
      0 ≤ truncate pixel.y ∧ truncate pixel.y < image.Dimensions.y ∧
      0 ≤ truncate pixel.y * image.Dimensions.x + truncate pixel.x ∧
      truncate pixel.y * image.Dimensions.x + truncate pixel.x
        < image.Dimensions.y * image.Dimensions.x ∧
      Develop.expose image (some pixel) Clr
        = some { image with
            pix := image.pix.set (truncate pixel.y * image.Dimensions.x + truncate pixel.x).toNat
              ((image.pix.getD (truncate pixel.y * image.Dimensions.x + truncate pixel.x).toNat
                ⟨0, 0, 0, 0⟩).add (RGBSystem.Load Clr)) }) := by
  by_cases hlow : pixel.x < 0 ∨ pixel.y < 0
  · left
    simp only [Develop.expose, hlow, if_true]
  · have hx0 : 0 ≤ pixel.x := not_lt.mp (fun h => hlow (Or.inl h))
    have hy0 : 0 ≤ pixel.y := not_lt.mp (fun h => hlow (Or.inr h))
    obtain ⟨ex, tx0⟩ := int32_of_mem pixel.x hx0 hx
    obtain ⟨ey, ty0⟩ := int32_of_mem pixel.y hy0 hy
    by_cases hup : truncate pixel.x ≥ image.Dimensions.x ∨ truncate pixel.y ≥ image.Dimensions.y
    · left
      simp only [Develop.expose, hlow, if_false, Coord.ofReal, ex, ey, hup, if_true]
    · right
      have tx1 : truncate pixel.x < image.Dimensions.x := not_le.mp (fun h => hup (Or.inl h))
      have ty1 : truncate pixel.y < image.Dimensions.y := not_le.mp (fun h => hup (Or.inr h))
      have hi0 : 0 ≤ truncate pixel.y * image.Dimensions.x + truncate pixel.x := by positivity
      have hi1 : truncate pixel.y * image.Dimensions.x + truncate pixel.x
          < image.Dimensions.y * image.Dimensions.x := by nlinarith
      refine ⟨hx0, hy0, tx0, tx1, ty0, ty1, hi0, hi1, ?_⟩
      simp only [Develop.expose, hlow, if_false, Coord.ofReal, ex, ey, hup, RImage.addAt, hlen,
        hi0, hi1, and_self, if_true]

omit [FloorRing K] in
theorem RColor.zero_add (c : RColor K) : (RColor.mk 0 0 0 0 : RColor K).add c = c := by
  simp [RColor.add]

/-- C22 (amended): for every frame index and every lens radius for which
the scale factor `hScale` does not overflow, `128 * |lensRad| * csqrt(2)`
being at most `FLT_MAX` (a radius of up to about `1.88e36`), a film holding
exactly one hit record with `pos = (0, 0)`, `dir = (0, 0)` and the stored
colour `Clr` is developed into an image of 256 by 256 pixels in which the
pixel `(128, 128)` (index `128 * 256 + 128`) receives the photon's colour
`Load(Clr)` and every other pixel is zero; the normalization multiplies the
pixels by the exposure factor of one photon, `131072`.  The run-time square
root is taken exact at 1 and not below `4 / 5` at `41 / 25`, and `csqrt(2)`
not below 1. -/
theorem center_hit_develops_center_pixel (sqrt csqrt : K → K) (frameIdx : Nat) (lensRad : K)
    (hit : HitRecord) (hs1 : sqrt 1 = 1) (hf : 4 / 5 ≤ sqrt (41 / 25))
    (hc : 1 ≤ csqrt 2) (hR : 128 * |lensRad| * csqrt 2 ≤ FLT_MAX)
    (hpu : hit.Pos_u.Value = 0) (hpv : hit.Pos_v.Value = 0)
    (hdu : hit.Dir_u.Value = 0) (hdv : hit.Dir_v.Value = 0) :
    Develop.exposeAll sqrt csqrt frameIdx lensRad
        (RImage.new ⟨(Develop.Width : Nat), (Develop.Height : Nat)⟩) [hit]
      = some ⟨⟨256, 256⟩,
          (List.replicate 65536 (⟨0, 0, 0, 0⟩ : RColor K)).set (128 * 256 + 128)
            (RGBSystem.Load hit.Clr)⟩ ∧
    (∀ i, i < 65536 →
      ((List.replicate 65536 (⟨0, 0, 0, 0⟩ : RColor K)).set (128 * 256 + 128)
          (RGBSystem.Load hit.Clr))[i]?
        = some (if i = 128 * 256 + 128 then RGBSystem.Load hit.Clr else ⟨0, 0, 0, 0⟩)) ∧
    Develop.frame sqrt csqrt (Develop.exposure 1) frameIdx lensRad [hit]
      = some (((List.replicate 65536 (⟨0, 0, 0, 0⟩ : RColor K)).set (128 * 256 + 128)
          (RGBSystem.Load hit.Clr)).map (fun c => some (c.smul 131072))) := by
  have hpix := Develop.pixel_center sqrt csqrt frameIdx lensRad hit hs1 hf hc hR hpu hpv hdu hdv
  have ht : truncate (128 : K) = 128 := by
    have := truncate_intCast (K := K) 128
    simpa using this
  have hexp : Develop.expose (⟨⟨256, 256⟩, List.replicate 65536 ⟨0, 0, 0, 0⟩⟩ : RImage K)
      (some ⟨128, 128, 0, 0⟩) hit.Clr
      = some ⟨⟨256, 256⟩,
          (List.replicate 65536 (⟨0, 0, 0, 0⟩ : RColor K)).set (128 * 256 + 128)
            (RGBSystem.Load hit.Clr)⟩ := by
    have hlow : ¬ ((128 : K) < 0 ∨ (128 : K) < 0) := by norm_num
    have hup : ¬ ((128 : ℤ) ≥ 256 ∨ (128 : ℤ) ≥ 256) := by norm_num
    have e32 : int32 (128 : K) = 128 := by
      rw [(int32_of_mem (128 : K) (by norm_num) (by norm_num)).1, ht]
    have hidx : (128 : ℤ) * 256 + 128 = 32896 := by norm_num
    have hc : (0 : ℤ) ≤ 32896 ∧ (32896 : ℤ) < ((65536 : ℕ) : ℤ) := by norm_num
    have htn : Int.toNat 32896 = 128 * 256 + 128 := rfl
    have hg : (List.replicate 65536 (⟨0, 0, 0, 0⟩ : RColor K)).getD (128 * 256 + 128) ⟨0, 0, 0, 0⟩
        = ⟨0, 0, 0, 0⟩ := by
      rw [List.getD_eq_getElem?_getD, List.getElem?_replicate]
      norm_num
    simp only [Develop.expose, hlow, if_false, Coord.ofReal, e32, hup, RImage.addAt,
      List.length_replicate, hidx, hc, and_self, if_true, htn, hg, RColor.zero_add]
  refine ⟨?_, ?_, ?_⟩
  · rw [RImage.new_develop]
    simp only [Develop.exposeAll, hpix, hexp]
  · intro i hi
    rw [List.getElem?_set, List.getElem?_replicate]
    by_cases h : 128 * 256 + 128 = i
    · subst h; norm_num
    · have h2 : ¬ i = 128 * 256 + 128 := fun e => h e.symm
      simp only [h, h2, if_false, hi, if_true]
  · have he : (Develop.exposure 1 : Option K) = some 131072 := by
      norm_num [Develop.exposure, Develop.Width, Develop.Height]
    rw [Develop.frame, RImage.new_develop]
    simp only [Develop.exposeAll, hpix, hexp, Option.map_some', Develop.normalize, he]

/-- Witness for C22: frame 7, lens radius 2, a photon of colour
`(1, 1/2, 0)` at the centre, the square root of the source (`csqrt`) run
for 6 turns. -/
theorem center_hit_develops_center_pixel_witness :
    csqrt 6 (1 : ℚ) = 1 ∧ (4 / 5 : ℚ) ≤ csqrt 6 (41 / 25) ∧
    (1 : ℚ) ≤ csqrt 6 2 ∧ 128 * |(2 : ℚ)| * csqrt 6 2 ≤ FLT_MAX ∧
    Develop.exposeAll (csqrt 6) (csqrt 6) 7 (2 : ℚ)
        (RImage.new ⟨(Develop.Width : Nat), (Develop.Height : Nat)⟩)
        [HitRecord.new (0 : ℚ) 0 0 0 ⟨1, 1 / 2, 0, 1⟩]
      = some ⟨⟨256, 256⟩,
          (List.replicate 65536 (⟨0, 0, 0, 0⟩ : RColor ℚ)).set (128 * 256 + 128)
            (RGBSystem.Load (HitRecord.new (0 : ℚ) 0 0 0 ⟨1, 1 / 2, 0, 1⟩).Clr)⟩ :=
  ⟨by decide!, by decide!, by decide!, by decide!,
    (center_hit_develops_center_pixel (csqrt 6) (csqrt 6) 7 (2 : ℚ)
      (HitRecord.new (0 : ℚ) 0 0 0 ⟨1, 1 / 2, 0, 1⟩) (by decide!) (by decide!)
      (by decide!) (by decide!) (by decide!) (by decide!) (by decide!) (by decide!)).1⟩

/-- When the scale factor is not finite every hit of the film is dropped and
the image is left as it is. -/
theorem Develop.exposeAll_of_hScale_none (sqrt csqrt : K → K) (frameIdx : Nat) (lensRad : K)
    (h : Develop.hScale csqrt lensRad = none) (hits : List HitRecord) :
    ∀ image : RImage K,
      Develop.exposeAll sqrt csqrt frameIdx lensRad image hits = some image := by
  induction hits with
  | nil => intro image; rfl
  | cons hit hits ih =>
    intro image
    simp only [Develop.exposeAll, Develop.pixel_of_hScale_none sqrt csqrt frameIdx lensRad hit h,
      Develop.expose, ih]

/-- C22 (counterexample): a positive lens radius for which the centre pixel
does not receive the photon's colour.  With the lens radius `2^121` (a
`float`, about `2.66e36`) the product `half * lensRad` is `2^128`, beyond
`FLT_MAX`: `hScale` is not finite, the pixel of the centre hit is not finite
and the hit is dropped by the lower boundary check.  The image of frame 0
stays as it was created and every pixel of the frame, the pixel
`(128, 128)` included, is zero, although the colour of the photon is not.
At the lens radius `1.9e36` the product with `csqrt(2)` overflows. -/
theorem center_hit_dropped_when_hScale_overflows :
    (0 : ℚ) < 2 ^ 121 ∧ |(2 ^ 121 : ℚ)| ≤ FLT_MAX ∧
    Develop.hScale (csqrt 6) (2 ^ 121 : ℚ) = none ∧
    Develop.hScale (csqrt 6) (19 * 10 ^ 35 : ℚ) = none ∧
    Develop.pixel (csqrt 6) (csqrt 6) 0 (2 ^ 121 : ℚ)
        (HitRecord.new (0 : ℚ) 0 0 0 ⟨1, 1 / 2, 0, 1⟩) = none ∧
    Develop.exposeAll (csqrt 6) (csqrt 6) 0 (2 ^ 121 : ℚ)
        (RImage.new ⟨(Develop.Width : Nat), (Develop.Height : Nat)⟩)
        [HitRecord.new (0 : ℚ) 0 0 0 ⟨1, 1 / 2, 0, 1⟩]
      = some ⟨⟨256, 256⟩, List.replicate 65536 ⟨0, 0, 0, 0⟩⟩ ∧
    Develop.frame (csqrt 6) (csqrt 6) (Develop.exposure 1) 0 (2 ^ 121 : ℚ)
        [HitRecord.new (0 : ℚ) 0 0 0 ⟨1, 1 / 2, 0, 1⟩]
      = some (List.replicate 65536 (some ⟨0, 0, 0, 0⟩)) ∧
    RGBSystem.Load (HitRecord.new (0 : ℚ) 0 0 0 ⟨1, 1 / 2, 0, 1⟩).Clr
      ≠ (⟨0, 0, 0, 0⟩ : RColor ℚ) := by
  have h1 : Develop.hScale (csqrt 6) (2 ^ 121 : ℚ) = none :=
    Develop.hScale_of_gt (csqrt 6) (2 ^ 121 : ℚ) (Or.inl (by
      rw [abs_of_pos (by norm_num)]; unfold FLT_MAX; norm_num))
  have h2 : Develop.hScale (csqrt 6) (19 * 10 ^ 35 : ℚ) = none := by decide!
  have h3 := Develop.exposeAll_of_hScale_none (csqrt 6) (csqrt 6) 0 (2 ^ 121 : ℚ) h1
    [HitRecord.new (0 : ℚ) 0 0 0 ⟨1, 1 / 2, 0, 1⟩]
    (RImage.new ⟨(Develop.Width : Nat), (Develop.Height : Nat)⟩)
  rw [RImage.new_develop] at h3
  have he : (Develop.exposure 1 : Option ℚ) = some 131072 := by
    norm_num [Develop.exposure, Develop.Width, Develop.Height]
  refine ⟨by norm_num, by rw [abs_of_pos (by norm_num)]; unfold FLT_MAX; norm_num, h1, h2,
    Develop.pixel_of_hScale_none _ _ _ _ _ h1, ?_, ?_, by decide!⟩
  · rw [RImage.new_develop]; exact h3
  · rw [Develop.frame, RImage.new_develop, h3, he]
    simp only [Option.map_some', Develop.normalize, List.map_replicate, RColor.smul, zero_mul]

end DevelopCenter

/-! ### `Develop` on a film without hit records -/

section DevelopEmpty

variable {K : Type} [LinearOrderedField K] [FloorRing K]

omit [FloorRing K] in
/-- For no photon the divisor of the exposure factor is zero and the factor
is not finite; for `n > 0` photons it is `2 * 65536 / n`. -/
theorem Develop.exposure_cases (photons : Nat) :
    ((Develop.exposure 0 : Option K) = none) ∧
    (0 < photons → (Develop.exposure photons : Option K) = some (2 * 65536 / (photons : K))) := by
  constructor
  · simp [Develop.exposure]
  · intro h
    have hp : (photons : K) ≠ 0 := by exact_mod_cast (Nat.pos_iff_ne_zero.mp h)
    have hd : (photons : K) / ((Develop.Width * Develop.Height : Nat) : K) ≠ 0 := by
      simp [Develop.Width, Develop.Height, hp]
    simp only [Develop.exposure, hd, if_false, Option.some.injEq]
    simp only [Develop.Width, Develop.Height]
    field_simp
    norm_num

/-- A frame of a film without hit records: every pixel is the zero pixel
times the exposure factor. -/
theorem Develop.frame_nil (sqrt csqrt : K → K) (exposure : Option K) (frameIdx : Nat)
    (lensRad : K) :
    Develop.frame sqrt csqrt exposure frameIdx lensRad []
      = some (List.replicate 65536
          (exposure.map (fun e => (⟨0, 0, 0, 0⟩ : RColor K).smul e))) := by
  rw [Develop.frame, RImage.new_develop]
  simp only [Develop.exposeAll, Option.map_some', Develop.normalize, List.map_replicate]

/-- C23 (amended): when the film file holds no hit record (the file header,
the `Config` block and any number of empty `Hits` blocks), the exposure
scan of `Develop` counts 0 photons, the exposure factor
`2 / (0 / (Width * Height))` is a division by zero and is not finite, and
the normalization, which is not skipped, multiplies every pixel of every
frame by it: every pixel of every frame is not finite. -/
theorem empty_film_pixels_not_finite (sqrt csqrt : K → K) (LensRadius n fuel : Nat)
    (hfuel : n + 2 < fuel) (frameIdx : Nat) (lensRad : K) :
    countPhotons HitRecord.layout fuel
        (FileHeader.bytes ++ (ConfigHeader.new LensRadius).bytes
          ++ encodeFilm HitRecord.layout ((List.replicate n []).map FilmBlock.hits))
      = some 0 ∧
    ((0 : Nat) : K) / ((Develop.Width * Develop.Height : Nat) : K) = 0 ∧
    (Develop.exposure 0 : Option K) = none ∧
    Develop.frame sqrt csqrt (Develop.exposure 0) frameIdx lensRad []
      = some (List.replicate 65536 none) := by
  have hwf : ∀ c ∈ List.replicate n ([] : List HitRecord),
      (FilmBlock.hits c).wf HitRecord.layout := by
    intro c hc
    rw [List.eq_of_mem_replicate hc]
    simp [FilmBlock.wf, sizeofFilmHeader]
  have hc := countPhotons_chunks HitRecord.layout LensRadius (List.replicate n []) hwf fuel
    (by rw [List.length_replicate]; exact hfuel)
  have hsum : ((List.replicate n ([] : List HitRecord)).map List.length).sum = 0 := by
    simp
  rw [hsum] at hc
  have he := (Develop.exposure_cases (K := K) 0).1
  refine ⟨hc, by simp, he, ?_⟩
  rw [Develop.frame_nil, he]
  rfl

/-- Witness for C23 (amended): the film of a render of four workers that
captured nothing (four empty `Hits` blocks), frame 0. -/
theorem empty_film_pixels_not_finite_witness :
    4 + 2 < 7 ∧
    countPhotons HitRecord.layout 7
        (FileHeader.bytes ++ (ConfigHeader.new 0x40000000).bytes
          ++ encodeFilm HitRecord.layout ((List.replicate 4 []).map FilmBlock.hits))
      = some 0 ∧
    Develop.frame (csqrt 6) (csqrt 6) (Develop.exposure 0) 0 (2 : ℚ) []
      = some (List.replicate 65536 none) :=
  ⟨by norm_num,
    (empty_film_pixels_not_finite (csqrt 6) (csqrt 6) 0x40000000 4 7 (by norm_num) 0 (2 : ℚ)).1,
    (empty_film_pixels_not_finite (csqrt 6) (csqrt 6) 0x40000000 4 7 (by norm_num) 0
      (2 : ℚ)).2.2.2⟩

/-- C23 (counterexample): for a film without hit records the divisor of
the exposure factor is zero, the factor is not finite, and the pixel
`(0, 0)` of frame 0 is not the zero pixel: it is not finite. -/
theorem empty_film_pixel_is_not_zero :
    ((0 : Nat) : ℚ) / ((Develop.Width * Develop.Height : Nat) : ℚ) = 0 ∧
    (Develop.exposure 0 : Option ℚ) = none ∧
    (Develop.frame (csqrt 6) (csqrt 6) (Develop.exposure 0) 0 (2 : ℚ) []).map
        (fun px => px[0]?) = some (some none) ∧
    (some (some none) : Option (Option (Option (RColor ℚ))))
      ≠ some (some (some ⟨0, 0, 0, 0⟩)) := by
  have he := (Develop.exposure_cases (K := ℚ) 0).1
  refine ⟨by simp, he, ?_, by simp⟩
  rw [Develop.frame_nil, he]
  simp only [Option.map_some', Option.map_none', List.getElem?_replicate]
  norm_num

end DevelopEmpty

/-! ### `Develop`: the boundary checks -/

section DevelopBounds

variable {K : Type} [LinearOrderedField K] [FloorRing K]

/-- From `2^31` on the conversion to `int` is out of range and yields
`INT_MIN`. -/
theorem int32_of_ge (v : K) (h : 2147483648 ≤ v) : int32 v = -2147483648 := by
  have h0 : (0 : K) ≤ v := le_trans (by norm_num) h
  have ht : 2147483648 ≤ truncate v := by
    unfold truncate
    rw [if_pos h0]
    exact Int.le_floor.mpr (by push_cast; exact h)
  unfold int32
  exact if_neg (fun hc => by omega)

/-- A finite pixel with `x ≥ 2^31` and `0 ≤ y < 256` passes the lower
boundary checks; the conversion `Coord{pixel.x, pixel.y}` takes `x` out of
the range of `int` and yields `INT_MIN`, which passes the upper boundary
check `coord.x >= 256`; the accumulation then addresses the element
`coord.y * 256 - 2^31`, outside the image. -/
theorem Develop.expose_of_ge (image : RImage K) (pixel : RVector K) (Clr : BColor)
    (hD : image.Dimensions = ⟨256, 256⟩) (hx : 2147483648 ≤ pixel.x)
    (hy0 : 0 ≤ pixel.y) (hy1 : pixel.y < 256) :
    (Coord.ofReal pixel.x pixel.y).x = -2147483648 ∧
    (Coord.ofReal pixel.x pixel.y).y = truncate pixel.y ∧
    ¬ ((Coord.ofReal pixel.x pixel.y).x ≥ image.Dimensions.x
        ∨ (Coord.ofReal pixel.x pixel.y).y ≥ image.Dimensions.y) ∧
    (Coord.ofReal pixel.x pixel.y).y * image.Dimensions.x + (Coord.ofReal pixel.x pixel.y).x < 0 ∧
    Develop.expose image (some pixel) Clr = none := by
  have ex := int32_of_ge pixel.x hx
  obtain ⟨ey, ty0⟩ := int32_of_mem pixel.y hy0 (lt_trans hy1 (by norm_num))
  have ty1 : truncate pixel.y < 256 := truncate_lt_of_lt (by norm_num) (by push_cast; exact hy1)
  have hlow : ¬ (pixel.x < 0 ∨ pixel.y < 0) := by
    have : (0 : K) ≤ pixel.x := le_trans (by norm_num) hx
    rintro (h | h) <;> linarith
  have hup : ¬ ((-2147483648 : ℤ) ≥ 256 ∨ truncate pixel.y ≥ 256) := by
    rintro (h | h) <;> omega
  have hidx : ¬ (0 ≤ truncate pixel.y * 256 + -2147483648
      ∧ truncate pixel.y * 256 + -2147483648 < (image.pix.length : ℤ)) := by
    intro h; omega
  refine ⟨ex, ey, ?_, ?_, ?_⟩
  · simp only [Coord.ofReal, ex, ey, hD]; exact hup
  · simp only [Coord.ofReal, ex, ey, hD]; omega
  · simp only [Develop.expose, hlow, if_false, Coord.ofReal, ex, ey, hD, hup, RImage.addAt, hidx]

/-- The pixel of the oblique sample hit for frame 0 and the lens radius
`2^40`, with `csqrt` run for 3 turns as the square root: it is finite, its
`x` is at least `2^31` and its `y` is 128. -/
theorem Develop.pixel_sample_oblique :
    ∃ p : RVector ℚ,
      Develop.pixel (csqrt 3) (csqrt 3) 0 (2 ^ 40 : ℚ) sampleHitOblique = some p ∧
      2147483648 ≤ p.x ∧ 0 ≤ p.y ∧ p.y < 256 := by
  have hb : (match Develop.pixel (csqrt 3) (csqrt 3) 0 (2 ^ 40 : ℚ) sampleHitOblique with
      | some p => decide (2147483648 ≤ p.x ∧ 0 ≤ p.y ∧ p.y < 256)
      | none => false) = true := by decide!
  cases h : Develop.pixel (csqrt 3) (csqrt 3) 0 (2 ^ 40 : ℚ) sampleHitOblique with
  | none => rw [h] at hb; exact absurd hb (by simp)
  | some p =>
    rw [h] at hb
    exact ⟨p, rfl, of_decide_eq_true hb⟩

/-- C26 (what the code does instead): a hit whose pixel is finite with
`x ≥ 2^31` and `0 ≤ y < 256` is not dropped.  It passes the lower boundary
checks; the conversion `Coord{pixel.x, pixel.y}` takes `x` out of the range
of `int` and yields `INT_MIN`, which passes the upper boundary check
`coord.x >= image.Dimensions.x`; and the accumulation
`image(coord) += color` addresses an element outside the image. -/
theorem Develop_accumulation_out_of_bounds (sqrt csqrt : K → K) (frameIdx : Nat) (lensRad : K)
    (image : RImage K) (hit : HitRecord) (hits : List HitRecord)
    (hD : image.Dimensions = ⟨256, 256⟩)
    (hp : ∃ p : RVector K, Develop.pixel sqrt csqrt frameIdx lensRad hit = some p ∧
      2147483648 ≤ p.x ∧ 0 ≤ p.y ∧ p.y < 256) :
    (∃ p : RVector K, Develop.pixel sqrt csqrt frameIdx lensRad hit = some p ∧
      ¬ (p.x < 0 ∨ p.y < 0) ∧
      (Coord.ofReal p.x p.y).x = -2147483648 ∧
      ¬ ((Coord.ofReal p.x p.y).x ≥ image.Dimensions.x
          ∨ (Coord.ofReal p.x p.y).y ≥ image.Dimensions.y) ∧
      (Coord.ofReal p.x p.y).y * image.Dimensions.x + (Coord.ofReal p.x p.y).x < 0) ∧
    Develop.exposeAll sqrt csqrt frameIdx lensRad image (hit :: hits) = none := by
  obtain ⟨p, hpix, hx, hy0, hy1⟩ := hp
  obtain ⟨h1, _, h3, h4, h5⟩ := Develop.expose_of_ge image p hit.Clr hD hx hy0 hy1
  have hlow : ¬ (p.x < 0 ∨ p.y < 0) := by
    have : (0 : K) ≤ p.x := le_trans (by norm_num) hx
    rintro (h | h) <;> linarith
  refine ⟨⟨p, hpix, hlow, h1, h3, h4⟩, ?_⟩
  simp only [Develop.exposeAll, hpix, h5]

/-- Witness for C26: the film with the lens radius `2^40` and the oblique
sample hit; frame 0 accesses the image outside its bounds. -/
theorem Develop_accumulation_out_of_bounds_witness :
    (∃ p : RVector ℚ,
      Develop.pixel (csqrt 3) (csqrt 3) 0 (2 ^ 40 : ℚ) sampleHitOblique = some p ∧
      2147483648 ≤ p.x ∧ 0 ≤ p.y ∧ p.y < 256) ∧
    Develop.exposeAll (csqrt 3) (csqrt 3) 0 (2 ^ 40 : ℚ)
      (RImage.new ⟨(Develop.Width : Nat), (Develop.Height : Nat)⟩) [sampleHitOblique] = none :=
  ⟨Develop.pixel_sample_oblique,
    (Develop_accumulation_out_of_bounds (csqrt 3) (csqrt 3) 0 (2 ^ 40 : ℚ)
      (RImage.new ⟨(Develop.Width : Nat), (Develop.Height : Nat)⟩) sampleHitOblique []
      (by rw [RImage.new_develop]) Develop.pixel_sample_oblique).2⟩

end DevelopBounds

/-! ### Flushes of several workers under the lock -/

section FlushStepTheorems

variable {Hit : Type}

theorem FlushSystem.getElem?_setWorker_self (sys : FlushSystem Hit) (i : Nat)
    (w : FlushWorker Hit) (hi : i < sys.workers.length) :
    (sys.setWorker i w).workers[i]? = some w := by
  simp only [FlushSystem.setWorker]
  exact List.getElem?_set_self hi

theorem FlushSystem.getElem?_setWorker_ne (sys : FlushSystem Hit) (i j : Nat)
    (w : FlushWorker Hit) (h : j ≠ i) :
    (sys.setWorker i w).workers[j]? = sys.workers[j]? := by
  simp only [FlushSystem.setWorker]
  exact List.getElem?_set_ne (fun e => h e.symm)

theorem FlushSystem.pending_none (L : Layout Hit) (s : DataStream)
    (ws : List (FlushWorker Hit)) : FlushSystem.pending L ⟨s, none, ws⟩ = [] := rfl

theorem FlushSystem.pending_owner (L : Layout Hit) (s : DataStream) (i : Nat)
    (ws : List (FlushWorker Hit)) (w : FlushWorker Hit) (hw : ws[i]? = some w) :
    FlushSystem.pending L ⟨s, some i, ws⟩
      = if w.pc = .header then (FilmHeader.new L.size (w.film.buf.length % 2 ^ 32)).bytes
        else [] := by
  simp only [FlushSystem.pending, hw]

/-- A step that changes only worker `i`, a worker that does not own the
lock before or after, leaves the begun block as it is. -/
theorem FlushSystem.pending_setWorker (L : Layout Hit) (sys : FlushSystem Hit) (i : Nat)
    (w : FlushWorker Hit) (h : sys.lock ≠ some i) :
    (sys.setWorker i w).pending L = sys.pending L := by
  obtain ⟨s, lock, ws⟩ := sys
  cases lock with
  | none => rfl
  | some k =>
    have hk : k ≠ i := fun e => h (by rw [e])
    simp only [FlushSystem.pending, FlushSystem.setWorker, List.getElem?_set_ne (fun e => hk e.symm)]

/-- A step of a worker outside `Flush` or waiting for the lock, which
leaves it outside `Flush` or waiting, keeps the invariant. -/
theorem FlushSystem.Inv_local (L : Layout Hit) (data0 : List Nat) (sys : FlushSystem Hit)
    (i : Nat) (w w2 : FlushWorker Hit) (hw : sys.workers[i]? = some w)
    (hpc : ¬ (w.pc = .locked ∨ w.pc = .header)) (hpc2 : ¬ (w2.pc = .locked ∨ w2.pc = .header))
    (h : sys.Inv L data0) : (sys.setWorker i w2).Inv L data0 := by
  obtain ⟨hA, hF, hown, hlock, blocks, hdata⟩ := h
  have hi : i < sys.workers.length := (List.getElem?_eq_some.mp hw).1
  have hne : sys.lock ≠ some i := by
    intro e
    obtain ⟨w3, h3, h4⟩ := hlock i e
    rw [hw] at h3
    cases h3
    exact hpc h4
  refine ⟨hA, hF, ?_, ?_, blocks, ?_⟩
  · intro j wj hj hpcj
    by_cases e : j = i
    · subst e
      rw [FlushSystem.getElem?_setWorker_self sys j w2 hi] at hj
      cases hj
      exact absurd hpcj hpc2
    · rw [FlushSystem.getElem?_setWorker_ne sys i j w2 e] at hj
      exact hown j wj hj hpcj
  · intro k hk
    have hk2 : sys.lock = some k := hk
    have e : k ≠ i := fun e => hne (by rw [← e]; exact hk2)
    obtain ⟨w3, h3, h4⟩ := hlock k hk2
    exact ⟨w3, by rw [FlushSystem.getElem?_setWorker_ne sys i k w2 e]; exact h3, h4⟩
  · rw [FlushSystem.pending_setWorker L sys i w2 hne]
    exact hdata

theorem List.take_mod_length {α : Type} (l : List α) (n : Nat) :
    (l.take (l.length % n)).length = l.length % n := by
  rw [List.length_take]
  exact Nat.min_eq_left (Nat.mod_le _ _)

/-- Every step of every worker keeps the invariant. -/
theorem FlushSystem.Inv_one_step (L : Layout Hit) (data0 : List Nat) (sys : FlushSystem Hit)
    (i : Nat) (h : sys.Inv L data0) : (sys.step L i).Inv L data0 := by
  unfold FlushSystem.step
  cases hw : sys.workers[i]? with
  | none => exact h
  | some w =>
    have hi : i < sys.workers.length := (List.getElem?_eq_some.mp hw).1
    simp only []
    cases hpc : w.pc with
    | idle =>
      simp only []
      have hpc1 : ¬ (w.pc = .locked ∨ w.pc = .header) := by rw [hpc]; simp
      cases htodo : w.todo with
      | nil => exact h
      | cons c rest =>
        cases c with
        | expose x =>
          simp only []
          split_ifs
          · exact FlushSystem.Inv_local L data0 sys i w _ hw hpc1 (by simp) h
          · exact FlushSystem.Inv_local L data0 sys i w _ hw hpc1 (by simp) h
        | flush =>
          exact FlushSystem.Inv_local L data0 sys i w _ hw hpc1 (by simp) h
    | waiting =>
      simp only []
      cases hl : sys.lock with
      | some k => exact h
      | none =>
        simp only []
        obtain ⟨hA, hF, hown, hlock, blocks, hdata⟩ := h
        refine ⟨hA, hF, ?_, ?_, blocks, ?_⟩
        · intro j wj hj hpcj
          by_cases e : j = i
          · rw [e]; rfl
          · have hj2 : sys.workers[j]? = some wj := by
              rw [← List.getElem?_set_ne (fun e2 => e e2.symm)]; exact hj
            have := hown j wj hj2 hpcj
            rw [hl] at this
            cases this
        · intro k hk
          have hk2 : some i = some k := hk
          cases hk2
          exact ⟨_, List.getElem?_set_self hi, Or.inl rfl⟩
        · have hp1 : FlushSystem.pending L
              (FlushSystem.setWorker ⟨sys.stream, some i, sys.workers⟩ i ⟨w.film, .locked, w.todo⟩)
              = [] := by
            simp only [FlushSystem.setWorker]
            rw [FlushSystem.pending_owner L _ i _ _ (List.getElem?_set_self hi)]
            simp
          have hp0 : sys.pending L = [] := by
            obtain ⟨s, lock, ws⟩ := sys
            simp only at hl
            subst hl
            rfl
          rw [hp1]
          rw [hp0] at hdata
          exact hdata
    | locked =>
      simp only []
      obtain ⟨hA, hF, hown, hlock, blocks, hdata⟩ := h
      have hli : sys.lock = some i := hown i w hw (Or.inl hpc)
      obtain ⟨a1, a2, a3, a4⟩ := DataStream.Write_atEnd sys.stream
        (FilmHeader.new L.size (w.film.buf.length % 2 ^ 32)).bytes hA hF
      have a1h : (sys.stream.WriteHeader
          (FilmHeader.new L.size (w.film.buf.length % 2 ^ 32)).bytes).1 = false := a1
      rw [if_neg (by rw [a1h]; simp)]
      have hp0 : sys.pending L = [] := by
        obtain ⟨s, lock, ws⟩ := sys
        simp only at hli hw
        subst hli
        rw [FlushSystem.pending_owner L s i ws w hw, hpc]
        simp
      rw [hp0, List.append_nil] at hdata
      refine ⟨a2, a3, ?_, ?_, blocks, ?_⟩
      · intro j wj hj hpcj
        by_cases e : j = i
        · rw [e]; exact hli
        · have hj2 : sys.workers[j]? = some wj := by
            rw [← List.getElem?_set_ne (fun e2 => e e2.symm)]; exact hj
          exact hown j wj hj2 hpcj
      · intro k hk
        have hk2 : sys.lock = some k := hk
        rw [hli] at hk2
        cases hk2
        exact ⟨_, List.getElem?_set_self hi, Or.inr rfl⟩
      · show (sys.stream.Write (FilmHeader.new L.size (w.film.buf.length % 2 ^ 32)).bytes).2.data
          = _
        rw [a4, hdata]
        have hp1 : FlushSystem.pending L
            (FlushSystem.setWorker
              ⟨(sys.stream.WriteHeader
                (FilmHeader.new L.size (w.film.buf.length % 2 ^ 32)).bytes).2,
                sys.lock, sys.workers⟩ i ⟨w.film, .header, w.todo⟩)
            = (FilmHeader.new L.size (w.film.buf.length % 2 ^ 32)).bytes := by
          simp only [FlushSystem.setWorker, hli]
          rw [FlushSystem.pending_owner L _ i _ _ (List.getElem?_set_self hi)]
          simp
        rw [hp1]
    | header =>
      simp only []
      obtain ⟨hA, hF, hown, hlock, blocks, hdata⟩ := h
      have hli : sys.lock = some i := hown i w hw (Or.inr hpc)
      obtain ⟨a1, a2, a3, a4⟩ := DataStream.Write_atEnd sys.stream
        (L.image (w.film.buf.take (w.film.buf.length % 2 ^ 32))) hA hF
      rw [if_neg (by rw [a1]; simp)]
      have hp0 : sys.pending L = (FilmHeader.new L.size (w.film.buf.length % 2 ^ 32)).bytes := by
        obtain ⟨s, lock, ws⟩ := sys
        simp only at hli hw
        subst hli
        rw [FlushSystem.pending_owner L s i ws w hw, hpc]
        simp
      rw [hp0] at hdata
      refine ⟨a2, a3, ?_, ?_, blocks ++ [w.film.buf.take (w.film.buf.length % 2 ^ 32)], ?_⟩
      · intro j wj hj hpcj
        by_cases e : j = i
        · subst e
          have hj2 : (sys.workers.set j ⟨{ w.film with buf := [] }, .idle, w.todo⟩)[j]?
              = some wj := hj
          rw [List.getElem?_set_self hi] at hj2
          cases hj2
          simp at hpcj
        · have hj2 : sys.workers[j]? = some wj := by
            rw [← List.getElem?_set_ne (fun e2 => e e2.symm)]; exact hj
          have := hown j wj hj2 hpcj
          rw [hli] at this
          cases this
          exact absurd rfl e
      · intro k hk
        have hk2 : (none : Option Nat) = some k := hk
        cases hk2
      · show (sys.stream.Write (L.image (w.film.buf.take (w.film.buf.length % 2 ^ 32)))).2.data
          = _
        rw [a4, hdata]
        have hp1 : FlushSystem.pending L
            (FlushSystem.setWorker
              ⟨(sys.stream.Write (L.image (w.film.buf.take (w.film.buf.length % 2 ^ 32)))).2,
                none, sys.workers⟩ i ⟨{ w.film with buf := [] }, .idle, w.todo⟩) = [] := rfl
        rw [hp1]
        simp only [List.map_append, List.map_cons, List.map_nil, List.flatten_append,
          List.flatten_cons, List.flatten_nil, List.append_nil, List.append_assoc,
          ColorFilm.blockBytes, List.take_mod_length]

theorem FlushSystem.Inv_schedule (L : Layout Hit) (data0 : List Nat) (schedule : List Nat) :
    ∀ sys : FlushSystem Hit, sys.Inv L data0 → (sys.run L schedule).Inv L data0 := by
  induction schedule with
  | nil => intro sys h; exact h
  | cons i rest ih =>
    intro sys h
    exact ih _ (FlushSystem.Inv_one_step L data0 sys i h)

/-- A system in which no worker is past `Sync()` and the lock is free
satisfies the invariant for the contents of its own file. -/
theorem FlushSystem.Inv_start (L : Layout Hit) (sys : FlushSystem Hit)
    (h1 : sys.stream.atEnd) (h2 : sys.stream.noFaults) (h3 : sys.lock = none)
    (h4 : ∀ w ∈ sys.workers, w.pc = .idle ∨ w.pc = .waiting) :
    sys.Inv L sys.stream.data := by
  refine ⟨h1, h2, ?_, ?_, [], ?_⟩
  · intro j w hj hpc
    have hm : w ∈ sys.workers := List.mem_iff_getElem?.mpr ⟨j, hj⟩
    rcases h4 w hm with e | e <;> rw [e] at hpc <;> simp at hpc
  · intro i hi
    rw [h3] at hi
    cases hi
  · obtain ⟨s, lock, ws⟩ := sys
    simp only at h3
    subst h3
    simp [FlushSystem.pending]

/-- The steps of one `Flush` taken without another worker in between are
the call `ColorFilm::Flush` of the sequential model: same stream, same film,
and the lock is free again. -/
theorem FlushSystem.flush_alone (L : Layout Hit) (s : DataStream)
    (ws : List (FlushWorker Hit)) (i : Nat) (f : ColorFilm Hit)
    (hw : ws[i]? = some ⟨f, .idle, [.flush]⟩) :
    (FlushSystem.run L ⟨s, none, ws⟩ [i, i, i, i])
      = ⟨(f.Flush L s).2.2, none, ws.set i ⟨(f.Flush L s).2.1, .idle, []⟩⟩ := by
  have hi : i < ws.length := (List.getElem?_eq_some.mp hw).1
  have hs : ∀ (l : List (FlushWorker Hit)) (a : FlushWorker Hit), i < l.length →
      (l.set i a)[i]? = some a := fun l a h => List.getElem?_set_self h
  simp only [FlushSystem.run, List.foldl, FlushSystem.step, FlushSystem.setWorker, hw,
    ColorFilm.countHits, ColorFilm.Flush, List.set_set]
  rw [hs ws _ hi]
  simp only [List.set_set]
  rw [hs ws _ hi]
  simp only [List.set_set]
  by_cases e1 : (s.WriteHeader (FilmHeader.new L.size (f.buf.length % 2 ^ 32)).bytes).1 = true
  · simp only [e1, if_true, List.set_set]
    rw [hs ws _ hi]
  · simp only [e1, if_false, List.set_set, Bool.false_eq_true]
    rw [hs ws _ hi]
    simp only [List.set_set]
    by_cases e2 : ((s.WriteHeader (FilmHeader.new L.size (f.buf.length % 2 ^ 32)).bytes).2.Write
        (L.image (f.buf.take (f.buf.length % 2 ^ 32)))).1 = true
    · simp only [e2, if_true]
    · simp only [e2, if_false, Bool.false_eq_true]

end FlushStepTheorems

/-- C24: while no device write fails, whatever the order in which the
steps of the workers are taken, the file is at every moment its initial
contents, then whole blocks (a `FilmHeader` and the records it counts, one
flush of one worker each), then the header of the block that the owner of
the lock has begun, if it has written it; when no worker holds the lock the
file is whole blocks only. -/
theorem concurrent_flushes_write_whole_blocks {Hit : Type} (L : Layout Hit)
    (sys : FlushSystem Hit) (schedule : List Nat)
    (h1 : sys.stream.atEnd) (h2 : sys.stream.noFaults) (h3 : sys.lock = none)
    (h4 : ∀ w ∈ sys.workers, w.pc = .idle ∨ w.pc = .waiting) :
    ∃ blocks : List (List Hit),
      (sys.run L schedule).stream.data
        = sys.stream.data ++ (blocks.map (ColorFilm.blockBytes L)).flatten
            ++ (sys.run L schedule).pending L ∧
      ((sys.run L schedule).lock = none →
        (sys.run L schedule).stream.data
          = sys.stream.data ++ (blocks.map (ColorFilm.blockBytes L)).flatten) := by
  obtain ⟨_, _, _, _, blocks, hdata⟩ :=
    FlushSystem.Inv_schedule L sys.stream.data schedule sys (FlushSystem.Inv_start L sys h1 h2 h3 h4)
  refine ⟨blocks, hdata, ?_⟩
  intro hl
  rw [hdata]
  generalize sys.run L schedule = r at hl ⊢
  obtain ⟨s, lock, ws⟩ := r
  simp only at hl
  subst hl
  simp [FlushSystem.pending]

theorem concurrent_flushes_write_whole_blocks_witness :
    ∃ blocks : List (List (RawHit 2)),
      (sampleFlushSystem.run (rawLayout 2) sampleSchedule).stream.data
        = sampleFlushSystem.stream.data
            ++ (blocks.map (ColorFilm.blockBytes (rawLayout 2))).flatten
            ++ (sampleFlushSystem.run (rawLayout 2) sampleSchedule).pending (rawLayout 2) ∧
      ((sampleFlushSystem.run (rawLayout 2) sampleSchedule).lock = none →
        (sampleFlushSystem.run (rawLayout 2) sampleSchedule).stream.data
          = sampleFlushSystem.stream.data
              ++ (blocks.map (ColorFilm.blockBytes (rawLayout 2))).flatten) :=
  concurrent_flushes_write_whole_blocks (rawLayout 2) sampleFlushSystem sampleSchedule
    (by decide) (by decide) rfl (by decide)

theorem sampleFlushSystem_run :
    (sampleFlushSystem.run (rawLayout 2) sampleSchedule).stream.data
      = sampleFlushSystem.stream.data
        ++ ColorFilm.blockBytes (rawLayout 2) [⟨[1, 2], rfl⟩, ⟨[3, 4], rfl⟩]
        ++ ColorFilm.blockBytes (rawLayout 2) [⟨[5, 6], rfl⟩] := by
  decide

end StaticRay
